import Mathlib

/-!
# DBFS resource of terraform-provider-databricks: chunked upload protocol

A shallow embedding of `databricks/resource_dbfs.go`.

* The remote DBFS client (`github.com/medivo/databricks-go`) is an external
  collaborator: it is a parameter `DBFS ρ`, a state machine over an arbitrary
  remote state `ρ` whose answers are unconstrained.
* The local file system (`os.Getwd`, `os.Open`, `f.Stat`, `f.Read`) is a
  parameter `LocalFS σ` over an arbitrary open-file state `σ`.  The only fact
  built into the type of `Read` is the `io.Reader` contract
  `0 <= n <= len(buf)`.
* `schema.ResourceData` is the record of the four schema attributes and the
  resource ID. `data.Set` writes a value only when its Go type is the type that
  the schema of `resourceDBFS()` declares for the attribute; otherwise it
  returns an error and writes nothing. The schema declares `is_directory` as
  `schema.TypeString` and every `data.Set("is_directory", ...)` of the code
  passes a `bool` and drops the error, so `is_directory` is never recorded.
* Every function returns, next to its Go result, the remote calls it issued in
  order (`Out.calls`), so that call sequences can be stated and proved.
* The `for` loop of `dbfsUploadFile` may spin for ever on a reader that keeps
  returning zero bytes, so it is driven by a fuel argument; a run that exhausts
  it ends in `Ret.outOfFuel` and keeps the calls issued so far.
* Go's `int` is taken to be 64 bits wide, so `int(fstat.Size())` and
  `int(fileSize)` do not truncate.
-/

namespace Databricks

/-! ## Values -/

/-- One byte of a Go `[]byte`. -/
abbrev Byte := Fin 256

/-- A non-nil Go `error` value, identified by its message. -/
abbrev Err := String

/-- The `int64` handle returned by `DBFS().Create`. -/
abbrev Handle := Int

/-! ## Remote calls -/

/-- A call on the remote DBFS service together with its arguments. -/
inductive Call where
  | mkdirs (path : String)
  | create (path : String) (overwrite : Bool)
  | addBlock (handle : Handle) (data : List Byte)
  | close (handle : Handle)
  | getStatus (path : String)
  | delete (path : String) (recursive : Bool)
  deriving DecidableEq, Repr

/-- A remote call and the error it returned (`none` is Go's `nil`). -/
structure Event where
  call : Call
  err : Option Err
  deriving DecidableEq, Repr

/-- The DBFS client `client.(*db.Client).DBFS()`: each method maps the remote
state and the arguments to an answer and the next remote state. -/
structure DBFS (ρ : Type) where
  Mkdirs : ρ → String → Option Err × ρ
  Create : ρ → String → Bool → Except Err Handle × ρ
  AddBlock : ρ → Handle → List Byte → Option Err × ρ
  Close : ρ → Handle → Option Err × ρ
  GetStatus : ρ → String → Except Err (Bool × Int) × ρ
  Delete : ρ → String → Bool → Option Err × ρ

/-! ## Local file system -/

/-- The result `(n, err)` of `f.Read(buf)` on a buffer of `want` bytes, as far as
`dbfsUploadFile` looks at it: `err == io.EOF`, another `err != nil`, or
`err == nil` with the `n = bs.length` bytes placed at the front of the buffer.
The bound is the `io.Reader` contract `0 <= n <= len(buf)`. -/
inductive ReadResult (want : Nat) where
  | ok (bs : List Byte) (h : bs.length ≤ want)
  | eof
  | fail (e : Err)

/-- The local operating-system calls used by `dbfsUploadFile`. -/
structure LocalFS (σ : Type) where
  Getwd : Except Err String
  Open : String → Except Err σ
  Stat : σ → Except Err Nat
  Read : σ → (want : Nat) → ReadResult want × σ

/-! ## Go's `path` and `strings` helpers (standard library) -/

/-- The elements of a path between its slashes (`"a//b"` gives `a`, empty, `b`). -/
def splitSlash : List Char → List (List Char)
  | [] => [[]]
  | c :: cs =>
    match splitSlash cs with
    | [] => [[]]
    | seg :: segs => if c = '/' then [] :: seg :: segs else (c :: seg) :: segs

/-- One step of `path.Clean` over the stack of kept elements (top first): empty
and `.` elements are dropped; `..` removes the element before it, is dropped at
the root of a rooted path, and is kept at the front of a relative path. -/
def cleanStep (rooted : Bool) (stack : List (List Char)) (seg : List Char) :
    List (List Char) :=
  if seg = [] ∨ seg = ['.'] then stack
  else if seg = ['.', '.'] then
    match stack with
    | [] => if rooted then [] else [seg]
    | top :: rest => if top = ['.', '.'] then seg :: stack else rest
  else seg :: stack

/-- A path element that `path.Clean` keeps as it is: not empty, not `.`, not
`..`, and without a slash. -/
def IsName (seg : List Char) : Prop :=
  seg ≠ [] ∧ seg ≠ ['.'] ∧ seg ≠ ['.', '.'] ∧ '/' ∉ seg

instance (seg : List Char) : Decidable (IsName seg) := by
  unfold IsName
  infer_instance

/-- Path elements joined by single slashes. -/
def joinSlash : List (List Char) → List Char
  | [] => []
  | [seg] => seg
  | seg :: rest => seg ++ '/' :: joinSlash rest

/-- Go's `path.Clean` on the characters of a path. -/
def cleanChars (p : List Char) : List Char :=
  if p = [] then ['.']
  else
    let rooted := p.head? = some '/'
    let body := joinSlash ((splitSlash p).foldl (cleanStep rooted) []).reverse
    if rooted then '/' :: body
    else if body = [] then ['.'] else body

/-- Go's `path.Clean`. -/
def pathClean (p : String) : String := String.mk (cleanChars p.data)

/-- Go's `path.Join` of two elements: empty elements are ignored, the rest is
joined by a slash and cleaned; the result is empty when both are. -/
def pathJoin (a b : String) : String :=
  if a.data = [] ∧ b.data = [] then ""
  else if a.data = [] then pathClean b
  else if b.data = [] then pathClean a
  else String.mk (cleanChars (a.data ++ '/' :: b.data))

/-- The part of a path up to and including its last slash (`path.Split`). -/
def dirPart : List Char → List Char
  | [] => []
  | c :: cs =>
    if c = '/' then c :: dirPart cs
    else
      match dirPart cs with
      | [] => []
      | d => c :: d

/-- Go's `path.Dir`. -/
def pathDir (p : String) : String := String.mk (cleanChars (dirPart p.data))

/-- Go's `strings.Index(s, "/")`: the byte offset of the first slash, or `-1`. -/
def stringsIndexSlash : List Char → Int
  | [] => -1
  | c :: cs =>
    if c = '/' then 0
    else
      let i := stringsIndexSlash cs
      if i < 0 then -1 else i + c.utf8Size

/-! ## Resource data -/

/-- The value types that the schema of the resource uses. -/
inductive ValueType where
  | TypeString
  | TypeInt
  deriving DecidableEq, Repr

/-- A Go value as it is handed to `data.Set`. -/
inductive Value where
  | string (s : String)
  | int (n : Int)
  | bool (b : Bool)
  deriving DecidableEq, Repr

/-- The `Schema` map of `resourceDBFS()` (lines 20-38): the declared type of each
attribute. `is_directory` is declared `schema.TypeString`. -/
def resourceDBFS (key : String) : Option ValueType :=
  if key = "dbfs_path" then some ValueType.TypeString
  else if key = "source" then some ValueType.TypeString
  else if key = "is_directory" then some ValueType.TypeString
  else if key = "file_size" then some ValueType.TypeInt
  else none

/-- The `schema.ResourceData` of the `databricks_dbfs` resource: the configured
`dbfs_path` and `source` (a string with default `""`), the computed
`is_directory` (a string attribute) and `file_size` (`none` while never set),
and the resource ID (`""` while unset). -/
structure ResourceData where
  dbfs_path : String
  source : String
  is_directory : Option String
  file_size : Option Int
  id : String
  deriving DecidableEq, Repr

/-- The method `data.Set(key, value)` of `helper/schema`: the value is written
when its Go type is the type the schema declares for `key` (a string for
`TypeString`, an int for `TypeInt`); otherwise, and for a key the schema does not
have, `Set` returns an error and writes nothing. -/
def ResourceData.Set (d : ResourceData) (key : String) (v : Value) :
    Option Err × ResourceData :=
  match resourceDBFS key, v with
  | some ValueType.TypeString, Value.string s =>
    if key = "dbfs_path" then (none, { d with dbfs_path := s })
    else if key = "source" then (none, { d with source := s })
    else (none, { d with is_directory := some s })
  | some ValueType.TypeInt, Value.int n => (none, { d with file_size := some n })
  | some _, _ => (some (key ++ ": unconvertible type"), d)
  | none, _ => (some ("Invalid address to set: " ++ key), d)

/-! ## Results -/

/-- How a function ended: `return nil`, `return err`, or loop fuel exhausted. -/
inductive Ret where
  | ok
  | error (e : Err)
  | outOfFuel
  deriving DecidableEq, Repr

/-- The result of `return err` for an `err` that may be `nil`. -/
def Ret.ofErr : Option Err → Ret
  | none => Ret.ok
  | some e => Ret.error e

/-- One iteration of the upload loop: `pos` and `bufSize` when it starts, and
the `bytesRead` of its read when the read returned no error. -/
structure Iter where
  pos : Nat
  bufSize : Nat
  bytesRead : Option Nat
  deriving DecidableEq, Repr

/-- What the upload loop leaves behind. -/
structure LoopOut (ρ : Type) where
  ret : Ret
  remote : ρ
  pos : Nat
  calls : List Event
  iters : List Iter

/-- What a resource function leaves behind: its result, the remote state, the
resource data, the remote calls it issued in order, the path given to `os.Open`
(if it was called), and the iterations and final `pos` of the upload loop. -/
structure Out (ρ : Type) where
  ret : Ret
  remote : ρ
  data : ResourceData
  calls : List Event
  opened : Option String
  iters : List Iter
  pos : Nat

/-! ## `dbfsUploadFile` -/

/-- The buffer `buf` after `f.Read(buf)` returned `bs.length` bytes with no
error: `make([]byte, bufSize)` is all zero and the bytes read sit at its front. -/
def padded (bufSize : Nat) (bs : List Byte) : List Byte :=
  bs ++ List.replicate (bufSize - bs.length) (0 : Byte)

/-- The `for` loop of `dbfsUploadFile` (lines 188-214). `pos` and `fsize` are
`int64` and `bufSize` is `int` in Go; they are natural numbers here. Every
iteration starts with `pos <= fsize` (`uploadLoop_iters_inv`), so `fsize - pos`
is never negative, and nothing comes near the `int64` range. -/
def uploadLoop {ρ σ : Type} (C : DBFS ρ) (L : LocalFS σ) (handle : Handle) (fsize : Nat) :
    Nat → ρ → σ → Nat → Nat → LoopOut ρ
  | 0, r, _, pos, _ => ⟨Ret.outOfFuel, r, pos, [], []⟩
  | fuel + 1, r, f, pos, bufSize =>
    match L.Read f bufSize with
    | (ReadResult.eof, _) => ⟨Ret.ok, r, pos, [], [⟨pos, bufSize, none⟩]⟩
    | (ReadResult.fail e, _) => ⟨Ret.error e, r, pos, [], [⟨pos, bufSize, none⟩]⟩
    | (ReadResult.ok bs _, f1) =>
      let buf := padded bufSize bs
      let bytesRead := bs.length
      let it : Iter := ⟨pos, bufSize, some bytesRead⟩
      match C.AddBlock r handle buf with
      | (some e, r1) => ⟨Ret.error e, r1, pos, [⟨Call.addBlock handle buf, some e⟩], [it]⟩
      | (none, r1) =>
        let pos1 := pos + bytesRead
        if pos1 = fsize then
          ⟨Ret.ok, r1, pos1, [⟨Call.addBlock handle buf, none⟩], [it]⟩
        else
          let bufSize1 := if fsize - pos1 < 900000 then fsize - pos1 else bufSize
          let o := uploadLoop C L handle fsize fuel r1 f1 pos1 bufSize1
          ⟨o.ret, o.remote, o.pos, ⟨Call.addBlock handle buf, none⟩ :: o.calls, it :: o.iters⟩

/-- Lines 155-162: the source is cleaned and, when it does not start with a
slash, joined to the working directory. -/
def resolveSource {σ : Type} (L : LocalFS σ) (source : String) : Except Err String :=
  let source := pathClean source
  if stringsIndexSlash source.data ≠ 0 then
    match L.Getwd with
    | Except.error e => Except.error e
    | Except.ok wd => Except.ok (pathJoin wd source)
  else Except.ok source

/-- The function `dbfsUploadFile` of `resource_dbfs.go`. The errors that
`data.Set` returns are dropped, as in the source. -/
def dbfsUploadFile {ρ σ : Type} (C : DBFS ρ) (L : LocalFS σ) (fuel : Nat) (r : ρ)
    (data : ResourceData) (dbfsPath source : String) : Out ρ :=
  match C.Create r dbfsPath true with
  | (Except.error e, r1) =>
    ⟨Ret.error e, r1, data, [⟨Call.create dbfsPath true, some e⟩], none, [], 0⟩
  | (Except.ok handle, r1) =>
    let created : Event := ⟨Call.create dbfsPath true, none⟩
    let data := (data.Set "is_directory" (Value.bool false)).2
    match resolveSource L source with
    | Except.error e => ⟨Ret.error e, r1, data, [created], none, [], 0⟩
    | Except.ok source =>
      match L.Open source with
      | Except.error e => ⟨Ret.error e, r1, data, [created], some source, [], 0⟩
      | Except.ok f =>
        match L.Stat f with
        | Except.error e => ⟨Ret.error e, r1, data, [created], some source, [], 0⟩
        | Except.ok fsize =>
          let data := (data.Set "file_size" (Value.int (fsize : Int))).2
          let bufSize := if fsize < 900000 then fsize else 900000
          let o := uploadLoop C L handle fsize fuel r1 f 0 bufSize
          match o.ret with
          | Ret.error e => ⟨Ret.error e, o.remote, data, created :: o.calls, some source, o.iters, o.pos⟩
          | Ret.outOfFuel =>
            ⟨Ret.outOfFuel, o.remote, data, created :: o.calls, some source, o.iters, o.pos⟩
          | Ret.ok =>
            let data := { data with id := dbfsPath }
            match C.Close o.remote handle with
            | (ce, r2) =>
              ⟨Ret.ofErr ce, r2, data, created :: o.calls ++ [⟨Call.close handle, ce⟩],
                some source, o.iters, o.pos⟩

/-! ## The resource functions -/

/-- The function `resourceDBFSCreate`. `data.Get("source")` is a string for this
schema, so the type assertion at line 50 always succeeds. The error that
`data.Set` returns is dropped, as in the source. -/
def resourceDBFSCreate {ρ σ : Type} (C : DBFS ρ) (L : LocalFS σ) (fuel : Nat) (r : ρ)
    (data : ResourceData) : Out ρ :=
  let dbfsPath := data.dbfs_path
  let src := data.source
  if src.length = 0 then
    match C.Mkdirs r dbfsPath with
    | (some e, r1) => ⟨Ret.error e, r1, data, [⟨Call.mkdirs dbfsPath, some e⟩], none, [], 0⟩
    | (none, r1) =>
      ⟨Ret.ok, r1, { (data.Set "is_directory" (Value.bool true)).2 with id := dbfsPath },
        [⟨Call.mkdirs dbfsPath, none⟩], none, [], 0⟩
  else
    match C.Mkdirs r (pathDir dbfsPath) with
    | (m, r1) =>
      let o := dbfsUploadFile C L fuel r1 data dbfsPath data.source
      { o with calls := ⟨Call.mkdirs (pathDir dbfsPath), m⟩ :: o.calls }

/-- The function `resourceDBFSRead`. The errors that `data.Set` returns are
dropped, as in the source. -/
def resourceDBFSRead {ρ : Type} (C : DBFS ρ) (r : ρ) (data : ResourceData) : Out ρ :=
  match C.GetStatus r data.id with
  | (Except.error e, r1) =>
    ⟨Ret.error e, r1, data, [⟨Call.getStatus data.id, some e⟩], none, [], 0⟩
  | (Except.ok (isDir, fileSize), r1) =>
    let data1 := if !isDir then (data.Set "file_size" (Value.int fileSize)).2 else data
    ⟨Ret.ok, r1, (data1.Set "is_directory" (Value.bool isDir)).2,
      [⟨Call.getStatus data.id, none⟩], none, [], 0⟩

/-- The function `resourceDBFSUpdate`. -/
def resourceDBFSUpdate {ρ σ : Type} (C : DBFS ρ) (L : LocalFS σ) (fuel : Nat) (r : ρ)
    (data : ResourceData) : Out ρ :=
  match C.GetStatus r data.id with
  | (Except.error e, r1) =>
    ⟨Ret.error e, r1, data, [⟨Call.getStatus data.id, some e⟩], none, [], 0⟩
  | (Except.ok (isDir, _), r1) =>
    let status : Event := ⟨Call.getStatus data.id, none⟩
    if isDir then ⟨Ret.ok, r1, data, [status], none, [], 0⟩
    else
      match C.Delete r1 data.id false with
      | (some e, r2) =>
        ⟨Ret.error e, r2, data, [status, ⟨Call.delete data.id false, some e⟩], none, [], 0⟩
      | (none, r2) =>
        let o := dbfsUploadFile C L fuel r2 data data.id data.source
        { o with calls := status :: ⟨Call.delete data.id false, none⟩ :: o.calls }

/-- The function `resourceDBFSDelete`. -/
def resourceDBFSDelete {ρ : Type} (C : DBFS ρ) (r : ρ) (data : ResourceData) : Out ρ :=
  match C.Delete r data.id false with
  | (de, r1) => ⟨Ret.ofErr de, r1, data, [⟨Call.delete data.id false, de⟩], none, [], 0⟩

/-! ## Observations on call sequences -/

/-- The blocks passed to `AddBlock`, in call order. -/
def blocksOf : List Event → List (List Byte)
  | [] => []
  | ⟨Call.addBlock _ b, _⟩ :: rest => b :: blocksOf rest
  | _ :: rest => blocksOf rest

/-- The sizes of the blocks passed to `AddBlock`, in call order. -/
def blockSizes (calls : List Event) : List Nat := (blocksOf calls).map List.length

/-- Successful `AddBlock` calls on one handle, one per block. -/
def blockEvents (handle : Handle) (bs : List (List Byte)) : List Event :=
  bs.map (fun b => ⟨Call.addBlock handle b, none⟩)

/-- Whether a call is an `AddBlock`. -/
def Call.isAddBlock : Call → Bool
  | Call.addBlock _ _ => true
  | _ => false

/-- Whether a call is a `Close`. -/
def Call.isClose : Call → Bool
  | Call.close _ => true
  | _ => false

/-- The `AddBlock` calls of a call sequence, in order. -/
def addBlockCalls (calls : List Event) : List Event :=
  calls.filter (fun ev => ev.call.isAddBlock)

/-- The client `C` with the error answers of `Mkdirs` replaced by `m`; what
`Mkdirs` does to the remote state, and every other method, is kept. -/
def withMkdirsAnswer {ρ : Type} (C : DBFS ρ) (m : ρ → String → Option Err) : DBFS ρ :=
  { C with Mkdirs := fun r p => (m r p, (C.Mkdirs r p).2) }

/-- Each local read fills the requested buffer whenever that many bytes remain:
`rep f pos` says that the open file `f` stands at offset `pos` of `content`, and
a read of `want` bytes with `pos + want <= len(content)` returns exactly the
next `want` bytes (for `want = 0`: zero bytes and no error) and advances. -/
def FillsBuffer {σ : Type} (L : LocalFS σ) (content : List Byte) (rep : σ → Nat → Prop) : Prop :=
  ∀ f pos want, rep f pos → pos + want ≤ content.length →
    ∃ h f1, L.Read f want = (ReadResult.ok ((content.drop pos).take want) h, f1) ∧
      rep f1 (pos + want)

/-- The local source resolves to a file that can be opened and statted, holds
`content`, and is read by reads that fill their buffers. -/
def ReadsFully {σ : Type} (L : LocalFS σ) (source : String) (content : List Byte) : Prop :=
  ∃ (p : String) (f0 : σ) (rep : σ → Nat → Prop),
    resolveSource L source = Except.ok p ∧ L.Open p = Except.ok f0 ∧
    L.Stat f0 = Except.ok content.length ∧ rep f0 0 ∧ FillsBuffer L content rep

/-- A local regular file as `os.File` reads it: the content and the file
offset. -/
structure OsFile where
  content : List Byte
  offset : Nat

/-- Go's `os.File.Read` on a regular file that nobody else touches: a zero-length
buffer gives `(0, nil)`; at the end of the file it gives `(0, io.EOF)`; otherwise
it fills the buffer up to the end of the file. -/
def osFileRead (f : OsFile) (want : Nat) : ReadResult want × OsFile :=
  if want = 0 then (ReadResult.ok [] (Nat.zero_le _), f)
  else if f.content.length ≤ f.offset then (ReadResult.eof, f)
  else
    (ReadResult.ok ((f.content.drop f.offset).take want) (List.length_take_le _ _),
      { f with offset := f.offset + min want (f.content.length - f.offset) })

/-- A local file system with working directory `wd` holding exactly the files
listed in `files` (absolute path, content). Opening any other path fails with
the message of the `*os.PathError` that `os.Open` returns. -/
def osFS (wd : String) (files : List (String × List Byte)) : LocalFS OsFile where
  Getwd := Except.ok wd
  Open := fun p =>
    match files.lookup p with
    | some c => Except.ok ⟨c, 0⟩
    | none => Except.error ("open " ++ p ++ ": no such file or directory")
  Stat := fun f => Except.ok f.content.length
  Read := osFileRead

end Databricks

/-! ## Concrete instances -/

namespace Databricks

/-- A remote on which every call succeeds; `Create` hands out handle 7 and the
remote state counts the `AddBlock` calls received. -/
def okClient : DBFS Nat where
  Mkdirs := fun r _ => (none, r)
  Create := fun r _ _ => (Except.ok 7, r)
  AddBlock := fun r _ _ => (none, r + 1)
  Close := fun r _ => (none, r)
  GetStatus := fun r _ => (Except.ok (false, 0), r)
  Delete := fun r _ _ => (none, r)

/-- A remote like `okClient` except that the `AddBlock` call number `k` (from 1)
fails. -/
def addFailsAt (k : Nat) : DBFS Nat where
  Mkdirs := fun r _ => (none, r)
  Create := fun r _ _ => (Except.ok 7, r)
  AddBlock := fun r _ _ => (if r + 1 = k then some "add-block failed" else none, r + 1)
  Close := fun r _ => (none, r)
  GetStatus := fun r _ => (Except.ok (false, 0), r)
  Delete := fun r _ _ => (none, r)

/-- A remote like `okClient` except that `Create` fails. -/
def createFails : DBFS Nat :=
  { okClient with Create := fun r _ _ => (Except.error "create failed", r) }

/-- A remote like `okClient` except that `Close` fails. -/
def closeFails : DBFS Nat :=
  { okClient with Close := fun r _ => (some "close failed", r) }

/-- A remote holding a file of 42 bytes at `/tmp/x`, a directory at `/tmp`, and
nothing else; `GetStatus` leaves the remote state alone. -/
def statusClient : DBFS Nat :=
  { okClient with
    GetStatus := fun r p =>
      (if p = "/tmp/x" then Except.ok (false, 42)
       else if p = "/tmp" then Except.ok (true, 0)
       else Except.error "RESOURCE_DOES_NOT_EXIST", r) }

/-- A file of 2,500,000 zero bytes. -/
def bigFile : List Byte := List.replicate 2500000 0

/-- A local file system with a three-byte file, an empty file and `bigFile`. -/
def demoFS : LocalFS OsFile :=
  osFS "/home/u" [("/home/u/f.bin", [1, 2, 3]), ("/home/u/empty.bin", []),
    ("/home/u/big.bin", bigFile)]

/-- A file-mode configuration: upload `f.bin` to `/tmp/x`. -/
def demoData : ResourceData := ⟨"/tmp/x", "f.bin", none, none, ""⟩

/-- The directory-mode configuration `remotePath "/tmp/x"`, `source ""`. -/
def dirData : ResourceData := ⟨"/tmp/x", "", none, none, ""⟩

end Databricks

/-! ## `resource_cluster.go` and `resource_jobs.go` -/

namespace Databricks

/-- The `ValidateFunc` of the `autotermination_minutes` attribute of the cluster
resource (`resource_cluster.go`, lines 81-89): the warnings and the errors it
returns for the value `val`. -/
def autoterminationValidate (val : Int) : List String × List Err :=
  if val < 10 then ([], ["autotermination_minutes must be greater than 10"])
  else ([], [])

/-- Go's conversion `int32(n)` of an `int`: `n` modulo `2^32`, read as a signed
32-bit number. -/
def toInt32 (n : Int) : Int := (n + 2147483648) % 4294967296 - 2147483648

/-- The scalar attributes of a job as written in the configuration (`none`: not
written). -/
structure JobConfig where
  timeout_seconds : Option Int
  max_retries : Option Int
  min_retry_interval_millis : Option Int
  retry_on_timeout : Option Bool
  max_concurrent_runs : Option Int
  deriving DecidableEq, Repr

/-- `data.GetOk` on an integer attribute with the given schema default (0 when
the schema has none): the value, and whether it is set to a non-zero value. -/
def getOkInt (configured : Option Int) (dflt : Int) : Int × Bool :=
  let v := configured.getD dflt
  (v, decide (v ≠ 0))

/-- `data.GetOk` on a boolean attribute with the given schema default. -/
def getOkBool (configured : Option Bool) (dflt : Bool) : Bool × Bool :=
  let v := configured.getD dflt
  (v, v)

/-- The optional scalar fields of `db.JobCreateRequest` and `db.JobSettings` that
the jobs resource fills in (`none` is a nil pointer). -/
structure JobScalars where
  TimeoutSeconds : Option Int
  MaxRetries : Option Int
  MinRetryIntervalMillis : Option Int
  RetryOnTimeout : Option Bool
  deriving DecidableEq, Repr

/-- Lines 303-332 of `resourceJobsCreate`: the optional scalar fields of the
request, assigned in source order. `max_concurrent_runs` has the schema default
1; the other integer attributes have none. -/
def resourceJobsCreate (d : JobConfig) : JobScalars :=
  let req : JobScalars := ⟨none, none, none, none⟩
  let req := if (getOkInt d.timeout_seconds 0).2
    then { req with TimeoutSeconds := some (toInt32 (getOkInt d.timeout_seconds 0).1) } else req
  let req := if (getOkInt d.max_retries 0).2
    then { req with MaxRetries := some (toInt32 (getOkInt d.max_retries 0).1) } else req
  let req := if (getOkInt d.min_retry_interval_millis 0).2
    then { req with
      MinRetryIntervalMillis := some (toInt32 (getOkInt d.min_retry_interval_millis 0).1) }
    else req
  let req := if (getOkBool d.retry_on_timeout false).2
    then { req with RetryOnTimeout := some (getOkBool d.retry_on_timeout false).1 } else req
  let req := if (getOkInt d.max_concurrent_runs 1).2
    then { req with MaxRetries := some (toInt32 (getOkInt d.max_concurrent_runs 1).1) } else req
  req

/-- Lines 377-406 of `resourceJobsUpdate`: the optional scalar fields of the
settings, assigned in source order. -/
def resourceJobsUpdate (d : JobConfig) : JobScalars :=
  let settings : JobScalars := ⟨none, none, none, none⟩
  let settings := if (getOkInt d.timeout_seconds 0).2
    then { settings with TimeoutSeconds := some (toInt32 (getOkInt d.timeout_seconds 0).1) }
    else settings
  let settings := if (getOkInt d.max_retries 0).2
    then { settings with MaxRetries := some (toInt32 (getOkInt d.max_retries 0).1) }
    else settings
  let settings := if (getOkInt d.min_retry_interval_millis 0).2
    then { settings with
      MinRetryIntervalMillis := some (toInt32 (getOkInt d.min_retry_interval_millis 0).1) }
    else settings
  let settings := if (getOkBool d.retry_on_timeout false).2
    then { settings with RetryOnTimeout := some (getOkBool d.retry_on_timeout false).1 }
    else settings
  let settings := if (getOkInt d.max_concurrent_runs 1).2
    then { settings with MaxRetries := some (toInt32 (getOkInt d.max_concurrent_runs 1).1) }
    else settings
  settings

/-! ## More concrete instances -/

/-- A remote like `okClient` on which `GetStatus` reports a directory. -/
def dirStatusClient : DBFS Nat :=
  { okClient with GetStatus := fun r _ => (Except.ok (true, 0), r) }

/-- The recorded state of an uploaded file at `/tmp/x`. -/
def fileData : ResourceData := ⟨"/tmp/x", "f.bin", none, some 3, "/tmp/x"⟩

/-- `os.File.Read` behind a reader that hands out at most `k` bytes per call. -/
def shortRead (k : Nat) (f : OsFile) (want : Nat) : ReadResult want × OsFile :=
  match osFileRead f (min want k) with
  | (ReadResult.ok bs h, f1) => (ReadResult.ok bs (Nat.le_trans h (Nat.min_le_left _ _)), f1)
  | (ReadResult.eof, f1) => (ReadResult.eof, f1)
  | (ReadResult.fail e, f1) => (ReadResult.fail e, f1)

/-- The file system `osFS wd files` with every read cut to at most `k` bytes. -/
def shortFS (k : Nat) (wd : String) (files : List (String × List Byte)) : LocalFS OsFile :=
  { osFS wd files with Read := shortRead k }

end Databricks

/-! ## A reference remote store -/

namespace Databricks

/-- What a path holds in the reference store. -/
inductive Node where
  | dir
  | file (content : List Byte)
  deriving DecidableEq, Repr

/-- The state of the reference store: what each path holds, the open upload
sessions (the path being written and the bytes appended so far) by handle, and
the next handle to hand out. -/
structure Store where
  nodes : String → Option Node
  sessions : Handle → Option (String × List Byte)
  next : Handle

/-- The reference remote store: `Create` opens an upload session on a fresh
handle, `AddBlock` appends a block of at most 1 MiB to the session, and `Close`
writes the file, whose content is the concatenation of the appended blocks.
`GetStatus` reports what a path holds, `Delete` removes it, `Mkdirs` makes it a
directory. -/
def refStore : DBFS Store where
  Mkdirs := fun s p =>
    match s.nodes p with
    | some (Node.file _) => (some "RESOURCE_ALREADY_EXISTS", s)
    | _ => (none, { s with nodes := fun q => if q = p then some Node.dir else s.nodes q })
  Create := fun s p overwrite =>
    match s.nodes p with
    | some Node.dir => (Except.error "RESOURCE_ALREADY_EXISTS", s)
    | some (Node.file _) =>
      if overwrite then
        (Except.ok s.next,
          { s with sessions := fun k => if k = s.next then some (p, []) else s.sessions k,
                   next := s.next + 1 })
      else (Except.error "RESOURCE_ALREADY_EXISTS", s)
    | none =>
      (Except.ok s.next,
        { s with sessions := fun k => if k = s.next then some (p, []) else s.sessions k,
                 next := s.next + 1 })
  AddBlock := fun s h data =>
    if 1048576 < data.length then (some "MAX_BLOCK_SIZE_EXCEEDED", s)
    else
      match s.sessions h with
      | none => (some "RESOURCE_DOES_NOT_EXIST", s)
      | some (p, buf) =>
        (none, { s with sessions := fun k => if k = h then some (p, buf ++ data)
                                             else s.sessions k })
  Close := fun s h =>
    match s.sessions h with
    | none => (some "RESOURCE_DOES_NOT_EXIST", s)
    | some (p, buf) =>
      (none, { s with nodes := fun q => if q = p then some (Node.file buf) else s.nodes q,
                      sessions := fun k => if k = h then none else s.sessions k })
  GetStatus := fun s p =>
    match s.nodes p with
    | none => (Except.error "RESOURCE_DOES_NOT_EXIST", s)
    | some Node.dir => (Except.ok (true, 0), s)
    | some (Node.file c) => (Except.ok (false, (c.length : Int)), s)
  Delete := fun s p _ =>
    match s.nodes p with
    | none => (some "RESOURCE_DOES_NOT_EXIST", s)
    | some _ => (none, { s with nodes := fun q => if q = p then none else s.nodes q })

/-- A reference store holding a file of five bytes at `/tmp/x` and nothing
else. -/
def demoStore : Store where
  nodes := fun q => if q = "/tmp/x" then some (Node.file [9, 9, 9, 9, 9]) else none
  sessions := fun _ => none
  next := 1

end Databricks

/-! ## A local file system with a failing read -/

namespace Databricks

/-- The file system `osFS wd files` whose reads hand out at most two bytes at
the start of a file and fail with an input/output error anywhere else. -/
def flakyFS (wd : String) (files : List (String × List Byte)) : LocalFS OsFile :=
  { osFS wd files with
    Read := fun f want =>
      if f.offset = 0 then shortRead 2 f want
      else (ReadResult.fail "input/output error", f) }

end Databricks

/-! # Theorems -/

namespace Databricks

/-! ## `data.Set` at the call sites of the code -/

/-- `data.Set("is_directory", b)` with a `bool` fails and writes nothing: the
schema declares `is_directory` as `schema.TypeString`. -/
@[simp] theorem ResourceData.Set_is_directory_bool (d : ResourceData) (b : Bool) :
    d.Set "is_directory" (Value.bool b) = (some "is_directory: unconvertible type", d) := by
  rfl

/-- `data.Set("file_size", n)` with an `int` records `n`. -/
@[simp] theorem ResourceData.Set_file_size_int (d : ResourceData) (n : Int) :
    d.Set "file_size" (Value.int n) = (none, { d with file_size := some n }) := by
  rfl

/-! ## The upload loop, one iteration at a time -/

section Loop
variable {ρ σ : Type} (C : DBFS ρ) (L : LocalFS σ) (handle : Handle) (fsize : Nat)

theorem uploadLoop_zero (r : ρ) (f : σ) (pos bufSize : Nat) :
    uploadLoop C L handle fsize 0 r f pos bufSize = ⟨Ret.outOfFuel, r, pos, [], []⟩ := rfl

theorem uploadLoop_eof (fuel : Nat) (r : ρ) (f f1 : σ) (pos bufSize : Nat)
    (h : L.Read f bufSize = (ReadResult.eof, f1)) :
    uploadLoop C L handle fsize (fuel + 1) r f pos bufSize
      = ⟨Ret.ok, r, pos, [], [⟨pos, bufSize, none⟩]⟩ := by
  simp only [uploadLoop, h]

theorem uploadLoop_fail (fuel : Nat) (r : ρ) (f f1 : σ) (pos bufSize : Nat) (e : Err)
    (h : L.Read f bufSize = (ReadResult.fail e, f1)) :
    uploadLoop C L handle fsize (fuel + 1) r f pos bufSize
      = ⟨Ret.error e, r, pos, [], [⟨pos, bufSize, none⟩]⟩ := by
  simp only [uploadLoop, h]

theorem uploadLoop_addFail (fuel : Nat) (r r1 : ρ) (f f1 : σ) (pos bufSize : Nat)
    (bs : List Byte) (hb : bs.length ≤ bufSize) (e : Err)
    (h : L.Read f bufSize = (ReadResult.ok bs hb, f1))
    (ha : C.AddBlock r handle (padded bufSize bs) = (some e, r1)) :
    uploadLoop C L handle fsize (fuel + 1) r f pos bufSize
      = ⟨Ret.error e, r1, pos, [⟨Call.addBlock handle (padded bufSize bs), some e⟩],
          [⟨pos, bufSize, some bs.length⟩]⟩ := by
  simp only [uploadLoop, h, ha]

theorem uploadLoop_last (fuel : Nat) (r r1 : ρ) (f f1 : σ) (pos bufSize : Nat)
    (bs : List Byte) (hb : bs.length ≤ bufSize)
    (h : L.Read f bufSize = (ReadResult.ok bs hb, f1))
    (ha : C.AddBlock r handle (padded bufSize bs) = (none, r1))
    (hp : pos + bs.length = fsize) :
    uploadLoop C L handle fsize (fuel + 1) r f pos bufSize
      = ⟨Ret.ok, r1, pos + bs.length, [⟨Call.addBlock handle (padded bufSize bs), none⟩],
          [⟨pos, bufSize, some bs.length⟩]⟩ := by
  simp only [uploadLoop, h, ha, hp, if_true]

theorem uploadLoop_next (fuel : Nat) (r r1 : ρ) (f f1 : σ) (pos bufSize : Nat)
    (bs : List Byte) (hb : bs.length ≤ bufSize)
    (h : L.Read f bufSize = (ReadResult.ok bs hb, f1))
    (ha : C.AddBlock r handle (padded bufSize bs) = (none, r1))
    (hp : pos + bs.length ≠ fsize) :
    uploadLoop C L handle fsize (fuel + 1) r f pos bufSize
      = ⟨(uploadLoop C L handle fsize fuel r1 f1 (pos + bs.length)
            (if fsize - (pos + bs.length) < 900000 then fsize - (pos + bs.length)
              else bufSize)).ret,
         (uploadLoop C L handle fsize fuel r1 f1 (pos + bs.length)
            (if fsize - (pos + bs.length) < 900000 then fsize - (pos + bs.length)
              else bufSize)).remote,
         (uploadLoop C L handle fsize fuel r1 f1 (pos + bs.length)
            (if fsize - (pos + bs.length) < 900000 then fsize - (pos + bs.length)
              else bufSize)).pos,
         ⟨Call.addBlock handle (padded bufSize bs), none⟩ ::
           (uploadLoop C L handle fsize fuel r1 f1 (pos + bs.length)
            (if fsize - (pos + bs.length) < 900000 then fsize - (pos + bs.length)
              else bufSize)).calls,
         ⟨pos, bufSize, some bs.length⟩ ::
           (uploadLoop C L handle fsize fuel r1 f1 (pos + bs.length)
            (if fsize - (pos + bs.length) < 900000 then fsize - (pos + bs.length)
              else bufSize)).iters⟩ := by
  simp only [uploadLoop, h, ha, hp, if_false]

theorem padded_length (bufSize : Nat) (bs : List Byte) (hb : bs.length ≤ bufSize) :
    (padded bufSize bs).length = bufSize := by
  simp [padded]; omega

theorem blocksOf_append (xs ys : List Event) :
    blocksOf (xs ++ ys) = blocksOf xs ++ blocksOf ys := by
  induction xs with
  | nil => rfl
  | cons x xs ih =>
    obtain ⟨c, e⟩ := x
    cases c <;> simp [blocksOf, ih]

theorem blocksOf_blockEvents (h : Handle) (bs : List (List Byte)) :
    blocksOf (blockEvents h bs) = bs := by
  induction bs with
  | nil => rfl
  | cons b bs ih => simpa [blockEvents, blocksOf] using ih

/-- Induction over the iterations of the loop: a property of the loop's outcome,
relative to the `pos` and `bufSize` it starts from, holds for every fuel, remote
state and file state once it holds for each way an iteration can end. -/
theorem uploadLoop_induct (P : Nat → Nat → LoopOut ρ → Prop)
    (hzero : ∀ r pos bufSize, P pos bufSize ⟨Ret.outOfFuel, r, pos, [], []⟩)
    (heof : ∀ r pos bufSize, P pos bufSize ⟨Ret.ok, r, pos, [], [⟨pos, bufSize, none⟩]⟩)
    (hfail : ∀ r pos bufSize e,
      P pos bufSize ⟨Ret.error e, r, pos, [], [⟨pos, bufSize, none⟩]⟩)
    (haddFail : ∀ r pos bufSize (bs : List Byte) e (hbs : bs.length ≤ bufSize),
      (∃ f f1, L.Read f bufSize = (ReadResult.ok bs hbs, f1)) →
      P pos bufSize ⟨Ret.error e, r, pos, [⟨Call.addBlock handle (padded bufSize bs), some e⟩],
        [⟨pos, bufSize, some bs.length⟩]⟩)
    (hlast : ∀ r pos bufSize (bs : List Byte) (hbs : bs.length ≤ bufSize),
      (∃ f f1, L.Read f bufSize = (ReadResult.ok bs hbs, f1)) → pos + bs.length = fsize →
      P pos bufSize ⟨Ret.ok, r, pos + bs.length,
        [⟨Call.addBlock handle (padded bufSize bs), none⟩], [⟨pos, bufSize, some bs.length⟩]⟩)
    (hnext : ∀ pos bufSize (bs : List Byte) (o : LoopOut ρ) (hbs : bs.length ≤ bufSize),
      (∃ f f1, L.Read f bufSize = (ReadResult.ok bs hbs, f1)) → pos + bs.length ≠ fsize →
      P (pos + bs.length)
        (if fsize - (pos + bs.length) < 900000 then fsize - (pos + bs.length) else bufSize) o →
      P pos bufSize ⟨o.ret, o.remote, o.pos,
        ⟨Call.addBlock handle (padded bufSize bs), none⟩ :: o.calls,
        ⟨pos, bufSize, some bs.length⟩ :: o.iters⟩) :
    ∀ (fuel : Nat) (r : ρ) (f : σ) (pos bufSize : Nat),
      P pos bufSize (uploadLoop C L handle fsize fuel r f pos bufSize) := by
  intro fuel
  induction fuel with
  | zero => intro r f pos bufSize; exact hzero r pos bufSize
  | succ fuel ih =>
    intro r f pos bufSize
    rcases hrd : L.Read f bufSize with ⟨res, f1⟩
    cases res with
    | eof =>
      rw [uploadLoop_eof C L handle fsize fuel r f f1 pos bufSize hrd]
      exact heof r pos bufSize
    | fail e =>
      rw [uploadLoop_fail C L handle fsize fuel r f f1 pos bufSize e hrd]
      exact hfail r pos bufSize e
    | ok bs hbs =>
      rcases hadd : C.AddBlock r handle (padded bufSize bs) with ⟨res, r1⟩
      cases res with
      | some e =>
        rw [uploadLoop_addFail C L handle fsize fuel r r1 f f1 pos bufSize bs hbs e hrd hadd]
        exact haddFail r1 pos bufSize bs e hbs ⟨f, f1, hrd⟩
      | none =>
        by_cases hp : pos + bs.length = fsize
        · rw [uploadLoop_last C L handle fsize fuel r r1 f f1 pos bufSize bs hbs hrd hadd hp]
          exact hlast r1 pos bufSize bs hbs ⟨f, f1, hrd⟩ hp
        · rw [uploadLoop_next C L handle fsize fuel r r1 f f1 pos bufSize bs hbs hrd hadd hp]
          exact hnext pos bufSize bs _ hbs ⟨f, f1, hrd⟩ hp (ih r1 f1 _ _)

/-- Every block the loop sends has the length of the buffer of its iteration,
which never exceeds the ceiling. -/
theorem uploadLoop_blocks_le (fuel : Nat) (r : ρ) (f : σ) (pos bufSize : Nat) :
    bufSize ≤ 900000 →
      ∀ b ∈ blocksOf (uploadLoop C L handle fsize fuel r f pos bufSize).calls,
        b.length ≤ 900000 := by
  refine uploadLoop_induct C L handle fsize
    (fun _ bufSize o => bufSize ≤ 900000 → ∀ b ∈ blocksOf o.calls, b.length ≤ 900000)
    ?_ ?_ ?_ ?_ ?_ ?_ fuel r f pos bufSize
  · intro r pos bufSize _ b hb; simp [blocksOf] at hb
  · intro r pos bufSize _ b hb; simp [blocksOf] at hb
  · intro r pos bufSize e _ b hb; simp [blocksOf] at hb
  · intro r pos bufSize bs e hbs _ hle b hb
    have hlen := padded_length bufSize bs hbs
    simp [blocksOf] at hb
    subst hb; omega
  · intro r pos bufSize bs hbs _ _ hle b hb
    have hlen := padded_length bufSize bs hbs
    simp [blocksOf] at hb
    subst hb; omega
  · intro pos bufSize bs o hbs _ _ ih hle b hb
    have hlen := padded_length bufSize bs hbs
    simp only [blocksOf, List.mem_cons] at hb
    rcases hb with hb | hb
    · subst hb; omega
    · exact ih (by split <;> omega) b hb

/-- The cursor invariant of the loop: every iteration starts with
`pos <= fsize` and `bufSize = min(900000, fsize - pos)`, so `fsize - pos` never
goes below zero; no iteration after the first starts at the end of the file;
and the first iteration starts at the `pos` the loop was entered with. -/
theorem uploadLoop_iters_inv (fuel : Nat) (r : ρ) (f : σ) (pos bufSize : Nat) :
    pos ≤ fsize → bufSize = min 900000 (fsize - pos) →
      (∀ it ∈ (uploadLoop C L handle fsize fuel r f pos bufSize).iters,
        it.pos ≤ fsize ∧ it.bufSize = min 900000 (fsize - it.pos)) ∧
      (∀ it ∈ (uploadLoop C L handle fsize fuel r f pos bufSize).iters.tail,
        it.pos < fsize) ∧
      (∀ it ∈ (uploadLoop C L handle fsize fuel r f pos bufSize).iters.head?,
        it.pos = pos) := by
  refine uploadLoop_induct C L handle fsize
    (fun pos bufSize o => pos ≤ fsize → bufSize = min 900000 (fsize - pos) →
      (∀ it ∈ o.iters, it.pos ≤ fsize ∧ it.bufSize = min 900000 (fsize - it.pos)) ∧
      (∀ it ∈ o.iters.tail, it.pos < fsize) ∧
      (∀ it ∈ o.iters.head?, it.pos = pos))
    ?_ ?_ ?_ ?_ ?_ ?_ fuel r f pos bufSize
  · intro r pos bufSize _ _; simp
  · intro r pos bufSize hp hb; simp [hp, hb]
  · intro r pos bufSize e hp hb; simp [hp, hb]
  · intro r pos bufSize bs e _ _ hp hb; simp [hp, hb]
  · intro r pos bufSize bs _ _ _ hp hb; simp [hp, hb]
  · intro pos bufSize bs o hbs _ hne ih hp hb
    obtain ⟨h1, h2, h3⟩ := ih (by omega) (by split <;> omega)
    refine ⟨?_, ?_, by simp⟩
    · intro it hit
      simp only [List.mem_cons] at hit
      rcases hit with rfl | hit
      · exact ⟨hp, hb⟩
      · exact h1 it hit
    · intro it hit
      simp only [List.tail_cons] at hit
      rcases hio : o.iters with _ | ⟨i0, rest⟩
      · rw [hio] at hit; simp at hit
      · rw [hio] at hit h2 h3
        simp only [List.mem_cons] at hit
        rcases hit with rfl | hit
        · have := h3 it (by simp)
          omega
        · exact h2 it (by simpa using hit)

/-- The calls of the loop are `AddBlock` calls on the handle; all succeed, except
that the last one failed when the loop ended on an `AddBlock` error. -/
theorem uploadLoop_shape (fuel : Nat) (r : ρ) (f : σ) (pos bufSize : Nat) :
    (uploadLoop C L handle fsize fuel r f pos bufSize).calls
        = blockEvents handle (blocksOf (uploadLoop C L handle fsize fuel r f pos bufSize).calls) ∨
    ∃ bs b e,
      (uploadLoop C L handle fsize fuel r f pos bufSize).calls
        = blockEvents handle bs ++ [⟨Call.addBlock handle b, some e⟩] ∧
      (uploadLoop C L handle fsize fuel r f pos bufSize).ret = Ret.error e := by
  refine uploadLoop_induct C L handle fsize
    (fun _ _ o => o.calls = blockEvents handle (blocksOf o.calls) ∨
      ∃ bs b e, o.calls = blockEvents handle bs ++ [⟨Call.addBlock handle b, some e⟩] ∧
        o.ret = Ret.error e)
    ?_ ?_ ?_ ?_ ?_ ?_ fuel r f pos bufSize
  · intro r pos bufSize; left; rfl
  · intro r pos bufSize; left; rfl
  · intro r pos bufSize e; left; rfl
  · intro r pos bufSize bs e _ _; right
    exact ⟨[], padded bufSize bs, e, rfl, rfl⟩
  · intro r pos bufSize bs _ _ _; left; rfl
  · intro pos bufSize bs o _ _ _ ih
    rcases ih with ih | ⟨bs1, b, e, hc, hr⟩
    · left
      show _ :: o.calls = blockEvents handle (padded bufSize bs :: blocksOf o.calls)
      rw [ih, blocksOf_blockEvents]; rfl
    · right
      refine ⟨padded bufSize bs :: bs1, b, e, ?_, hr⟩
      show _ :: o.calls = _
      rw [hc]; rfl

end Loop
end Databricks

namespace Databricks

section Upload
variable {ρ σ : Type} (C : DBFS ρ) (L : LocalFS σ)

/-- How a run of `dbfsUploadFile` is put together: `Create` failed; or `Create`
succeeded and the run ended on a local error before the loop; or the loop ran
and ended without success; or the loop succeeded and `Close` was called. -/
theorem dbfsUploadFile_trace (fuel : Nat) (r : ρ) (data : ResourceData)
    (dbfsPath source : String) :
    (∃ e, (C.Create r dbfsPath true).1 = Except.error e ∧
      (dbfsUploadFile C L fuel r data dbfsPath source).ret = Ret.error e ∧
      (dbfsUploadFile C L fuel r data dbfsPath source).calls
        = [⟨Call.create dbfsPath true, some e⟩] ∧
      (dbfsUploadFile C L fuel r data dbfsPath source).opened = none) ∨
    (∃ handle, (C.Create r dbfsPath true).1 = Except.ok handle ∧
      ((∃ e, (dbfsUploadFile C L fuel r data dbfsPath source).ret = Ret.error e ∧
        (dbfsUploadFile C L fuel r data dbfsPath source).calls
          = [⟨Call.create dbfsPath true, none⟩]) ∨
       (∃ fsize r1 f,
          ((uploadLoop C L handle fsize fuel r1 f 0 (if fsize < 900000 then fsize else 900000)).ret
              ≠ Ret.ok ∧
            (dbfsUploadFile C L fuel r data dbfsPath source).ret
              = (uploadLoop C L handle fsize fuel r1 f 0
                  (if fsize < 900000 then fsize else 900000)).ret ∧
            (dbfsUploadFile C L fuel r data dbfsPath source).calls
              = ⟨Call.create dbfsPath true, none⟩ ::
                (uploadLoop C L handle fsize fuel r1 f 0
                  (if fsize < 900000 then fsize else 900000)).calls) ∨
          ((uploadLoop C L handle fsize fuel r1 f 0 (if fsize < 900000 then fsize else 900000)).ret
              = Ret.ok ∧
            ∃ ce, (dbfsUploadFile C L fuel r data dbfsPath source).ret = Ret.ofErr ce ∧
            (dbfsUploadFile C L fuel r data dbfsPath source).calls
              = ⟨Call.create dbfsPath true, none⟩ ::
                (uploadLoop C L handle fsize fuel r1 f 0
                  (if fsize < 900000 then fsize else 900000)).calls
                ++ [⟨Call.close handle, ce⟩])))) := by
  rcases hc : C.Create r dbfsPath true with ⟨res, r1⟩
  cases res with
  | error e => left; exact ⟨e, rfl, by simp [dbfsUploadFile, hc]⟩
  | ok handle =>
    right
    refine ⟨handle, rfl, ?_⟩
    rcases hres : resolveSource L source with e | p
    · left; exact ⟨e, by simp [dbfsUploadFile, hc, hres]⟩
    rcases hopen : L.Open p with e | f
    · left; exact ⟨e, by simp [dbfsUploadFile, hc, hres, hopen]⟩
    rcases hstat : L.Stat f with e | fsize
    · left; exact ⟨e, by simp [dbfsUploadFile, hc, hres, hopen, hstat]⟩
    right
    refine ⟨fsize, r1, f, ?_⟩
    rcases hret : (uploadLoop C L handle fsize fuel r1 f 0
        (if fsize < 900000 then fsize else 900000)).ret with _ | e | _
    · right
      refine ⟨rfl, (C.Close (uploadLoop C L handle fsize fuel r1 f 0
        (if fsize < 900000 then fsize else 900000)).remote handle).1, ?_⟩
      simp [dbfsUploadFile, hc, hres, hopen, hstat, hret]
    · left
      simp [dbfsUploadFile, hc, hres, hopen, hstat, hret]
    · left
      simp [dbfsUploadFile, hc, hres, hopen, hstat, hret]

end Upload
end Databricks

namespace Databricks

section Full
variable {ρ σ : Type} (C : DBFS ρ) (L : LocalFS σ) (handle : Handle)

theorem padded_full (want : Nat) (bs : List Byte) (h : bs.length = want) :
    padded want bs = bs := by
  simp [padded, h]

theorem chunk_length (content : List Byte) (pos want : Nat) (h : pos + want ≤ content.length) :
    ((content.drop pos).take want).length = want := by
  simp [List.length_take, List.length_drop]; omega

/-- One iteration of the loop on a reader that fills its buffer, when the
`AddBlock` call succeeds: the block sent is the next `want` bytes of the file. -/
theorem uploadLoop_full_step {content : List Byte} {rep : σ → Nat → Prop}
    (hfill : FillsBuffer L content rep)
    (fuel : Nat) (r : ρ) (f : σ) (pos want : Nat)
    (hrep : rep f pos) (hle : pos + want ≤ content.length)
    (hadd : (C.AddBlock r handle ((content.drop pos).take want)).1 = none) :
    ∃ f1, rep f1 (pos + want) ∧
      uploadLoop C L handle content.length (fuel + 1) r f pos want
        = if pos + want = content.length then
            ⟨Ret.ok, (C.AddBlock r handle ((content.drop pos).take want)).2, pos + want,
              [⟨Call.addBlock handle ((content.drop pos).take want), none⟩],
              [⟨pos, want, some want⟩]⟩
          else
            ⟨(uploadLoop C L handle content.length fuel
                (C.AddBlock r handle ((content.drop pos).take want)).2 f1 (pos + want)
                (if content.length - (pos + want) < 900000 then content.length - (pos + want)
                  else want)).ret,
             (uploadLoop C L handle content.length fuel
                (C.AddBlock r handle ((content.drop pos).take want)).2 f1 (pos + want)
                (if content.length - (pos + want) < 900000 then content.length - (pos + want)
                  else want)).remote,
             (uploadLoop C L handle content.length fuel
                (C.AddBlock r handle ((content.drop pos).take want)).2 f1 (pos + want)
                (if content.length - (pos + want) < 900000 then content.length - (pos + want)
                  else want)).pos,
             ⟨Call.addBlock handle ((content.drop pos).take want), none⟩ ::
               (uploadLoop C L handle content.length fuel
                (C.AddBlock r handle ((content.drop pos).take want)).2 f1 (pos + want)
                (if content.length - (pos + want) < 900000 then content.length - (pos + want)
                  else want)).calls,
             ⟨pos, want, some want⟩ ::
               (uploadLoop C L handle content.length fuel
                (C.AddBlock r handle ((content.drop pos).take want)).2 f1 (pos + want)
                (if content.length - (pos + want) < 900000 then content.length - (pos + want)
                  else want)).iters⟩ := by
  obtain ⟨h, f1, hrd, hrep1⟩ := hfill f pos want hrep hle
  have hlen := chunk_length content pos want hle
  have hpad := padded_full want _ hlen
  refine ⟨f1, hrep1, ?_⟩
  have hadd2 : C.AddBlock r handle (padded want ((content.drop pos).take want))
      = (none, (C.AddBlock r handle ((content.drop pos).take want)).2) := by
    rw [hpad, ← hadd]
  by_cases hp : pos + want = content.length
  · have hp2 : pos + ((content.drop pos).take want).length = content.length := by rw [hlen]; exact hp
    rw [uploadLoop_last C L handle content.length fuel r _ f f1 pos want _ h hrd hadd2 hp2,
      if_pos hp, hpad, hlen]
  · have hp2 : pos + ((content.drop pos).take want).length ≠ content.length := by rw [hlen]; exact hp
    rw [uploadLoop_next C L handle content.length fuel r _ f f1 pos want _ h hrd hadd2 hp2,
      if_neg hp, hpad, hlen]

end Full
end Databricks

namespace Databricks

section FullRun
variable {ρ σ : Type} (C : DBFS ρ) (L : LocalFS σ) (handle : Handle)

/-- The block sizes of a transfer of `m` bytes: full blocks, then the rest. -/
theorem sizes_step (m : Nat) (h : 900000 < m) :
    List.replicate (m / 900000) 900000 ++ (if m % 900000 = 0 then [] else [m % 900000])
      = 900000 :: (List.replicate ((m - 900000) / 900000) 900000 ++
          (if (m - 900000) % 900000 = 0 then [] else [(m - 900000) % 900000])) := by
  have h1 : m / 900000 = (m - 900000) / 900000 + 1 := by omega
  have h2 : m % 900000 = (m - 900000) % 900000 := by omega
  rw [h1, h2, List.replicate_succ, List.cons_append]

theorem sizes_last (m : Nat) (h0 : 0 < m) (h : m ≤ 900000) :
    List.replicate (m / 900000) 900000 ++ (if m % 900000 = 0 then [] else [m % 900000])
      = [m] := by
  rcases Nat.lt_or_ge m 900000 with hlt | hge
  · have h1 : m / 900000 = 0 := by omega
    have h2 : m % 900000 = m := by omega
    rw [h1, h2, if_neg (by omega)]; rfl
  · have hm : m = 900000 := by omega
    subst hm; rfl

/-- The loop on a reader that fills its buffers and a remote that accepts every
block, started inside a non-empty rest of the file: with enough fuel it ends
successfully at the end of the file, having sent the rest of the file in blocks
of the ceiling size followed by the remainder. -/
theorem uploadLoop_full {content : List Byte} {rep : σ → Nat → Prop}
    (hfill : FillsBuffer L content rep)
    (hadd : ∀ r b, (C.AddBlock r handle b).1 = none) :
    ∀ (n fuel : Nat) (r : ρ) (f : σ) (pos : Nat), rep f pos → pos < content.length →
      content.length - pos ≤ 900000 * n → n ≤ fuel →
      (uploadLoop C L handle content.length fuel r f pos
          (min 900000 (content.length - pos))).ret = Ret.ok ∧
      (uploadLoop C L handle content.length fuel r f pos
          (min 900000 (content.length - pos))).pos = content.length ∧
      (blocksOf (uploadLoop C L handle content.length fuel r f pos
          (min 900000 (content.length - pos))).calls).flatten = content.drop pos ∧
      blockSizes (uploadLoop C L handle content.length fuel r f pos
          (min 900000 (content.length - pos))).calls
        = List.replicate ((content.length - pos) / 900000) 900000 ++
            (if (content.length - pos) % 900000 = 0 then []
              else [(content.length - pos) % 900000]) ∧
      (∀ it ∈ (uploadLoop C L handle content.length fuel r f pos
          (min 900000 (content.length - pos))).iters,
          it.bytesRead = some it.bufSize ∧ 0 < it.bufSize) := by
  intro n
  induction n with
  | zero => intro fuel r f pos _ hpos hn _; omega
  | succ n ih =>
    intro fuel r f pos hrep hpos hn hfuel
    obtain ⟨fuel, rfl⟩ : ∃ k, fuel = k + 1 := ⟨fuel - 1, by omega⟩
    have hle : pos + min 900000 (content.length - pos) ≤ content.length := by omega
    obtain ⟨f1, hrep1, hstep⟩ := uploadLoop_full_step C L handle hfill fuel r f pos
      (min 900000 (content.length - pos)) hrep hle (hadd _ _)
    rw [hstep]
    by_cases hp : pos + min 900000 (content.length - pos) = content.length
    · rw [if_pos hp]
      have hm : min 900000 (content.length - pos) = content.length - pos := by omega
      refine ⟨rfl, hp, ?_, ?_, ?_⟩
      · simp only [blocksOf, List.flatten_cons, List.flatten_nil, List.append_nil]
        rw [hm]
        apply List.take_of_length_le
        simp
      · simp only [blockSizes, blocksOf, List.map]
        rw [chunk_length content pos _ hle, hm, sizes_last _ (by omega) (by omega)]
      · intro it hit
        simp only [List.mem_singleton] at hit
        subst hit
        exact ⟨rfl, by show 0 < min 900000 (content.length - pos); omega⟩
    · rw [if_neg hp]
      have hm : min 900000 (content.length - pos) = 900000 := by omega
      have hbuf : (if content.length - (pos + min 900000 (content.length - pos)) < 900000
          then content.length - (pos + min 900000 (content.length - pos))
          else min 900000 (content.length - pos))
          = min 900000 (content.length - (pos + min 900000 (content.length - pos))) := by
        split <;> omega
      rw [hbuf]
      obtain ⟨h1, h2, h3, h4, h5⟩ := ih fuel (C.AddBlock r handle
        ((content.drop pos).take (min 900000 (content.length - pos)))).2 f1
        (pos + min 900000 (content.length - pos)) hrep1 (by omega) (by omega) (by omega)
      refine ⟨h1, h2, ?_, ?_, ?_⟩
      · simp only [blocksOf, List.flatten_cons]
        rw [h3]
        have hd : List.drop (pos + min 900000 (content.length - pos)) content
            = List.drop (min 900000 (content.length - pos)) (List.drop pos content) := by
          simp [List.drop_drop, Nat.add_comm]
        rw [hd, List.take_append_drop]
      · simp only [blockSizes, blocksOf, List.map] at h4 ⊢
        rw [h4, chunk_length content pos _ hle, hm, sizes_step (content.length - pos) (by omega)]
        have e : content.length - (pos + 900000) = content.length - pos - 900000 := by omega
        rw [e]
      · intro it hit
        simp only [List.mem_cons] at hit
        rcases hit with hit | hit
        · subst hit
          exact ⟨rfl, by show 0 < min 900000 (content.length - pos); omega⟩
        · exact h5 it hit

end FullRun
end Databricks

namespace Databricks

section FullUpload
variable {ρ σ : Type} (C : DBFS ρ) (L : LocalFS σ)

/-- The loop started at the beginning of a file read by buffer-filling reads,
with every `AddBlock` succeeding: the empty file costs one empty block. -/
theorem uploadLoop_full_start (handle : Handle) {content : List Byte} {rep : σ → Nat → Prop}
    (hfill : FillsBuffer L content rep)
    (hadd : ∀ r b, (C.AddBlock r handle b).1 = none)
    (fuel : Nat) (r : ρ) (f : σ) (hrep : rep f 0) (hfuel : content.length / 900000 + 1 ≤ fuel) :
    (uploadLoop C L handle content.length fuel r f 0
        (if content.length < 900000 then content.length else 900000)).ret = Ret.ok ∧
    (uploadLoop C L handle content.length fuel r f 0
        (if content.length < 900000 then content.length else 900000)).pos = content.length ∧
    (blocksOf (uploadLoop C L handle content.length fuel r f 0
        (if content.length < 900000 then content.length else 900000)).calls).flatten = content ∧
    blockSizes (uploadLoop C L handle content.length fuel r f 0
        (if content.length < 900000 then content.length else 900000)).calls
      = (if content.length = 0 then [0]
         else List.replicate (content.length / 900000) 900000 ++
          (if content.length % 900000 = 0 then [] else [content.length % 900000])) ∧
    (∀ it ∈ (uploadLoop C L handle content.length fuel r f 0
        (if content.length < 900000 then content.length else 900000)).iters,
        it.bytesRead = some it.bufSize ∧ (0 < content.length → 0 < it.bufSize)) := by
  have hbuf : (if content.length < 900000 then content.length else 900000)
      = min 900000 (content.length - 0) := by split <;> omega
  rw [hbuf]
  by_cases hS : content.length = 0
  · obtain ⟨fuel, rfl⟩ : ∃ k, fuel = k + 1 := ⟨fuel - 1, by omega⟩
    have hnil : content = [] := List.length_eq_zero.mp hS
    have hw : min 900000 (content.length - 0) = 0 := by omega
    rw [hw]
    obtain ⟨f1, _, hstep⟩ := uploadLoop_full_step C L handle hfill fuel r f 0 0 hrep
      (by omega) (hadd _ _)
    rw [hstep, if_pos (by omega)]
    subst hnil
    simp [blocksOf, blockSizes]
  · obtain ⟨h1, h2, h3, h4, h5⟩ := uploadLoop_full C L handle hfill hadd
      (content.length / 900000 + 1) fuel r f 0 hrep (by omega) (by omega) hfuel
    refine ⟨h1, h2, by simpa using h3, ?_, ?_⟩
    · rw [h4, if_neg hS]; simp
    · intro it hit
      exact ⟨(h5 it hit).1, fun _ => (h5 it hit).2⟩

/-- A whole upload of a file read by buffer-filling reads, with `Create` and
every `AddBlock` succeeding and enough fuel for the loop: the calls are `Create`,
the blocks of the file, and `Close`, whose answer is the result. -/
theorem dbfsUploadFile_full (fuel : Nat) (r : ρ) (data : ResourceData)
    (dbfsPath source : String) (handle : Handle) (content : List Byte)
    (hcreate : (C.Create r dbfsPath true).1 = Except.ok handle)
    (hadd : ∀ r b, (C.AddBlock r handle b).1 = none)
    (hreads : ReadsFully L source content)
    (hfuel : content.length / 900000 + 1 ≤ fuel) :
    ∃ (lc : List Event) (r2 : ρ),
      (dbfsUploadFile C L fuel r data dbfsPath source).calls
        = ⟨Call.create dbfsPath true, none⟩ :: lc ++
            [⟨Call.close handle, (C.Close r2 handle).1⟩] ∧
      (dbfsUploadFile C L fuel r data dbfsPath source).ret = Ret.ofErr (C.Close r2 handle).1 ∧
      lc = blockEvents handle (blocksOf lc) ∧
      (blocksOf lc).flatten = content ∧
      blockSizes lc = (if content.length = 0 then [0]
         else List.replicate (content.length / 900000) 900000 ++
          (if content.length % 900000 = 0 then [] else [content.length % 900000])) ∧
      (dbfsUploadFile C L fuel r data dbfsPath source).pos = content.length ∧
      (∀ it ∈ (dbfsUploadFile C L fuel r data dbfsPath source).iters,
        it.bytesRead = some it.bufSize ∧ (0 < content.length → 0 < it.bufSize)) ∧
      (dbfsUploadFile C L fuel r data dbfsPath source).data
        = { data with file_size := some (content.length : Int), id := dbfsPath } := by
  obtain ⟨p, f0, rep, hres, hopen, hstat, h0, hfill⟩ := hreads
  rcases hc : C.Create r dbfsPath true with ⟨res, r1⟩
  rw [hc] at hcreate
  simp only at hcreate
  subst hcreate
  obtain ⟨h1, h2, h3, h4, h5⟩ := uploadLoop_full_start C L handle hfill hadd fuel r1 f0 h0 hfuel
  refine ⟨(uploadLoop C L handle content.length fuel r1 f0 0
        (if content.length < 900000 then content.length else 900000)).calls,
      (uploadLoop C L handle content.length fuel r1 f0 0
        (if content.length < 900000 then content.length else 900000)).remote, ?_, ?_, ?_, h3, h4,
      ?_, ?_, ?_⟩
  · simp [dbfsUploadFile, hc, hres, hopen, hstat, h1]
  · simp [dbfsUploadFile, hc, hres, hopen, hstat, h1]
  · rcases uploadLoop_shape C L handle content.length fuel r1 f0 0
        (if content.length < 900000 then content.length else 900000) with hs | ⟨_, _, e, _, hr⟩
    · exact hs
    · rw [h1] at hr; cases hr
  · simp [dbfsUploadFile, hc, hres, hopen, hstat, h1, h2]
  · simpa [dbfsUploadFile, hc, hres, hopen, hstat, h1] using h5
  · simp [dbfsUploadFile, hc, hres, hopen, hstat, h1]

end FullUpload
end Databricks

namespace Databricks

/-! ## Concrete local file system -/

theorem osFS_fillsBuffer (wd : String) (files : List (String × List Byte)) (content : List Byte) :
    FillsBuffer (osFS wd files) content (fun f pos => f.content = content ∧ f.offset = pos) := by
  intro f pos want hrep hle
  obtain ⟨hc, ho⟩ := hrep
  show ∃ h f1, osFileRead f want = _ ∧ _
  unfold osFileRead
  by_cases hw : want = 0
  · subst hw
    refine ⟨Nat.zero_le _, f, ?_, hc, by omega⟩
    simp
  · have hlt : ¬ f.content.length ≤ f.offset := by rw [hc, ho]; omega
    rw [if_neg hw, if_neg hlt]
    refine ⟨by rw [← hc, ← ho]; exact List.length_take_le _ _,
      { f with offset := f.offset + min want (f.content.length - f.offset) }, ?_, hc, ?_⟩
    · subst hc; subst ho; rfl
    · show f.offset + min want (f.content.length - f.offset) = pos + want
      rw [hc, ho]; omega

theorem osFS_readsFully (wd : String) (files : List (String × List Byte)) (source p : String)
    (content : List Byte) (hres : resolveSource (osFS wd files) source = Except.ok p)
    (hfile : files.lookup p = some content) :
    ReadsFully (osFS wd files) source content := by
  refine ⟨p, OsFile.mk content 0, fun f pos => f.content = content ∧ f.offset = pos, hres, ?_,
    rfl, ⟨rfl, rfl⟩, osFS_fillsBuffer wd files content⟩
  show (match files.lookup p with
    | some c => Except.ok (OsFile.mk c 0)
    | none => Except.error ("open " ++ p ++ ": no such file or directory"))
      = Except.ok (OsFile.mk content 0)
  rw [hfile]

theorem bigFile_length : bigFile.length = 2500000 := List.length_replicate _ _

theorem demoFS_big : ReadsFully demoFS "big.bin" bigFile :=
  osFS_readsFully _ _ "big.bin" "/home/u/big.bin" bigFile rfl rfl

theorem demoFS_small : ReadsFully demoFS "f.bin" [1, 2, 3] :=
  osFS_readsFully _ _ "f.bin" "/home/u/f.bin" _ rfl rfl

theorem demoFS_empty : ReadsFully demoFS "empty.bin" [] :=
  osFS_readsFully _ _ "empty.bin" "/home/u/empty.bin" _ rfl rfl

theorem blocksOf_cons_create (p : String) (o : Bool) (e : Option Err) (rest : List Event) :
    blocksOf (⟨Call.create p o, e⟩ :: rest) = blocksOf rest := rfl

theorem blocksOf_close (h : Handle) (e : Option Err) :
    blocksOf [⟨Call.close h, e⟩] = [] := rfl

/-! ## C1 -/

/-- C1: for every remote, every local file system (whatever its reads return:
full, short or failing), every file size and every amount of loop fuel, each
block that `dbfsUploadFile` passes to `AddBlock` has at most 900,000 bytes. -/
theorem dbfsUploadFile_block_ceiling {ρ σ : Type} (C : DBFS ρ) (L : LocalFS σ) (fuel : Nat)
    (r : ρ) (data : ResourceData) (dbfsPath source : String) :
    ∀ b ∈ blocksOf (dbfsUploadFile C L fuel r data dbfsPath source).calls,
      b.length ≤ 900000 := by
  intro b hb
  rcases dbfsUploadFile_trace C L fuel r data dbfsPath source with
    ⟨e, _, _, hc, _⟩ | ⟨handle, _, ⟨e, _, hc⟩ | ⟨fsize, r1, f, ⟨_, _, hc⟩ | ⟨_, ce, _, hc⟩⟩⟩
  · rw [hc] at hb; simp [blocksOf] at hb
  · rw [hc] at hb; simp [blocksOf] at hb
  · rw [hc, blocksOf_cons_create] at hb
    exact uploadLoop_blocks_le C L handle fsize fuel r1 f 0 _ (by split <;> omega) b hb
  · rw [hc, List.cons_append, blocksOf_cons_create, blocksOf_append, blocksOf_close,
      List.append_nil] at hb
    exact uploadLoop_blocks_le C L handle fsize fuel r1 f 0 _ (by split <;> omega) b hb

/-- The three-byte file is sent as one block, which is below the ceiling. -/
theorem dbfsUploadFile_block_ceiling_witness :
    ([1, 2, 3] : List Byte) ∈ blocksOf (dbfsUploadFile okClient demoFS 5 0 demoData "/tmp/x" "f.bin").calls ∧
    ([1, 2, 3] : List Byte).length ≤ 900000 :=
  ⟨by decide,
    dbfsUploadFile_block_ceiling okClient demoFS 5 0 demoData "/tmp/x" "f.bin" _ (by decide)⟩

end Databricks

namespace Databricks

theorem addBlockCalls_length (calls : List Event) :
    (addBlockCalls calls).length = (blockSizes calls).length := by
  induction calls with
  | nil => rfl
  | cons ev rest ih =>
    obtain ⟨c, e⟩ := ev
    cases c <;> simp_all [addBlockCalls, blockSizes, blocksOf, Call.isAddBlock]

end Databricks

namespace Databricks

/-! ## C2 -/

/-- C2: when `Create`, every `AddBlock` and `Close` succeed, the local source
holds `content` and every read fills its buffer, then with enough loop fuel
`dbfsUploadFile` returns success, the blocks passed to `AddBlock` concatenated in
call order are exactly `content`, their lengths sum to its size, and `pos` is the
file size when the loop exits. -/
theorem dbfsUploadFile_transfers_file {ρ σ : Type} (C : DBFS ρ) (L : LocalFS σ) (fuel : Nat)
    (r : ρ) (data : ResourceData) (dbfsPath source : String) (handle : Handle)
    (content : List Byte)
    (hcreate : (C.Create r dbfsPath true).1 = Except.ok handle)
    (hadd : ∀ r b, (C.AddBlock r handle b).1 = none)
    (hclose : ∀ r, (C.Close r handle).1 = none)
    (hreads : ReadsFully L source content)
    (hfuel : content.length / 900000 + 1 ≤ fuel) :
    (dbfsUploadFile C L fuel r data dbfsPath source).ret = Ret.ok ∧
    (blocksOf (dbfsUploadFile C L fuel r data dbfsPath source).calls).flatten = content ∧
    (blockSizes (dbfsUploadFile C L fuel r data dbfsPath source).calls).sum = content.length ∧
    (dbfsUploadFile C L fuel r data dbfsPath source).pos = content.length := by
  obtain ⟨lc, r2, hc, hret, _, hcat, _, hpos, _⟩ :=
    dbfsUploadFile_full C L fuel r data dbfsPath source handle content hcreate hadd hreads hfuel
  have hb : blocksOf (dbfsUploadFile C L fuel r data dbfsPath source).calls = blocksOf lc := by
    rw [hc, List.cons_append, blocksOf_cons_create, blocksOf_append, blocksOf_close,
      List.append_nil]
  refine ⟨by rw [hret, hclose]; rfl, by rw [hb, hcat], ?_, hpos⟩
  rw [blockSizes, hb, ← List.length_flatten, hcat]

/-- The three-byte file arrives as its three bytes. -/
theorem dbfsUploadFile_transfers_file_witness :
    (dbfsUploadFile okClient demoFS 5 0 demoData "/tmp/x" "f.bin").ret = Ret.ok ∧
    (blocksOf (dbfsUploadFile okClient demoFS 5 0 demoData "/tmp/x" "f.bin").calls).flatten
      = [1, 2, 3] ∧
    (blockSizes (dbfsUploadFile okClient demoFS 5 0 demoData "/tmp/x" "f.bin").calls).sum = 3 ∧
    (dbfsUploadFile okClient demoFS 5 0 demoData "/tmp/x" "f.bin").pos = 3 :=
  dbfsUploadFile_transfers_file okClient demoFS 5 0 demoData "/tmp/x" "f.bin" 7 [1, 2, 3]
    rfl (fun _ _ => rfl) (fun _ => rfl) demoFS_small (by decide)

/-! ## C3 -/

/-- C3: for a file of `S > 0` bytes (remote calls succeeding, reads filling
their buffers, enough loop fuel) the `AddBlock` block sizes are `S / 900000`
blocks of 900000 bytes followed by one block of `S % 900000` bytes when that is
not zero; so there are `ceil(S / 900000)` calls, a file below 900000 bytes is
sent as one block of `S` bytes, and no block is empty. -/
theorem dbfsUploadFile_block_sizes {ρ σ : Type} (C : DBFS ρ) (L : LocalFS σ) (fuel : Nat)
    (r : ρ) (data : ResourceData) (dbfsPath source : String) (handle : Handle)
    (content : List Byte)
    (hcreate : (C.Create r dbfsPath true).1 = Except.ok handle)
    (hadd : ∀ r b, (C.AddBlock r handle b).1 = none)
    (hreads : ReadsFully L source content)
    (hfuel : content.length / 900000 + 1 ≤ fuel)
    (hpos : 0 < content.length) :
    blockSizes (dbfsUploadFile C L fuel r data dbfsPath source).calls
      = List.replicate (content.length / 900000) 900000 ++
          (if content.length % 900000 = 0 then [] else [content.length % 900000]) ∧
    (addBlockCalls (dbfsUploadFile C L fuel r data dbfsPath source).calls).length
      = (content.length + 899999) / 900000 ∧
    (content.length < 900000 →
      blockSizes (dbfsUploadFile C L fuel r data dbfsPath source).calls = [content.length]) ∧
    (0 : Nat) ∉ blockSizes (dbfsUploadFile C L fuel r data dbfsPath source).calls := by
  obtain ⟨lc, r2, hc, _, hlc, _, hsz, _⟩ :=
    dbfsUploadFile_full C L fuel r data dbfsPath source handle content hcreate hadd hreads hfuel
  have hb : blocksOf (dbfsUploadFile C L fuel r data dbfsPath source).calls = blocksOf lc := by
    rw [hc, List.cons_append, blocksOf_cons_create, blocksOf_append, blocksOf_close,
      List.append_nil]
  have hs : blockSizes (dbfsUploadFile C L fuel r data dbfsPath source).calls
      = List.replicate (content.length / 900000) 900000 ++
          (if content.length % 900000 = 0 then [] else [content.length % 900000]) := by
    rw [blockSizes, hb, ← blockSizes, hsz, if_neg (by omega)]
  have hn : (addBlockCalls (dbfsUploadFile C L fuel r data dbfsPath source).calls).length
      = (blockSizes (dbfsUploadFile C L fuel r data dbfsPath source).calls).length := by
    rw [addBlockCalls_length]
  refine ⟨hs, ?_, ?_, ?_⟩
  · rw [hn, hs, List.length_append, List.length_replicate]
    split <;> simp <;> omega
  · intro hlt
    rw [hs, sizes_last _ hpos (by omega)]
  · rw [hs]
    intro h0
    rcases List.mem_append.mp h0 with h | h
    · have := List.eq_of_mem_replicate h
      omega
    · split at h
      · simp at h
      · simp at h; omega

/-- The 2,500,000-byte file is sent in blocks of 900000, 900000 and 700000 bytes. -/
theorem dbfsUploadFile_block_sizes_witness :
    blockSizes (dbfsUploadFile okClient demoFS 4 0 demoData "/tmp/x" "big.bin").calls
      = [900000, 900000, 700000] ∧
    (addBlockCalls (dbfsUploadFile okClient demoFS 4 0 demoData "/tmp/x" "big.bin").calls).length
      = 3 := by
  have h := dbfsUploadFile_block_sizes okClient demoFS 4 0 demoData "/tmp/x" "big.bin" 7 bigFile
    rfl (fun _ _ => rfl) demoFS_big (by rw [bigFile_length]; decide)
    (by rw [bigFile_length]; decide)
  rw [bigFile_length] at h
  exact ⟨h.1, h.2.1⟩

end Databricks

namespace Databricks

/-! ## C4 -/

/-- C4, as stated, fails: uploading the zero-byte file `empty.bin` succeeds with
the calls `Create`, one `AddBlock` carrying an empty block, `Close`. The read
into the zero-length buffer consumed zero bytes and returned no error, and the
loop still sent its buffer. -/
theorem zero_byte_file_sends_one_block :
    (dbfsUploadFile okClient demoFS 5 0 demoData "/tmp/x" "empty.bin").ret = Ret.ok ∧
    (dbfsUploadFile okClient demoFS 5 0 demoData "/tmp/x" "empty.bin").calls
      = [⟨Call.create "/tmp/x" true, none⟩, ⟨Call.addBlock 7 [], none⟩,
         ⟨Call.close 7, none⟩] ∧
    (addBlockCalls (dbfsUploadFile okClient demoFS 5 0 demoData "/tmp/x" "empty.bin").calls).length
      = 1 ∧
    (dbfsUploadFile okClient demoFS 5 0 demoData "/tmp/x" "empty.bin").iters
      = [⟨0, 0, some 0⟩] := by
  decide

end Databricks

namespace Databricks

/-- On a reader that returns zero bytes without an error only for a zero-length
buffer, a loop that starts before the end of the file never reads zero bytes
without an error. -/
theorem uploadLoop_no_zero_read {ρ σ : Type} (C : DBFS ρ) (L : LocalFS σ) (handle : Handle)
    (fsize : Nat)
    (hz : ∀ f want bs h f1, L.Read f want = (ReadResult.ok bs h, f1) → bs.length = 0 → want = 0)
    (fuel : Nat) (r : ρ) (f : σ) (pos bufSize : Nat) :
    pos < fsize → bufSize = min 900000 (fsize - pos) →
      ∀ it ∈ (uploadLoop C L handle fsize fuel r f pos bufSize).iters,
        it.bytesRead ≠ some 0 := by
  refine uploadLoop_induct C L handle fsize
    (fun pos bufSize o => pos < fsize → bufSize = min 900000 (fsize - pos) →
      ∀ it ∈ o.iters, it.bytesRead ≠ some 0)
    ?_ ?_ ?_ ?_ ?_ ?_ fuel r f pos bufSize
  · intro r pos bufSize _ _ it hit; simp at hit
  · intro r pos bufSize _ _ it hit
    simp only [List.mem_singleton] at hit
    subst hit; simp
  · intro r pos bufSize e _ _ it hit
    simp only [List.mem_singleton] at hit
    subst hit; simp
  · intro r pos bufSize bs e hbs ⟨f, f1, hrd⟩ hp hb it hit
    simp only [List.mem_singleton] at hit
    subst hit
    intro h0
    have := hz f bufSize bs hbs f1 hrd (by simpa using h0)
    omega
  · intro r pos bufSize bs hbs ⟨f, f1, hrd⟩ _ hp hb it hit
    simp only [List.mem_singleton] at hit
    subst hit
    intro h0
    have := hz f bufSize bs hbs f1 hrd (by simpa using h0)
    omega
  · intro pos bufSize bs o hbs ⟨f, f1, hrd⟩ hne ih hp hb it hit
    simp only [List.mem_cons] at hit
    rcases hit with rfl | hit
    · intro h0
      have := hz f bufSize bs hbs f1 hrd (by simpa using h0)
      omega
    · exact ih (by omega) (by split <;> omega) it hit

/-- The iterations of a run of `dbfsUploadFile` are those of its loop, entered
at `pos = 0` with the size that was recorded as `file_size`. -/
theorem dbfsUploadFile_iters {ρ σ : Type} (C : DBFS ρ) (L : LocalFS σ) (fuel : Nat)
    (r : ρ) (data : ResourceData) (dbfsPath source : String) :
    (dbfsUploadFile C L fuel r data dbfsPath source).iters = [] ∨
    ∃ handle fsize r1 f,
      (dbfsUploadFile C L fuel r data dbfsPath source).iters
        = (uploadLoop C L handle fsize fuel r1 f 0
            (if fsize < 900000 then fsize else 900000)).iters ∧
      (dbfsUploadFile C L fuel r data dbfsPath source).data.file_size = some (fsize : Int) := by
  rcases hc : C.Create r dbfsPath true with ⟨res, r1⟩
  cases res with
  | error e => left; simp [dbfsUploadFile, hc]
  | ok handle =>
    rcases hres : resolveSource L source with e | p
    · left; simp [dbfsUploadFile, hc, hres]
    rcases hopen : L.Open p with e | f
    · left; simp [dbfsUploadFile, hc, hres, hopen]
    rcases hstat : L.Stat f with e | fsize
    · left; simp [dbfsUploadFile, hc, hres, hopen, hstat]
    right
    refine ⟨handle, fsize, r1, f, ?_⟩
    rcases hret : (uploadLoop C L handle fsize fuel r1 f 0
        (if fsize < 900000 then fsize else 900000)).ret with _ | e | _ <;>
      simp [dbfsUploadFile, hc, hres, hopen, hstat, hret]

/-- C4, amended: (1) for a zero-byte local file, where the read into the
zero-length buffer returns zero bytes and no error, and with `Create`,
`AddBlock` and `Close` succeeding, `dbfsUploadFile` succeeds with exactly the
calls `Create`, one `AddBlock` of a zero-length block, `Close`; (2) for every
remote and every reader that returns zero bytes without an error only for a
zero-length buffer (as `os.File.Read` does), an `AddBlock` for a read that
consumed zero bytes is issued only when the file is empty. -/
theorem dbfsUploadFile_zero_reads {ρ σ : Type} (C : DBFS ρ) (L : LocalFS σ) (fuel : Nat)
    (r : ρ) (data : ResourceData) (dbfsPath source : String) :
    (∀ (handle : Handle) (p : String) (f0 : σ),
      (C.Create r dbfsPath true).1 = Except.ok handle →
      (∀ r b, (C.AddBlock r handle b).1 = none) →
      (∀ r, (C.Close r handle).1 = none) →
      resolveSource L source = Except.ok p → L.Open p = Except.ok f0 →
      L.Stat f0 = Except.ok 0 →
      (∀ f, ∃ h f1, L.Read f 0 = (ReadResult.ok [] h, f1)) →
      1 ≤ fuel →
      (dbfsUploadFile C L fuel r data dbfsPath source).ret = Ret.ok ∧
      (dbfsUploadFile C L fuel r data dbfsPath source).calls
        = [⟨Call.create dbfsPath true, none⟩, ⟨Call.addBlock handle [], none⟩,
           ⟨Call.close handle, none⟩]) ∧
    ((∀ f want bs h f1, L.Read f want = (ReadResult.ok bs h, f1) → bs.length = 0 → want = 0) →
      ∀ it ∈ (dbfsUploadFile C L fuel r data dbfsPath source).iters,
        it.bytesRead = some 0 →
        (dbfsUploadFile C L fuel r data dbfsPath source).data.file_size = some 0) := by
  constructor
  · intro handle p f0 hcreate hadd hclose hres hopen hstat hread hfuel
    obtain ⟨fuel, rfl⟩ : ∃ k, fuel = k + 1 := ⟨fuel - 1, by omega⟩
    rcases hc : C.Create r dbfsPath true with ⟨res, r1⟩
    rw [hc] at hcreate
    simp only at hcreate
    subst hcreate
    obtain ⟨h, f1, hrd⟩ := hread f0
    have hadd2 : C.AddBlock r1 handle (padded 0 []) = (none, (C.AddBlock r1 handle []).2) := by
      rw [← hadd r1 []]; rfl
    have hloop := uploadLoop_last C L handle 0 fuel r1 _ f0 f1 0 0 [] h hrd hadd2 rfl
    rcases hcl : C.Close (C.AddBlock r1 handle []).2 handle with ⟨ce, r2⟩
    have hce := hclose (C.AddBlock r1 handle []).2
    rw [hcl] at hce
    simp only at hce
    subst hce
    simp [dbfsUploadFile, hc, hres, hopen, hstat, hloop, hcl, padded, Ret.ofErr]
  · intro hz it hit h0
    rcases dbfsUploadFile_iters C L fuel r data dbfsPath source with hnil |
      ⟨handle, fsize, r1, f, hiters, hsize⟩
    · rw [hnil] at hit; simp at hit
    · rw [hsize]
      rcases Nat.eq_zero_or_pos fsize with h | h
      · subst h; rfl
      · rw [hiters] at hit
        exact absurd h0 (uploadLoop_no_zero_read C L handle fsize hz fuel r1 f 0 _ h
          (by split <;> omega) it hit)

theorem osFS_zero_read (wd : String) (files : List (String × List Byte)) :
    ∀ f want bs h f1, (osFS wd files).Read f want = (ReadResult.ok bs h, f1) →
      bs.length = 0 → want = 0 := by
  intro f want bs h f1 hrd hlen
  by_contra hw
  change osFileRead f want = _ at hrd
  unfold osFileRead at hrd
  rw [if_neg hw] at hrd
  split at hrd
  · cases hrd
  · have hb := congrArg Prod.fst hrd
    simp only [ReadResult.ok.injEq] at hb
    rw [← hb, List.length_take, List.length_drop] at hlen
    omega

/-- The empty file costs one empty block; on the three-byte file, read by
`os.File`, no read before an `AddBlock` consumed zero bytes. -/
theorem dbfsUploadFile_zero_reads_witness :
    ((dbfsUploadFile okClient demoFS 5 0 demoData "/tmp/x" "empty.bin").ret = Ret.ok ∧
      (dbfsUploadFile okClient demoFS 5 0 demoData "/tmp/x" "empty.bin").calls
        = [⟨Call.create "/tmp/x" true, none⟩, ⟨Call.addBlock 7 [], none⟩,
           ⟨Call.close 7, none⟩]) ∧
    (∀ it ∈ (dbfsUploadFile okClient demoFS 5 0 demoData "/tmp/x" "f.bin").iters,
        it.bytesRead = some 0 →
        (dbfsUploadFile okClient demoFS 5 0 demoData "/tmp/x" "f.bin").data.file_size
          = some 0) :=
  ⟨(dbfsUploadFile_zero_reads okClient demoFS 5 0 demoData "/tmp/x" "empty.bin").1
      7 "/home/u/empty.bin" ⟨[], 0⟩ rfl (fun _ _ => rfl) (fun _ => rfl) rfl rfl rfl
      (fun f => ⟨Nat.zero_le _, f, rfl⟩) (by decide),
   (dbfsUploadFile_zero_reads okClient demoFS 5 0 demoData "/tmp/x" "f.bin").2
      (osFS_zero_read _ _)⟩

end Databricks

namespace Databricks

/-! ## C5 -/

theorem Ret.ofErr_eq_ok (ce : Option Err) (h : Ret.ofErr ce = Ret.ok) : ce = none := by
  cases ce with
  | none => rfl
  | some e => cases h

theorem blockSizes_blockEvents (h : Handle) (bs : List (List Byte)) :
    blockSizes (blockEvents h bs) = bs.map List.length := by
  rw [blockSizes, blocksOf_blockEvents]

/-- C5: every successful run of `dbfsUploadFile`, whatever the remote and the
local reads did, issued exactly these remote calls: first `Create` on the remote
path with overwrite = true, then `AddBlock` calls only, each on the handle that
`Create` returned and each successful, then one `Close` on that handle, last. -/
theorem dbfsUploadFile_success_trace {ρ σ : Type} (C : DBFS ρ) (L : LocalFS σ) (fuel : Nat)
    (r : ρ) (data : ResourceData) (dbfsPath source : String)
    (hok : (dbfsUploadFile C L fuel r data dbfsPath source).ret = Ret.ok) :
    ∃ (handle : Handle) (bs : List (List Byte)),
      (C.Create r dbfsPath true).1 = Except.ok handle ∧
      (dbfsUploadFile C L fuel r data dbfsPath source).calls
        = ⟨Call.create dbfsPath true, none⟩ :: blockEvents handle bs ++
            [⟨Call.close handle, none⟩] := by
  rcases dbfsUploadFile_trace C L fuel r data dbfsPath source with
    ⟨e, _, hr, _, _⟩ | ⟨handle, hcr, ⟨e, hr, _⟩ | ⟨fsize, r1, f, ⟨hne, hr, _⟩ | ⟨hl, ce, hr, hc⟩⟩⟩
  · rw [hr] at hok; cases hok
  · rw [hr] at hok; cases hok
  · rw [hr] at hok; exact absurd hok hne
  · rw [hr] at hok
    have hce := Ret.ofErr_eq_ok ce hok
    subst hce
    refine ⟨handle, blocksOf (uploadLoop C L handle fsize fuel r1 f 0
        (if fsize < 900000 then fsize else 900000)).calls, hcr, ?_⟩
    rcases uploadLoop_shape C L handle fsize fuel r1 f 0
        (if fsize < 900000 then fsize else 900000) with hs | ⟨_, _, e, _, hre⟩
    · rw [hc, ← hs]
    · rw [hl] at hre; cases hre

/-- The 2,500,000-byte file: the run succeeds and its calls are `Create` on
`/tmp/x` with overwrite, three `AddBlock` calls on handle 7 of 900000, 900000
and 700000 bytes, and `Close` on handle 7. -/
theorem dbfsUploadFile_success_trace_witness :
    (dbfsUploadFile okClient demoFS 4 0 demoData "/tmp/x" "big.bin").ret = Ret.ok ∧
    ∃ b1 b2 b3 : List Byte,
      b1.length = 900000 ∧ b2.length = 900000 ∧ b3.length = 700000 ∧
      (dbfsUploadFile okClient demoFS 4 0 demoData "/tmp/x" "big.bin").calls
        = [⟨Call.create "/tmp/x" true, none⟩, ⟨Call.addBlock 7 b1, none⟩,
           ⟨Call.addBlock 7 b2, none⟩, ⟨Call.addBlock 7 b3, none⟩, ⟨Call.close 7, none⟩] := by
  obtain ⟨lc2, _, hc2, hret, _, _, hsz2, _⟩ := dbfsUploadFile_full okClient demoFS 4 0 demoData
    "/tmp/x" "big.bin" 7 bigFile rfl (fun _ _ => rfl) demoFS_big
    (by rw [bigFile_length]; decide)
  have hok : (dbfsUploadFile okClient demoFS 4 0 demoData "/tmp/x" "big.bin").ret = Ret.ok :=
    hret
  refine ⟨hok, ?_⟩
  obtain ⟨handle, bs, hcr, hc⟩ :=
    dbfsUploadFile_success_trace okClient demoFS 4 0 demoData "/tmp/x" "big.bin" hok
  have hh : handle = 7 := by
    have h7 : (Except.ok 7 : Except Err Handle) = Except.ok handle := hcr
    exact (Except.ok.inj h7).symm
  subst hh
  have hsizes : bs.map List.length = [900000, 900000, 700000] := by
    have e1 : blockSizes (dbfsUploadFile okClient demoFS 4 0 demoData "/tmp/x" "big.bin").calls
        = bs.map List.length := by
      rw [hc, blockSizes, List.cons_append, blocksOf_cons_create, blocksOf_append,
        blocksOf_close, List.append_nil, blocksOf_blockEvents]
    have e2 : blockSizes (dbfsUploadFile okClient demoFS 4 0 demoData "/tmp/x" "big.bin").calls
        = blockSizes lc2 := by
      rw [hc2, blockSizes, List.cons_append, blocksOf_cons_create, blocksOf_append,
        blocksOf_close, List.append_nil, blockSizes]
    rw [← e1, e2, hsz2, bigFile_length]
    rfl
  rcases bs with _ | ⟨b1, _ | ⟨b2, _ | ⟨b3, _ | ⟨b4, rest⟩⟩⟩⟩ <;>
    simp only [List.map, List.cons.injEq, and_true, reduceCtorEq, and_false,
      false_and] at hsizes
  exact ⟨b1, b2, b3, hsizes.1, hsizes.2.1, hsizes.2.2, hc⟩

end Databricks

namespace Databricks

/-! ## C6 -/

theorem addBlockCalls_cons_create (p : String) (o : Bool) (e : Option Err) (rest : List Event) :
    addBlockCalls (⟨Call.create p o, e⟩ :: rest) = addBlockCalls rest := by
  simp [addBlockCalls, Call.isAddBlock]

theorem addBlockCalls_append (xs ys : List Event) :
    addBlockCalls (xs ++ ys) = addBlockCalls xs ++ addBlockCalls ys := by
  simp [addBlockCalls]

theorem addBlockCalls_blockEvents (h : Handle) (bs : List (List Byte)) :
    addBlockCalls (blockEvents h bs) = blockEvents h bs := by
  induction bs with
  | nil => rfl
  | cons b bs ih =>
    simp only [addBlockCalls, blockEvents, List.map, List.filter, Call.isAddBlock] at ih ⊢
    rw [ih]

theorem blockEvents_err (h : Handle) (bs : List (List Byte)) (ev : Event)
    (hm : ev ∈ blockEvents h bs) : ev.err = none := by
  simp only [blockEvents, List.mem_map] at hm
  obtain ⟨b, _, rfl⟩ := hm
  rfl

theorem blockEvents_not_close (h : Handle) (bs : List (List Byte)) (ev : Event)
    (hm : ev ∈ blockEvents h bs) : ev.call.isClose = false := by
  simp only [blockEvents, List.mem_map] at hm
  obtain ⟨b, _, rfl⟩ := hm
  rfl

theorem blockEvents_length (h : Handle) (bs : List (List Byte)) :
    (blockEvents h bs).length = bs.length := by
  simp [blockEvents]

/-- C6: whenever the `k`-th `AddBlock` call of an upload fails with `e` (for any
remote, any local reads and any loop fuel), `dbfsUploadFile` returns `e`, issues
no `Close`, and its remote calls are exactly `Create` followed by `k` `AddBlock`
calls, the failing one last. -/
theorem dbfsUploadFile_addBlock_failure {ρ σ : Type} (C : DBFS ρ) (L : LocalFS σ) (fuel : Nat)
    (r : ρ) (data : ResourceData) (dbfsPath source : String)
    (k : Nat) (ev : Event) (e : Err)
    (hk1 : 1 ≤ k)
    (hk : (addBlockCalls (dbfsUploadFile C L fuel r data dbfsPath source).calls)[k - 1]? = some ev)
    (he : ev.err = some e) :
    (dbfsUploadFile C L fuel r data dbfsPath source).ret = Ret.error e ∧
    (∀ x ∈ (dbfsUploadFile C L fuel r data dbfsPath source).calls, x.call.isClose = false) ∧
    ∃ (handle : Handle) (bs : List (List Byte)) (b : List Byte),
      bs.length + 1 = k ∧
      (dbfsUploadFile C L fuel r data dbfsPath source).calls
        = ⟨Call.create dbfsPath true, none⟩ :: blockEvents handle bs ++
            [⟨Call.addBlock handle b, some e⟩] := by
  have hallok : ∀ handle bs, ¬ (blockEvents handle bs)[k - 1]? = some ev := by
    intro handle bs h
    have := blockEvents_err handle bs ev (List.getElem?_mem h)
    rw [this] at he; cases he
  rcases dbfsUploadFile_trace C L fuel r data dbfsPath source with
    ⟨e1, _, _, hc, _⟩ | ⟨handle, hcr, ⟨e1, _, hc⟩ | ⟨fsize, r1, f, ⟨hne, hr, hc⟩ | ⟨hl, ce, hr, hc⟩⟩⟩
  · rw [hc] at hk; simp [addBlockCalls, Call.isAddBlock] at hk
  · rw [hc] at hk; simp [addBlockCalls, Call.isAddBlock] at hk
  · rcases uploadLoop_shape C L handle fsize fuel r1 f 0
        (if fsize < 900000 then fsize else 900000) with hs | ⟨bs, b, e2, hs, hre⟩
    · rw [hc, addBlockCalls_cons_create, hs, addBlockCalls_blockEvents] at hk
      exact absurd hk (hallok _ _)
    · rw [hc, addBlockCalls_cons_create, hs, addBlockCalls_append,
        addBlockCalls_blockEvents] at hk
      have hlast : addBlockCalls [(⟨Call.addBlock handle b, some e2⟩ : Event)]
          = [⟨Call.addBlock handle b, some e2⟩] := rfl
      rw [hlast] at hk
      rcases Nat.lt_or_ge (k - 1) (blockEvents handle bs).length with hlt | hge
      · rw [List.getElem?_append_left hlt] at hk
        exact absurd hk (hallok _ _)
      · rw [List.getElem?_append_right hge] at hk
        rcases hidx : k - 1 - (blockEvents handle bs).length with _ | j
        · rw [hidx] at hk
          simp only [List.getElem?_cons_zero, Option.some.injEq] at hk
          subst hk
          simp only [Option.some.injEq] at he
          subst he
          rw [blockEvents_length] at hge hidx
          refine ⟨by rw [hr, hre], ?_, handle, bs, b, by omega, by rw [hc, hs]; rfl⟩
          intro x hx
          rw [hc, hs] at hx
          simp only [List.mem_cons, List.mem_append, List.mem_singleton,
            List.not_mem_nil, or_false] at hx
          rcases hx with rfl | hx | rfl
          · rfl
          · exact blockEvents_not_close handle bs x hx
          · rfl
        · rw [hidx] at hk
          simp at hk
  · rcases uploadLoop_shape C L handle fsize fuel r1 f 0
        (if fsize < 900000 then fsize else 900000) with hs | ⟨_, _, e2, _, hre⟩
    · rw [hc, List.cons_append, addBlockCalls_cons_create, addBlockCalls_append, hs,
        addBlockCalls_blockEvents] at hk
      have hlast : addBlockCalls [(⟨Call.close handle, ce⟩ : Event)] = [] := rfl
      rw [hlast, List.append_nil] at hk
      exact absurd hk (hallok _ _)
    · rw [hl] at hre; cases hre

end Databricks

namespace Databricks

/-- One iteration of the loop on a reader that fills its buffer, when the
`AddBlock` call fails: the loop ends there with that error. -/
theorem uploadLoop_full_step_fail {ρ σ : Type} (C : DBFS ρ) (L : LocalFS σ) (handle : Handle)
    {content : List Byte} {rep : σ → Nat → Prop}
    (hfill : FillsBuffer L content rep)
    (fuel : Nat) (r : ρ) (f : σ) (pos want : Nat) (e : Err)
    (hrep : rep f pos) (hle : pos + want ≤ content.length)
    (hadd : (C.AddBlock r handle ((content.drop pos).take want)).1 = some e) :
    uploadLoop C L handle content.length (fuel + 1) r f pos want
      = ⟨Ret.error e, (C.AddBlock r handle ((content.drop pos).take want)).2, pos,
          [⟨Call.addBlock handle ((content.drop pos).take want), some e⟩],
          [⟨pos, want, some want⟩]⟩ := by
  obtain ⟨h, f1, hrd, _⟩ := hfill f pos want hrep hle
  have hlen := chunk_length content pos want hle
  have hpad := padded_full want _ hlen
  have hadd2 : C.AddBlock r handle (padded want ((content.drop pos).take want))
      = (some e, (C.AddBlock r handle ((content.drop pos).take want)).2) := by
    rw [hpad, ← hadd]
  rw [uploadLoop_addFail C L handle content.length fuel r _ f f1 pos want _ h e hrd hadd2,
    hpad, hlen]

/-- On the remote whose second `AddBlock` fails, the upload of a file of more
than 900000 bytes read by buffer-filling reads issues `Create`, a successful
`AddBlock`, the failing `AddBlock`, and nothing else. -/
theorem dbfsUploadFile_second_add_fails {σ : Type} (L : LocalFS σ) (fuel : Nat)
    (data : ResourceData) (dbfsPath source : String) (content : List Byte)
    (hreads : ReadsFully L source content) (hS : 900000 < content.length) :
    ∃ b1 b2 : List Byte,
      (dbfsUploadFile (addFailsAt 2) L (fuel + 2) 0 data dbfsPath source).calls
        = [⟨Call.create dbfsPath true, none⟩, ⟨Call.addBlock 7 b1, none⟩,
           ⟨Call.addBlock 7 b2, some "add-block failed"⟩] := by
  obtain ⟨p, f0, rep, hres, hopen, hstat, h0, hfill⟩ := hreads
  have hbuf : (if content.length < 900000 then content.length else 900000) = 900000 :=
    if_neg (by omega)
  obtain ⟨f1, hrep1, hstep1⟩ := uploadLoop_full_step (addFailsAt 2) L 7 hfill (fuel + 1) 0 f0 0
    900000 h0 (by omega) rfl
  rw [if_neg (by omega)] at hstep1
  have hle2 : 0 + 900000 + (if content.length - (0 + 900000) < 900000
      then content.length - (0 + 900000) else 900000) ≤ content.length := by
    split <;> omega
  have hstep2 := uploadLoop_full_step_fail (addFailsAt 2) L 7 hfill fuel
    ((addFailsAt 2).AddBlock 0 7 ((content.drop 0).take 900000)).2 f1 (0 + 900000) _
    "add-block failed" hrep1 hle2 rfl
  rw [hstep2] at hstep1
  refine ⟨(content.drop 0).take 900000,
    (content.drop (0 + 900000)).take (if content.length - (0 + 900000) < 900000
      then content.length - (0 + 900000) else 900000), ?_⟩
  have hc : (addFailsAt 2).Create 0 dbfsPath true = (Except.ok 7, 0) := rfl
  simp only [dbfsUploadFile, hc, hres, hopen, hstat, hbuf, hstep1]

/-- The 2,500,000-byte (three-chunk) file on the remote whose second `AddBlock`
fails: the result is that error, no `Close` is issued, and the calls are `Create`
followed by two `AddBlock` calls. -/
theorem dbfsUploadFile_addBlock_failure_witness :
    (dbfsUploadFile (addFailsAt 2) demoFS 4 0 demoData "/tmp/x" "big.bin").ret
      = Ret.error "add-block failed" ∧
    (∀ x ∈ (dbfsUploadFile (addFailsAt 2) demoFS 4 0 demoData "/tmp/x" "big.bin").calls,
      x.call.isClose = false) ∧
    ∃ (handle : Handle) (bs : List (List Byte)) (b : List Byte),
      bs.length + 1 = 2 ∧
      (dbfsUploadFile (addFailsAt 2) demoFS 4 0 demoData "/tmp/x" "big.bin").calls
        = ⟨Call.create "/tmp/x" true, none⟩ :: blockEvents handle bs ++
            [⟨Call.addBlock handle b, some "add-block failed"⟩] := by
  obtain ⟨b1, b2, hcalls⟩ := dbfsUploadFile_second_add_fails demoFS 2 demoData "/tmp/x" "big.bin"
    bigFile demoFS_big (by rw [bigFile_length]; decide)
  exact dbfsUploadFile_addBlock_failure (addFailsAt 2) demoFS 4 0 demoData "/tmp/x" "big.bin" 2
    ⟨Call.addBlock 7 b2, some "add-block failed"⟩ "add-block failed" (by decide)
    (by rw [hcalls]; rfl) rfl

end Databricks

namespace Databricks

/-! ## C7 -/

/-- C7: `dbfsUploadFile` returns remote failures unchanged and stops at once.
If `Create` fails with `e`, the result is `e`, the failed `Create` is the only
remote call, and the local file is never opened. If `Create` and every `AddBlock`
succeed, the reads fill their buffers and `Close` fails with `e`, the result is
`e` although every byte of the file was sent and `Close` was the last call. -/
theorem dbfsUploadFile_remote_errors {ρ σ : Type} (C : DBFS ρ) (L : LocalFS σ) (fuel : Nat)
    (r : ρ) (data : ResourceData) (dbfsPath source : String) :
    (∀ e, (C.Create r dbfsPath true).1 = Except.error e →
      (dbfsUploadFile C L fuel r data dbfsPath source).ret = Ret.error e ∧
      (dbfsUploadFile C L fuel r data dbfsPath source).calls
        = [⟨Call.create dbfsPath true, some e⟩] ∧
      (dbfsUploadFile C L fuel r data dbfsPath source).opened = none) ∧
    (∀ (handle : Handle) (content : List Byte) (e : Err),
      (C.Create r dbfsPath true).1 = Except.ok handle →
      (∀ r b, (C.AddBlock r handle b).1 = none) →
      (∀ r, (C.Close r handle).1 = some e) →
      ReadsFully L source content →
      content.length / 900000 + 1 ≤ fuel →
      (dbfsUploadFile C L fuel r data dbfsPath source).ret = Ret.error e ∧
      (blocksOf (dbfsUploadFile C L fuel r data dbfsPath source).calls).flatten = content ∧
      (dbfsUploadFile C L fuel r data dbfsPath source).calls.getLast?
        = some ⟨Call.close handle, some e⟩) := by
  constructor
  · intro e he
    rcases dbfsUploadFile_trace C L fuel r data dbfsPath source with
      ⟨e1, hcr, hr, hc, ho⟩ | ⟨handle, hcr, _⟩
    · rw [he] at hcr
      cases hcr
      exact ⟨hr, hc, ho⟩
    · rw [he] at hcr; cases hcr
  · intro handle content e hcreate hadd hclose hreads hfuel
    obtain ⟨lc, r2, hc, hret, _, hcat, _⟩ :=
      dbfsUploadFile_full C L fuel r data dbfsPath source handle content hcreate hadd hreads hfuel
    refine ⟨by rw [hret, hclose]; rfl, ?_, ?_⟩
    · rw [hc, List.cons_append, blocksOf_cons_create, blocksOf_append, blocksOf_close,
        List.append_nil, hcat]
    · rw [hc, hclose]
      exact List.getLast?_concat _

/-- A failing `Create` and a failing `Close` on the three-byte file. -/
theorem dbfsUploadFile_remote_errors_witness :
    ((dbfsUploadFile createFails demoFS 5 0 demoData "/tmp/x" "f.bin").ret
        = Ret.error "create failed" ∧
      (dbfsUploadFile createFails demoFS 5 0 demoData "/tmp/x" "f.bin").calls
        = [⟨Call.create "/tmp/x" true, some "create failed"⟩] ∧
      (dbfsUploadFile createFails demoFS 5 0 demoData "/tmp/x" "f.bin").opened = none) ∧
    ((dbfsUploadFile closeFails demoFS 5 0 demoData "/tmp/x" "f.bin").ret
        = Ret.error "close failed" ∧
      (blocksOf (dbfsUploadFile closeFails demoFS 5 0 demoData "/tmp/x" "f.bin").calls).flatten
        = [1, 2, 3] ∧
      (dbfsUploadFile closeFails demoFS 5 0 demoData "/tmp/x" "f.bin").calls.getLast?
        = some ⟨Call.close 7, some "close failed"⟩) :=
  ⟨(dbfsUploadFile_remote_errors createFails demoFS 5 0 demoData "/tmp/x" "f.bin").1
      "create failed" rfl,
   (dbfsUploadFile_remote_errors closeFails demoFS 5 0 demoData "/tmp/x" "f.bin").2
      7 [1, 2, 3] "close failed" rfl (fun _ _ => rfl) (fun _ => rfl) demoFS_small (by decide)⟩

end Databricks

namespace Databricks

/-! ## C8 -/

theorem string_length_eq_zero (s : String) : s.length = 0 ↔ s = "" := by
  constructor
  · intro h
    have hd : s.data = [] := List.length_eq_zero.mp h
    exact String.ext hd
  · intro h; subst h; rfl

/-- Every run of `dbfsUploadFile` starts with a `Create` call on the remote path
with overwrite = true. -/
theorem dbfsUploadFile_calls_head {ρ σ : Type} (C : DBFS ρ) (L : LocalFS σ) (fuel : Nat)
    (r : ρ) (data : ResourceData) (dbfsPath source : String) :
    ∃ ce rest, (dbfsUploadFile C L fuel r data dbfsPath source).calls
      = ⟨Call.create dbfsPath true, ce⟩ :: rest := by
  rcases dbfsUploadFile_trace C L fuel r data dbfsPath source with
    ⟨e, _, _, hc, _⟩ | ⟨handle, _, ⟨e, _, hc⟩ | ⟨fsize, r1, f, ⟨_, _, hc⟩ | ⟨_, ce, _, hc⟩⟩⟩
  · exact ⟨_, _, hc⟩
  · exact ⟨_, _, hc⟩
  · exact ⟨_, _, hc⟩
  · exact ⟨_, _, by rw [hc]; rfl⟩

/-- C8: `resourceDBFSCreate` is in directory mode exactly when the source is
empty. For an empty source its only remote call is `Mkdirs` on the remote path
(so no `Create`, `AddBlock` or `Close`); when that succeeds it returns success
with the ID set to the remote path, and when it fails it returns that error and
records nothing. For a non-empty source it issues a `Create` call on the remote
path (right after the `Mkdirs` on the parent). Where the code departs from the
claim: on `Mkdirs` success the ID is the only thing recorded. The call
`data.Set("is_directory", true)` of line 61 hands a `bool` to an attribute that
the schema declares `schema.TypeString`; it fails, its error is dropped, and
`is_directory` keeps the value it had (unset on a new resource) instead of
becoming `true`. -/
theorem resourceDBFSCreate_mode {ρ σ : Type} (C : DBFS ρ) (L : LocalFS σ) (fuel : Nat)
    (r : ρ) (data : ResourceData) :
    (data.source = "" →
      (resourceDBFSCreate C L fuel r data).calls
        = [⟨Call.mkdirs data.dbfs_path, (C.Mkdirs r data.dbfs_path).1⟩] ∧
      ((C.Mkdirs r data.dbfs_path).1 = none →
        (resourceDBFSCreate C L fuel r data).ret = Ret.ok ∧
        (resourceDBFSCreate C L fuel r data).data = { data with id := data.dbfs_path } ∧
        (resourceDBFSCreate C L fuel r data).data.is_directory = data.is_directory ∧
        (resourceDBFSCreate C L fuel r data).data.id = data.dbfs_path) ∧
      (∀ e, (C.Mkdirs r data.dbfs_path).1 = some e →
        (resourceDBFSCreate C L fuel r data).ret = Ret.error e ∧
        (resourceDBFSCreate C L fuel r data).data = data)) ∧
    (data.source ≠ "" →
      ∃ m ce rest, (resourceDBFSCreate C L fuel r data).calls
        = ⟨Call.mkdirs (pathDir data.dbfs_path), m⟩ ::
          ⟨Call.create data.dbfs_path true, ce⟩ :: rest) := by
  constructor
  · intro hsrc
    have hlen : data.source.length = 0 := (string_length_eq_zero _).mpr hsrc
    rcases hm : C.Mkdirs r data.dbfs_path with ⟨res, r1⟩
    cases res with
    | none => simp [resourceDBFSCreate, hlen, hm]
    | some e => simp [resourceDBFSCreate, hlen, hm]
  · intro hsrc
    have hlen : ¬ data.source.length = 0 := fun h => hsrc ((string_length_eq_zero _).mp h)
    obtain ⟨ce, rest, hc⟩ := dbfsUploadFile_calls_head C L fuel
      (C.Mkdirs r (pathDir data.dbfs_path)).2 data data.dbfs_path data.source
    refine ⟨(C.Mkdirs r (pathDir data.dbfs_path)).1, ce, rest, ?_⟩
    simp only [resourceDBFSCreate, hlen, if_false]
    rw [hc]

/-- The configuration `remotePath "/tmp/x"`, `source ""` on a new resource: a
single `Mkdirs("/tmp/x")`, success, ID `/tmp/x`, and `is_directory` still unset.
And the file-mode configuration: `Mkdirs("/tmp")`, then `Create("/tmp/x", true)`. -/
theorem resourceDBFSCreate_mode_witness :
    ((resourceDBFSCreate okClient demoFS 5 0 dirData).calls = [⟨Call.mkdirs "/tmp/x", none⟩] ∧
      (resourceDBFSCreate okClient demoFS 5 0 dirData).ret = Ret.ok ∧
      (resourceDBFSCreate okClient demoFS 5 0 dirData).data = ⟨"/tmp/x", "", none, none, "/tmp/x"⟩ ∧
      (resourceDBFSCreate okClient demoFS 5 0 dirData).data.is_directory = none ∧
      (resourceDBFSCreate okClient demoFS 5 0 dirData).data.id = "/tmp/x") ∧
    (∃ m ce rest, (resourceDBFSCreate okClient demoFS 5 0 demoData).calls
        = ⟨Call.mkdirs "/tmp", m⟩ :: ⟨Call.create "/tmp/x" true, ce⟩ :: rest) :=
  ⟨⟨((resourceDBFSCreate_mode okClient demoFS 5 0 dirData).1 rfl).1,
     ((resourceDBFSCreate_mode okClient demoFS 5 0 dirData).1 rfl).2.1 rfl⟩,
   (resourceDBFSCreate_mode okClient demoFS 5 0 demoData).2 (by decide)⟩

/-! ## C9 -/

theorem uploadLoop_withMkdirsAnswer {ρ σ : Type} (C : DBFS ρ) (L : LocalFS σ)
    (m : ρ → String → Option Err) (handle : Handle) (fsize : Nat) :
    ∀ (fuel : Nat) (r : ρ) (f : σ) (pos bufSize : Nat),
      uploadLoop (withMkdirsAnswer C m) L handle fsize fuel r f pos bufSize
        = uploadLoop C L handle fsize fuel r f pos bufSize := by
  intro fuel
  induction fuel with
  | zero => intro r f pos bufSize; rfl
  | succ fuel ih =>
    intro r f pos bufSize
    simp only [uploadLoop, ih]
    rfl

theorem dbfsUploadFile_withMkdirsAnswer {ρ σ : Type} (C : DBFS ρ) (L : LocalFS σ)
    (m : ρ → String → Option Err) (fuel : Nat) (r : ρ) (data : ResourceData)
    (dbfsPath source : String) :
    dbfsUploadFile (withMkdirsAnswer C m) L fuel r data dbfsPath source
      = dbfsUploadFile C L fuel r data dbfsPath source := by
  simp only [dbfsUploadFile, uploadLoop_withMkdirsAnswer]
  rfl

/-- C9: in file mode `resourceDBFSCreate` first calls `Mkdirs` on
`path.Dir(remotePath)` and ignores its answer: replacing the answers of `Mkdirs`
by any others (success or failure) changes neither the result, nor the recorded
data, nor the final remote state, nor any of the remote calls after that first
one (the `Create` and everything that follows, with their answers). -/
theorem resourceDBFSCreate_ignores_parent_mkdirs {ρ σ : Type} (C : DBFS ρ) (L : LocalFS σ)
    (fuel : Nat) (r : ρ) (data : ResourceData) (m : ρ → String → Option Err)
    (hsrc : data.source ≠ "") :
    (resourceDBFSCreate C L fuel r data).calls.head?
      = some ⟨Call.mkdirs (pathDir data.dbfs_path), (C.Mkdirs r (pathDir data.dbfs_path)).1⟩ ∧
    (resourceDBFSCreate (withMkdirsAnswer C m) L fuel r data).calls.head?
      = some ⟨Call.mkdirs (pathDir data.dbfs_path), m r (pathDir data.dbfs_path)⟩ ∧
    (resourceDBFSCreate (withMkdirsAnswer C m) L fuel r data).ret
      = (resourceDBFSCreate C L fuel r data).ret ∧
    (resourceDBFSCreate (withMkdirsAnswer C m) L fuel r data).calls.tail
      = (resourceDBFSCreate C L fuel r data).calls.tail ∧
    (resourceDBFSCreate (withMkdirsAnswer C m) L fuel r data).data
      = (resourceDBFSCreate C L fuel r data).data ∧
    (resourceDBFSCreate (withMkdirsAnswer C m) L fuel r data).remote
      = (resourceDBFSCreate C L fuel r data).remote := by
  have hlen : ¬ data.source.length = 0 := fun h => hsrc ((string_length_eq_zero _).mp h)
  simp only [resourceDBFSCreate, hlen, if_false, dbfsUploadFile_withMkdirsAnswer]
  exact ⟨rfl, rfl, rfl, rfl, rfl, rfl⟩

/-- The upload of the three-byte file with the parent `Mkdirs` succeeding and
failing: same success, same calls after the first. -/
theorem resourceDBFSCreate_ignores_parent_mkdirs_witness :
    (resourceDBFSCreate
        (withMkdirsAnswer okClient (fun _ _ => some "mkdirs failed")) demoFS 5 0 demoData).ret
      = Ret.ok ∧
    (resourceDBFSCreate
        (withMkdirsAnswer okClient (fun _ _ => some "mkdirs failed")) demoFS 5 0 demoData).calls
      = [⟨Call.mkdirs "/tmp", some "mkdirs failed"⟩, ⟨Call.create "/tmp/x" true, none⟩,
         ⟨Call.addBlock 7 [1, 2, 3], none⟩, ⟨Call.close 7, none⟩] ∧
    (resourceDBFSCreate
        (withMkdirsAnswer okClient (fun _ _ => some "mkdirs failed")) demoFS 5 0 demoData).calls.tail
      = (resourceDBFSCreate okClient demoFS 5 0 demoData).calls.tail :=
  ⟨by decide, by decide,
   (resourceDBFSCreate_ignores_parent_mkdirs okClient demoFS 5 0 demoData
      (fun _ _ => some "mkdirs failed") (by decide)).2.2.2.1⟩

end Databricks

namespace Databricks

/-! ## C10 -/

theorem resourceDBFSRead_error {ρ : Type} (C : DBFS ρ) (r : ρ) (data : ResourceData) (e : Err)
    (h : (C.GetStatus r data.id).1 = Except.error e) :
    (resourceDBFSRead C r data).ret = Ret.error e ∧ (resourceDBFSRead C r data).data = data := by
  rcases hg : C.GetStatus r data.id with ⟨res, r1⟩
  rw [hg] at h
  simp only at h
  subst h
  simp [resourceDBFSRead, hg]

theorem resourceDBFSRead_ok {ρ : Type} (C : DBFS ρ) (r : ρ) (data : ResourceData)
    (isDir : Bool) (size : Int)
    (h : (C.GetStatus r data.id).1 = Except.ok (isDir, size)) :
    (resourceDBFSRead C r data).ret = Ret.ok ∧
    (resourceDBFSRead C r data).data
      = { data with file_size := if isDir then data.file_size else some size } := by
  rcases hg : C.GetStatus r data.id with ⟨res, r1⟩
  rw [hg] at h
  simp only at h
  subst h
  cases isDir <;> simp [resourceDBFSRead, hg]

/-- C10: the outcome of `resourceDBFSRead` is a function of the answer of
`GetStatus` alone. If `GetStatus` fails, Read returns that error and leaves the
resource data untouched. Otherwise it returns success, sets `file_size` to the
reported size when the path is not a directory and leaves `file_size` as it was
when it is, and changes nothing else. Hence any two Reads whose `GetStatus`
answers agree (whatever the client and remote state) end with the same result
and data, and a second Read run on the data left by the first, with `GetStatus`
answering the same, reports the same state again. Where the code departs from
the claim: the reported flag is not recorded. The call
`data.Set("is_directory", isDir)` of line 92 hands a `bool` to an attribute that
the schema declares `schema.TypeString`; it fails, its error is dropped, and
`is_directory` keeps the value it had. -/
theorem resourceDBFSRead_outcome {ρ : Type} (C : DBFS ρ) (r : ρ) (data : ResourceData) :
    (∀ e, (C.GetStatus r data.id).1 = Except.error e →
      (resourceDBFSRead C r data).ret = Ret.error e ∧
      (resourceDBFSRead C r data).data = data) ∧
    (∀ isDir size, (C.GetStatus r data.id).1 = Except.ok (isDir, size) →
      (resourceDBFSRead C r data).ret = Ret.ok ∧
      (resourceDBFSRead C r data).data
        = { data with file_size := if isDir then data.file_size else some size } ∧
      (resourceDBFSRead C r data).data.is_directory = data.is_directory) ∧
    (∀ {ρ1 : Type} (C1 : DBFS ρ1) (r1 : ρ1),
      (C1.GetStatus r1 data.id).1 = (C.GetStatus r data.id).1 →
      (resourceDBFSRead C1 r1 data).ret = (resourceDBFSRead C r data).ret ∧
      (resourceDBFSRead C1 r1 data).data = (resourceDBFSRead C r data).data) ∧
    ((C.GetStatus (resourceDBFSRead C r data).remote data.id).1 = (C.GetStatus r data.id).1 →
      (resourceDBFSRead C (resourceDBFSRead C r data).remote (resourceDBFSRead C r data).data).ret
        = (resourceDBFSRead C r data).ret ∧
      (resourceDBFSRead C (resourceDBFSRead C r data).remote (resourceDBFSRead C r data).data).data
        = (resourceDBFSRead C r data).data) := by
  refine ⟨resourceDBFSRead_error C r data, ?_, ?_, ?_⟩
  · intro isDir size hg
    obtain ⟨a1, a2⟩ := resourceDBFSRead_ok C r data isDir size hg
    exact ⟨a1, a2, by rw [a2]⟩
  · intro ρ1 C1 r1 he
    rcases hg : (C.GetStatus r data.id).1 with e | ⟨isDir, size⟩
    · rw [hg] at he
      obtain ⟨a1, a2⟩ := resourceDBFSRead_error C r data e hg
      obtain ⟨b1, b2⟩ := resourceDBFSRead_error C1 r1 data e he
      exact ⟨by rw [a1, b1], by rw [a2, b2]⟩
    · rw [hg] at he
      obtain ⟨a1, a2⟩ := resourceDBFSRead_ok C r data isDir size hg
      obtain ⟨b1, b2⟩ := resourceDBFSRead_ok C1 r1 data isDir size he
      exact ⟨by rw [a1, b1], by rw [a2, b2]⟩
  · intro he
    rcases hg : (C.GetStatus r data.id).1 with e | ⟨isDir, size⟩
    · rw [hg] at he
      obtain ⟨a1, a2⟩ := resourceDBFSRead_error C r data e hg
      rw [a2]
      obtain ⟨b1, b2⟩ := resourceDBFSRead_error C (resourceDBFSRead C r data).remote data e he
      exact ⟨by rw [a1, b1], b2⟩
    · rw [hg] at he
      obtain ⟨a1, a2⟩ := resourceDBFSRead_ok C r data isDir size hg
      rw [a2]
      obtain ⟨b1, b2⟩ := resourceDBFSRead_ok C (resourceDBFSRead C r data).remote
        { data with file_size := if isDir then data.file_size else some size } isDir size he
      refine ⟨by rw [a1, b1], ?_⟩
      rw [b2]
      cases isDir <;> rfl

/-- Reads of a missing path, of the 42-byte file at `/tmp/x` and of the
directory `/tmp` (after either, `is_directory` is still unset), and a second
read of the file. -/
theorem resourceDBFSRead_outcome_witness :
    ((resourceDBFSRead statusClient 0 ⟨"/nope", "", none, some 7, "/nope"⟩).ret
        = Ret.error "RESOURCE_DOES_NOT_EXIST" ∧
      (resourceDBFSRead statusClient 0 ⟨"/nope", "", none, some 7, "/nope"⟩).data
        = ⟨"/nope", "", none, some 7, "/nope"⟩) ∧
    ((resourceDBFSRead statusClient 0 ⟨"/tmp/x", "f.bin", none, some 7, "/tmp/x"⟩).ret = Ret.ok ∧
      (resourceDBFSRead statusClient 0 ⟨"/tmp/x", "f.bin", none, some 7, "/tmp/x"⟩).data
        = ⟨"/tmp/x", "f.bin", none, some 42, "/tmp/x"⟩ ∧
      (resourceDBFSRead statusClient 0 ⟨"/tmp/x", "f.bin", none, some 7, "/tmp/x"⟩).data.is_directory
        = none) ∧
    ((resourceDBFSRead statusClient 0 ⟨"/tmp", "", none, some 7, "/tmp"⟩).ret = Ret.ok ∧
      (resourceDBFSRead statusClient 0 ⟨"/tmp", "", none, some 7, "/tmp"⟩).data
        = ⟨"/tmp", "", none, some 7, "/tmp"⟩ ∧
      (resourceDBFSRead statusClient 0 ⟨"/tmp", "", none, some 7, "/tmp"⟩).data.is_directory
        = none) ∧
    (resourceDBFSRead statusClient
        (resourceDBFSRead statusClient 0 ⟨"/tmp/x", "f.bin", none, some 7, "/tmp/x"⟩).remote
        (resourceDBFSRead statusClient 0 ⟨"/tmp/x", "f.bin", none, some 7, "/tmp/x"⟩).data).data
      = (resourceDBFSRead statusClient 0 ⟨"/tmp/x", "f.bin", none, some 7, "/tmp/x"⟩).data :=
  ⟨(resourceDBFSRead_outcome statusClient 0 ⟨"/nope", "", none, some 7, "/nope"⟩).1
      "RESOURCE_DOES_NOT_EXIST" rfl,
   (resourceDBFSRead_outcome statusClient 0 ⟨"/tmp/x", "f.bin", none, some 7, "/tmp/x"⟩).2.1
      false 42 rfl,
   (resourceDBFSRead_outcome statusClient 0 ⟨"/tmp", "", none, some 7, "/tmp"⟩).2.1
      true 0 rfl,
   ((resourceDBFSRead_outcome statusClient 0 ⟨"/tmp/x", "f.bin", none, some 7, "/tmp/x"⟩).2.2.2
      rfl).2⟩

end Databricks

namespace Databricks

/-! ## C11 -/

/-- C11: when `GetStatus` on the resource ID reports a directory,
`resourceDBFSUpdate` returns success, its only remote call is that `GetStatus`
(so no `Delete`, `Create`, `AddBlock` or `Close`), the local file is not opened,
and the recorded data are unchanged. -/
theorem resourceDBFSUpdate_directory_noop {ρ σ : Type} (C : DBFS ρ) (L : LocalFS σ)
    (fuel : Nat) (r : ρ) (data : ResourceData) (size : Int)
    (hdir : (C.GetStatus r data.id).1 = Except.ok (true, size)) :
    (resourceDBFSUpdate C L fuel r data).ret = Ret.ok ∧
    (resourceDBFSUpdate C L fuel r data).calls = [⟨Call.getStatus data.id, none⟩] ∧
    (resourceDBFSUpdate C L fuel r data).opened = none ∧
    (resourceDBFSUpdate C L fuel r data).data = data := by
  rcases hg : C.GetStatus r data.id with ⟨res, r1⟩
  rw [hg] at hdir
  simp only at hdir
  subst hdir
  simp [resourceDBFSUpdate, hg]

/-- An update of `/tmp/x` on a remote that reports a directory there. -/
theorem resourceDBFSUpdate_directory_noop_witness :
    (resourceDBFSUpdate dirStatusClient demoFS 5 0 fileData).ret = Ret.ok ∧
    (resourceDBFSUpdate dirStatusClient demoFS 5 0 fileData).calls
      = [⟨Call.getStatus "/tmp/x", none⟩] ∧
    (resourceDBFSUpdate dirStatusClient demoFS 5 0 fileData).opened = none ∧
    (resourceDBFSUpdate dirStatusClient demoFS 5 0 fileData).data = fileData :=
  resourceDBFSUpdate_directory_noop dirStatusClient demoFS 5 0 fileData 0 rfl

/-! ## C12 -/

/-- Every call of the loop is an `AddBlock` on the handle. -/
theorem uploadLoop_calls_addBlock {ρ σ : Type} (C : DBFS ρ) (L : LocalFS σ) (handle : Handle)
    (fsize fuel : Nat) (r : ρ) (f : σ) (pos bufSize : Nat) :
    ∀ x ∈ (uploadLoop C L handle fsize fuel r f pos bufSize).calls,
      ∃ b, x.call = Call.addBlock handle b := by
  refine uploadLoop_induct C L handle fsize
    (fun _ _ o => ∀ x ∈ o.calls, ∃ b, x.call = Call.addBlock handle b)
    ?_ ?_ ?_ ?_ ?_ ?_ fuel r f pos bufSize
  · intro r pos bufSize x hx; simp at hx
  · intro r pos bufSize x hx; simp at hx
  · intro r pos bufSize e x hx; simp at hx
  · intro r pos bufSize bs e _ _ x hx
    simp only [List.mem_singleton] at hx
    subst hx; exact ⟨_, rfl⟩
  · intro r pos bufSize bs _ _ _ x hx
    simp only [List.mem_singleton] at hx
    subst hx; exact ⟨_, rfl⟩
  · intro pos bufSize bs o _ _ _ ih x hx
    simp only [List.mem_cons] at hx
    rcases hx with rfl | hx
    · exact ⟨_, rfl⟩
    · exact ih x hx

/-- Every remote call of `dbfsUploadFile` is the `Create` on the path, an
`AddBlock`, or a `Close`. -/
theorem dbfsUploadFile_calls_kind {ρ σ : Type} (C : DBFS ρ) (L : LocalFS σ) (fuel : Nat)
    (r : ρ) (data : ResourceData) (dbfsPath source : String) :
    ∀ x ∈ (dbfsUploadFile C L fuel r data dbfsPath source).calls,
      x.call = Call.create dbfsPath true ∨ (∃ h b, x.call = Call.addBlock h b) ∨
      (∃ h, x.call = Call.close h) := by
  intro x hx
  rcases dbfsUploadFile_trace C L fuel r data dbfsPath source with
    ⟨e, _, _, hc, _⟩ | ⟨handle, _, ⟨e, _, hc⟩ | ⟨fsize, r1, f, ⟨_, _, hc⟩ | ⟨_, ce, _, hc⟩⟩⟩
  · rw [hc] at hx
    simp only [List.mem_singleton] at hx
    subst hx; left; rfl
  · rw [hc] at hx
    simp only [List.mem_singleton] at hx
    subst hx; left; rfl
  · rw [hc] at hx
    simp only [List.mem_cons] at hx
    rcases hx with rfl | hx
    · left; rfl
    · right; left
      obtain ⟨b, hb⟩ := uploadLoop_calls_addBlock C L handle fsize fuel r1 f 0 _ x hx
      exact ⟨handle, b, hb⟩
  · rw [hc] at hx
    simp only [List.cons_append, List.mem_cons, List.mem_append, List.mem_singleton,
      List.not_mem_nil, or_false] at hx
    rcases hx with rfl | hx | rfl
    · left; rfl
    · right; left
      obtain ⟨b, hb⟩ := uploadLoop_calls_addBlock C L handle fsize fuel r1 f 0 _ x hx
      exact ⟨handle, b, hb⟩
    · right; right; exact ⟨handle, rfl⟩

/-- C12, as stated, fails: on the file `/tmp/x` the calls of `resourceDBFSUpdate`
after `GetStatus` are `Delete`, `Create`, `AddBlock`, `Close`, while the
file-mode `resourceDBFSCreate` for the same path and source issues `Mkdirs` on
the parent first; so the update does not issue `Delete` followed by the calls of
the create. -/
theorem update_skips_parent_mkdirs :
    (resourceDBFSUpdate okClient demoFS 5 0 fileData).calls.tail
      = [⟨Call.delete "/tmp/x" false, none⟩, ⟨Call.create "/tmp/x" true, none⟩,
         ⟨Call.addBlock 7 [1, 2, 3], none⟩, ⟨Call.close 7, none⟩] ∧
    (resourceDBFSCreate okClient demoFS 5 0 fileData).calls
      = [⟨Call.mkdirs "/tmp", none⟩, ⟨Call.create "/tmp/x" true, none⟩,
         ⟨Call.addBlock 7 [1, 2, 3], none⟩, ⟨Call.close 7, none⟩] ∧
    (resourceDBFSUpdate okClient demoFS 5 0 fileData).calls.tail
      ≠ ⟨Call.delete "/tmp/x" false, none⟩ ::
          (resourceDBFSCreate okClient demoFS 5 0 fileData).calls := by
  decide

/-- C12, amended: when `GetStatus` reports a file and `Delete(path, false)`
succeeds, the calls of `resourceDBFSUpdate` after `GetStatus` are that `Delete`
followed by the calls of `dbfsUploadFile` on the path and source, run on the
remote state the `Delete` left. These are the calls that a file-mode
`resourceDBFSCreate` for the same path and source issues after its `Mkdirs` on
the parent directory, whenever that `Mkdirs` leaves the same remote state; the
update itself issues no `Mkdirs`. The result and the recorded data agree as
well. -/
theorem resourceDBFSUpdate_file_calls {ρ σ : Type} (C : DBFS ρ) (L : LocalFS σ)
    (fuel : Nat) (r r0 : ρ) (data : ResourceData) (size : Int)
    (hfile : (C.GetStatus r data.id).1 = Except.ok (false, size))
    (hdel : (C.Delete (C.GetStatus r data.id).2 data.id false).1 = none)
    (hpath : data.dbfs_path = data.id)
    (hsrc : data.source ≠ "")
    (hstate : (C.Mkdirs r0 (pathDir data.id)).2
      = (C.Delete (C.GetStatus r data.id).2 data.id false).2) :
    (resourceDBFSUpdate C L fuel r data).calls
      = ⟨Call.getStatus data.id, none⟩ :: ⟨Call.delete data.id false, none⟩ ::
          (dbfsUploadFile C L fuel (C.Delete (C.GetStatus r data.id).2 data.id false).2
            data data.id data.source).calls ∧
    (resourceDBFSUpdate C L fuel r data).calls
      = ⟨Call.getStatus data.id, none⟩ :: ⟨Call.delete data.id false, none⟩ ::
          (resourceDBFSCreate C L fuel r0 data).calls.tail ∧
    (∀ x ∈ (resourceDBFSUpdate C L fuel r data).calls, ∀ p, x.call ≠ Call.mkdirs p) ∧
    (resourceDBFSUpdate C L fuel r data).ret = (resourceDBFSCreate C L fuel r0 data).ret ∧
    (resourceDBFSUpdate C L fuel r data).data = (resourceDBFSCreate C L fuel r0 data).data := by
  have hlen : ¬ data.source.length = 0 := fun h => hsrc ((string_length_eq_zero _).mp h)
  rcases hg : C.GetStatus r data.id with ⟨res, r1⟩
  rw [hg] at hfile hdel hstate
  simp only at hfile hdel hstate
  subst hfile
  rcases hd : C.Delete r1 data.id false with ⟨de, r2⟩
  rw [hd] at hdel hstate
  simp only at hdel hstate
  subst hdel
  have hu : (resourceDBFSUpdate C L fuel r data).calls
      = ⟨Call.getStatus data.id, none⟩ :: ⟨Call.delete data.id false, none⟩ ::
          (dbfsUploadFile C L fuel r2 data data.id data.source).calls := by
    simp [resourceDBFSUpdate, hg, hd]
  have hc : (resourceDBFSCreate C L fuel r0 data).calls.tail
      = (dbfsUploadFile C L fuel r2 data data.id data.source).calls := by
    simp only [resourceDBFSCreate, hlen, if_false, hpath, hstate, List.tail_cons]
  refine ⟨hu, by rw [hu, hc], ?_, ?_, ?_⟩
  · intro x hx p hp
    rw [hu] at hx
    simp only [List.mem_cons] at hx
    rcases hx with rfl | rfl | hx
    · cases hp
    · cases hp
    · rcases dbfsUploadFile_calls_kind C L fuel r2 data data.id data.source x hx with
        h | ⟨h, b, h⟩ | ⟨h, h⟩ <;> rw [h] at hp <;> cases hp
  · simp [resourceDBFSUpdate, resourceDBFSCreate, hg, hd, hlen, hpath, hstate]
  · simp [resourceDBFSUpdate, resourceDBFSCreate, hg, hd, hlen, hpath, hstate]

/-- The update of the three-byte file at `/tmp/x`. -/
theorem resourceDBFSUpdate_file_calls_witness :
    (resourceDBFSUpdate okClient demoFS 5 0 fileData).calls
      = ⟨Call.getStatus "/tmp/x", none⟩ :: ⟨Call.delete "/tmp/x" false, none⟩ ::
          (resourceDBFSCreate okClient demoFS 5 0 fileData).calls.tail :=
  (resourceDBFSUpdate_file_calls okClient demoFS 5 0 0 fileData 0 rfl rfl rfl (by decide)
    rfl).2.1

end Databricks

namespace Databricks

/-! ## C15 -/

/-- C15, as stated, fails: the upload of a local source that does not exist
fails with the local error, but only after the remote `Create` call has been
issued and has handed out a handle. -/
theorem create_precedes_local_open :
    (dbfsUploadFile okClient demoFS 5 0 demoData "/tmp/x" "missing.bin").ret
      = Ret.error "open /home/u/missing.bin: no such file or directory" ∧
    (dbfsUploadFile okClient demoFS 5 0 demoData "/tmp/x" "missing.bin").calls
      = [⟨Call.create "/tmp/x" true, none⟩] ∧
    (resourceDBFSCreate okClient demoFS 5 0 ⟨"/tmp/x", "missing.bin", none, none, ""⟩).calls
      = [⟨Call.mkdirs "/tmp", none⟩, ⟨Call.create "/tmp/x" true, none⟩] := by
  decide

/-- C15, amended: `dbfsUploadFile` calls the remote `Create` first and only then
resolves, opens and stats the local source. When `Create` succeeds and the
resolved source cannot be opened or statted, the operation fails with that local
error; the successful `Create` is its only remote call, so no `AddBlock` and no
`Close` follow. -/
theorem dbfsUploadFile_local_failure {ρ σ : Type} (C : DBFS ρ) (L : LocalFS σ) (fuel : Nat)
    (r : ρ) (data : ResourceData) (dbfsPath source p : String) (handle : Handle) (e : Err)
    (hcreate : (C.Create r dbfsPath true).1 = Except.ok handle)
    (hres : resolveSource L source = Except.ok p)
    (hlocal : L.Open p = Except.error e ∨
      ∃ f, L.Open p = Except.ok f ∧ L.Stat f = Except.error e) :
    (dbfsUploadFile C L fuel r data dbfsPath source).ret = Ret.error e ∧
    (dbfsUploadFile C L fuel r data dbfsPath source).calls
      = [⟨Call.create dbfsPath true, none⟩] ∧
    (dbfsUploadFile C L fuel r data dbfsPath source).opened = some p := by
  rcases hc : C.Create r dbfsPath true with ⟨res, r1⟩
  rw [hc] at hcreate
  simp only at hcreate
  subst hcreate
  rcases hlocal with hopen | ⟨f, hopen, hstat⟩
  · simp [dbfsUploadFile, hc, hres, hopen]
  · simp [dbfsUploadFile, hc, hres, hopen, hstat]

/-- The upload of the missing file `missing.bin`. -/
theorem dbfsUploadFile_local_failure_witness :
    (dbfsUploadFile okClient demoFS 5 0 demoData "/tmp/x" "missing.bin").ret
      = Ret.error "open /home/u/missing.bin: no such file or directory" ∧
    (dbfsUploadFile okClient demoFS 5 0 demoData "/tmp/x" "missing.bin").calls
      = [⟨Call.create "/tmp/x" true, none⟩] ∧
    (dbfsUploadFile okClient demoFS 5 0 demoData "/tmp/x" "missing.bin").opened
      = some "/home/u/missing.bin" :=
  dbfsUploadFile_local_failure okClient demoFS 5 0 demoData "/tmp/x" "missing.bin"
    "/home/u/missing.bin" 7 "open /home/u/missing.bin: no such file or directory" rfl rfl
    (Or.inl rfl)

/-! ## C16 -/

/-- C16: at the value 10001 the validator of `autotermination_minutes` returns no
error, although 10001 lies outside 10..10000; it rejects exactly the values
below 10. -/
theorem autoterminationValidate_accepts_10001 :
    (autoterminationValidate 10001).2 = [] ∧
    ∀ val : Int, (autoterminationValidate val).2 = [] ↔ 10 ≤ val := by
  refine ⟨by decide, ?_⟩
  intro val
  unfold autoterminationValidate
  split
  · simp; omega
  · simp; omega

/-! ## C17 -/

/-- C17: at the start of every iteration of the upload loop of `dbfsUploadFile`,
for every remote, every reader (which returns at most the requested number of
bytes), every file size and every fuel, `pos <= fsize` and
`bufSize = min(900000, fsize - pos)`, where `fsize` is the size that was
recorded as `file_size`. -/
theorem dbfsUploadFile_chunk_plan {ρ σ : Type} (C : DBFS ρ) (L : LocalFS σ) (fuel : Nat)
    (r : ρ) (data : ResourceData) (dbfsPath source : String) :
    ∀ it ∈ (dbfsUploadFile C L fuel r data dbfsPath source).iters,
      ∃ fsize : Nat,
        (dbfsUploadFile C L fuel r data dbfsPath source).data.file_size = some (fsize : Int) ∧
        0 ≤ it.pos ∧ it.pos ≤ fsize ∧ it.bufSize = min 900000 (fsize - it.pos) := by
  intro it hit
  rcases dbfsUploadFile_iters C L fuel r data dbfsPath source with hnil |
    ⟨handle, fsize, r1, f, hiters, hsize⟩
  · rw [hnil] at hit; simp at hit
  · rw [hiters] at hit
    obtain ⟨h1, _, _⟩ := uploadLoop_iters_inv C L handle fsize fuel r1 f 0
      (if fsize < 900000 then fsize else 900000) (Nat.zero_le _) (by split <;> omega)
    exact ⟨fsize, hsize, Nat.zero_le _, (h1 it hit).1, (h1 it hit).2⟩

/-- The only iteration of the upload of the three-byte file starts at `pos = 0`
with `bufSize = 3`. -/
theorem dbfsUploadFile_chunk_plan_witness :
    (⟨0, 3, some 3⟩ : Iter) ∈ (dbfsUploadFile okClient demoFS 5 0 demoData "/tmp/x" "f.bin").iters ∧
    ∃ fsize : Nat,
      (dbfsUploadFile okClient demoFS 5 0 demoData "/tmp/x" "f.bin").data.file_size
        = some (fsize : Int) ∧
      0 ≤ (⟨0, 3, some 3⟩ : Iter).pos ∧ (⟨0, 3, some 3⟩ : Iter).pos ≤ fsize ∧
      (⟨0, 3, some 3⟩ : Iter).bufSize = min 900000 (fsize - (⟨0, 3, some 3⟩ : Iter).pos) :=
  ⟨by decide,
   dbfsUploadFile_chunk_plan okClient demoFS 5 0 demoData "/tmp/x" "f.bin" _ (by decide)⟩

/-! ## C18 -/

/-- C18: with `max_retries = 3` and `max_concurrent_runs` left at its default
of 1, the request of `resourceJobsCreate` and the settings of
`resourceJobsUpdate` carry `MaxRetries = 1`, not 3: the value of
`max_concurrent_runs` is assigned to `MaxRetries` last. With
`max_concurrent_runs = 0` the retries survive. -/
theorem jobs_max_retries_overwritten :
    (resourceJobsCreate ⟨none, some 3, none, none, none⟩).MaxRetries = some 1 ∧
    (resourceJobsUpdate ⟨none, some 3, none, none, none⟩).MaxRetries = some 1 ∧
    (resourceJobsCreate ⟨none, some 3, none, none, some 5⟩).MaxRetries = some 5 ∧
    (resourceJobsCreate ⟨none, some 3, none, none, some 0⟩).MaxRetries = some 3 := by
  decide

end Databricks

namespace Databricks

/-! ## C19 -/

section Fuel
variable {ρ σ : Type} (C : DBFS ρ) (L : LocalFS σ) (handle : Handle) (fsize : Nat)

/-- Induction over the iterations of the loop that keeps track of the fuel and
of the open file. -/
theorem uploadLoop_induct_fuel (P : Nat → σ → Nat → Nat → LoopOut ρ → Prop)
    (hzero : ∀ r f pos bufSize, P 0 f pos bufSize ⟨Ret.outOfFuel, r, pos, [], []⟩)
    (heof : ∀ fuel r f f1 pos bufSize, L.Read f bufSize = (ReadResult.eof, f1) →
      P (fuel + 1) f pos bufSize ⟨Ret.ok, r, pos, [], [⟨pos, bufSize, none⟩]⟩)
    (hfail : ∀ fuel r f f1 pos bufSize e, L.Read f bufSize = (ReadResult.fail e, f1) →
      P (fuel + 1) f pos bufSize ⟨Ret.error e, r, pos, [], [⟨pos, bufSize, none⟩]⟩)
    (haddFail : ∀ fuel r f f1 pos bufSize (bs : List Byte) e (hbs : bs.length ≤ bufSize),
      L.Read f bufSize = (ReadResult.ok bs hbs, f1) →
      P (fuel + 1) f pos bufSize
        ⟨Ret.error e, r, pos, [⟨Call.addBlock handle (padded bufSize bs), some e⟩],
          [⟨pos, bufSize, some bs.length⟩]⟩)
    (hlast : ∀ fuel r f f1 pos bufSize (bs : List Byte) (hbs : bs.length ≤ bufSize),
      L.Read f bufSize = (ReadResult.ok bs hbs, f1) → pos + bs.length = fsize →
      P (fuel + 1) f pos bufSize ⟨Ret.ok, r, pos + bs.length,
        [⟨Call.addBlock handle (padded bufSize bs), none⟩], [⟨pos, bufSize, some bs.length⟩]⟩)
    (hnext : ∀ fuel f f1 pos bufSize (bs : List Byte) (o : LoopOut ρ)
      (hbs : bs.length ≤ bufSize),
      L.Read f bufSize = (ReadResult.ok bs hbs, f1) → pos + bs.length ≠ fsize →
      P fuel f1 (pos + bs.length)
        (if fsize - (pos + bs.length) < 900000 then fsize - (pos + bs.length) else bufSize) o →
      P (fuel + 1) f pos bufSize ⟨o.ret, o.remote, o.pos,
        ⟨Call.addBlock handle (padded bufSize bs), none⟩ :: o.calls,
        ⟨pos, bufSize, some bs.length⟩ :: o.iters⟩) :
    ∀ (fuel : Nat) (r : ρ) (f : σ) (pos bufSize : Nat),
      P fuel f pos bufSize (uploadLoop C L handle fsize fuel r f pos bufSize) := by
  intro fuel
  induction fuel with
  | zero => intro r f pos bufSize; exact hzero r f pos bufSize
  | succ fuel ih =>
    intro r f pos bufSize
    rcases hrd : L.Read f bufSize with ⟨res, f1⟩
    cases res with
    | eof =>
      rw [uploadLoop_eof C L handle fsize fuel r f f1 pos bufSize hrd]
      exact heof fuel r f f1 pos bufSize hrd
    | fail e =>
      rw [uploadLoop_fail C L handle fsize fuel r f f1 pos bufSize e hrd]
      exact hfail fuel r f f1 pos bufSize e hrd
    | ok bs hbs =>
      rcases hadd : C.AddBlock r handle (padded bufSize bs) with ⟨res, r1⟩
      cases res with
      | some e =>
        rw [uploadLoop_addFail C L handle fsize fuel r r1 f f1 pos bufSize bs hbs e hrd hadd]
        exact haddFail fuel r1 f f1 pos bufSize bs e hbs hrd
      | none =>
        by_cases hp : pos + bs.length = fsize
        · rw [uploadLoop_last C L handle fsize fuel r r1 f f1 pos bufSize bs hbs hrd hadd hp]
          exact hlast fuel r1 f f1 pos bufSize bs hbs hrd hp
        · rw [uploadLoop_next C L handle fsize fuel r r1 f f1 pos bufSize bs hbs hrd hadd hp]
          exact hnext fuel f f1 pos bufSize bs _ hbs hrd hp (ih r1 f1 _ _)

/-- On a reader that returns zero bytes without an error only for a zero-length
buffer, the loop started before the end of the file ends within `fsize - pos`
iterations. -/
theorem uploadLoop_terminates
    (hz : ∀ f want bs h f1, L.Read f want = (ReadResult.ok bs h, f1) → bs.length = 0 → want = 0)
    (fuel : Nat) (r : ρ) (f : σ) (pos bufSize : Nat) :
    pos < fsize → bufSize = min 900000 (fsize - pos) → fsize - pos ≤ fuel →
      (uploadLoop C L handle fsize fuel r f pos bufSize).ret ≠ Ret.outOfFuel ∧
      (uploadLoop C L handle fsize fuel r f pos bufSize).iters.length ≤ fsize - pos := by
  refine uploadLoop_induct_fuel C L handle fsize
    (fun fuel _ pos bufSize o => pos < fsize → bufSize = min 900000 (fsize - pos) →
      fsize - pos ≤ fuel → o.ret ≠ Ret.outOfFuel ∧ o.iters.length ≤ fsize - pos)
    ?_ ?_ ?_ ?_ ?_ ?_ fuel r f pos bufSize
  · intro r f pos bufSize hp _ hf; omega
  · intro fuel r f f1 pos bufSize _ hp _ _
    exact ⟨by simp, by simp; omega⟩
  · intro fuel r f f1 pos bufSize e _ hp _ _
    exact ⟨by simp, by simp; omega⟩
  · intro fuel r f f1 pos bufSize bs e hbs _ hp _ _
    exact ⟨by simp, by simp; omega⟩
  · intro fuel r f f1 pos bufSize bs hbs _ _ hp _ _
    exact ⟨by simp, by simp; omega⟩
  · intro fuel f f1 pos bufSize bs o hbs hrd hne ih hp hb hf
    have hn : 0 < bs.length := by
      rcases Nat.eq_zero_or_pos bs.length with h0 | h0
      · have := hz f bufSize bs hbs f1 hrd h0
        omega
      · exact h0
    obtain ⟨h1, h2⟩ := ih (by omega) (by split <;> omega) (by omega)
    exact ⟨h1, by simp only [List.length_cons]; omega⟩

/-- The loop on an empty file ends in its first iteration. -/
theorem uploadLoop_terminates_empty (fuel : Nat) (r : ρ) (f : σ) (hf : 1 ≤ fuel) :
    (uploadLoop C L handle 0 fuel r f 0 0).ret ≠ Ret.outOfFuel ∧
    (uploadLoop C L handle 0 fuel r f 0 0).iters.length ≤ 1 := by
  have h := uploadLoop_induct_fuel C L handle 0
    (fun fuel _ pos bufSize o => pos = 0 → bufSize = 0 → 1 ≤ fuel →
      o.ret ≠ Ret.outOfFuel ∧ o.iters.length ≤ 1)
    ?_ ?_ ?_ ?_ ?_ ?_ fuel r f 0 0
  · exact h rfl rfl hf
  · intro r f pos bufSize _ _ h; omega
  · intro fuel r f f1 pos bufSize _ _ _ _; exact ⟨by simp, by simp⟩
  · intro fuel r f f1 pos bufSize e _ _ _ _; exact ⟨by simp, by simp⟩
  · intro fuel r f f1 pos bufSize bs e hbs _ _ _ _; exact ⟨by simp, by simp⟩
  · intro fuel r f f1 pos bufSize bs hbs _ _ _ _ _; exact ⟨by simp, by simp⟩
  · intro fuel f f1 pos bufSize bs o hbs _ hne _ hp hb _
    omega

/-- On a reader that fills its buffers the loop started before the end of the
file ends within `ceil((fsize - pos) / 900000)` iterations, whatever the remote
answers. -/
theorem uploadLoop_terminates_full {content : List Byte} {rep : σ → Nat → Prop}
    (hfill : FillsBuffer L content rep)
    (fuel : Nat) (r : ρ) (f : σ) (pos bufSize : Nat) :
    rep f pos → pos < content.length → bufSize = min 900000 (content.length - pos) →
      (content.length - pos + 899999) / 900000 ≤ fuel →
      (uploadLoop C L handle content.length fuel r f pos bufSize).ret ≠ Ret.outOfFuel ∧
      (uploadLoop C L handle content.length fuel r f pos bufSize).iters.length
        ≤ (content.length - pos + 899999) / 900000 := by
  refine uploadLoop_induct_fuel C L handle content.length
    (fun fuel f pos bufSize o => rep f pos → pos < content.length →
      bufSize = min 900000 (content.length - pos) →
      (content.length - pos + 899999) / 900000 ≤ fuel →
      o.ret ≠ Ret.outOfFuel ∧ o.iters.length ≤ (content.length - pos + 899999) / 900000)
    ?_ ?_ ?_ ?_ ?_ ?_ fuel r f pos bufSize
  · intro r f pos bufSize _ hp _ hf; omega
  · intro fuel r f f1 pos bufSize _ _ hp _ _
    exact ⟨by simp, by simp; omega⟩
  · intro fuel r f f1 pos bufSize e _ _ hp _ _
    exact ⟨by simp, by simp; omega⟩
  · intro fuel r f f1 pos bufSize bs e hbs _ _ hp _ _
    exact ⟨by simp, by simp; omega⟩
  · intro fuel r f f1 pos bufSize bs hbs _ _ _ hp _ _
    exact ⟨by simp, by simp; omega⟩
  · intro fuel f f1 pos bufSize bs o hbs hrd hne ih hrep hp hb hf
    obtain ⟨h, f2, hrd2, hrep2⟩ := hfill f pos bufSize hrep (by omega)
    rw [hrd] at hrd2
    have hbs2 : bs = (content.drop pos).take bufSize := by
      have := congrArg Prod.fst hrd2
      simpa using this
    have hf2 : f1 = f2 := congrArg Prod.snd hrd2
    have hlen : bs.length = bufSize := by
      rw [hbs2]; exact chunk_length content pos bufSize (by omega)
    rw [hlen] at hne ih ⊢
    subst hf2
    obtain ⟨h1, h2⟩ := ih hrep2 (by omega) (by split <;> omega) (by omega)
    exact ⟨h1, by simp only [List.length_cons]; omega⟩

end Fuel

/-- With the local source resolved, opened and statted, a run of
`dbfsUploadFile` either stopped at a failing `Create`, or is its loop entered at
`pos = 0`: same iterations, and out of fuel exactly when the loop is. -/
theorem dbfsUploadFile_loop {ρ σ : Type} (C : DBFS ρ) (L : LocalFS σ) (fuel : Nat)
    (r : ρ) (data : ResourceData) (dbfsPath source p : String) (f0 : σ) (S : Nat)
    (hres : resolveSource L source = Except.ok p) (hopen : L.Open p = Except.ok f0)
    (hstat : L.Stat f0 = Except.ok S) :
    ((dbfsUploadFile C L fuel r data dbfsPath source).ret ≠ Ret.outOfFuel ∧
      (dbfsUploadFile C L fuel r data dbfsPath source).iters = []) ∨
    ∃ handle r1,
      (dbfsUploadFile C L fuel r data dbfsPath source).iters
        = (uploadLoop C L handle S fuel r1 f0 0 (if S < 900000 then S else 900000)).iters ∧
      ((dbfsUploadFile C L fuel r data dbfsPath source).ret = Ret.outOfFuel →
        (uploadLoop C L handle S fuel r1 f0 0 (if S < 900000 then S else 900000)).ret
          = Ret.outOfFuel) := by
  rcases hc : C.Create r dbfsPath true with ⟨res, r1⟩
  cases res with
  | error e => left; simp [dbfsUploadFile, hc]
  | ok handle =>
    right
    refine ⟨handle, r1, ?_⟩
    rcases hret : (uploadLoop C L handle S fuel r1 f0 0
        (if S < 900000 then S else 900000)).ret with _ | e | _
    · refine ⟨by simp [dbfsUploadFile, hc, hres, hopen, hstat, hret], ?_⟩
      intro h
      simp only [dbfsUploadFile, hc, hres, hopen, hstat, hret] at h
      rcases hce : (C.Close (uploadLoop C L handle S fuel r1 f0 0
        (if S < 900000 then S else 900000)).remote handle).1 with _ | e
      · rw [hce] at h; cases h
      · rw [hce] at h; cases h
    · exact ⟨by simp [dbfsUploadFile, hc, hres, hopen, hstat, hret],
        by simp [dbfsUploadFile, hc, hres, hopen, hstat, hret]⟩
    · exact ⟨by simp [dbfsUploadFile, hc, hres, hopen, hstat, hret], fun _ => rfl⟩

/-- C19: the upload loop of `dbfsUploadFile` on a file of `S` bytes terminates:
(1) when every read that returns no error returns at least one byte unless its
buffer has length zero (reads may also report end-of-input or fail), fuel
`S + 1` is enough for the run to end, and it performs at most `S + 1` reads;
(2) when the reads fill their buffers, fuel `ceil(S / 900000) + 1` is enough and
it performs at most `ceil(S / 900000) + 1` reads. Both hold for every remote. -/
theorem dbfsUploadFile_terminates {ρ σ : Type} (C : DBFS ρ) (L : LocalFS σ) (fuel : Nat)
    (r : ρ) (data : ResourceData) (dbfsPath source p : String) (f0 : σ) (S : Nat)
    (hres : resolveSource L source = Except.ok p) (hopen : L.Open p = Except.ok f0)
    (hstat : L.Stat f0 = Except.ok S) :
    ((∀ f want bs h f1, L.Read f want = (ReadResult.ok bs h, f1) → bs.length = 0 → want = 0) →
      S + 1 ≤ fuel →
      (dbfsUploadFile C L fuel r data dbfsPath source).ret ≠ Ret.outOfFuel ∧
      (dbfsUploadFile C L fuel r data dbfsPath source).iters.length ≤ S + 1) ∧
    (∀ (content : List Byte) (rep : σ → Nat → Prop),
      S = content.length → rep f0 0 → FillsBuffer L content rep →
      (S + 899999) / 900000 + 1 ≤ fuel →
      (dbfsUploadFile C L fuel r data dbfsPath source).ret ≠ Ret.outOfFuel ∧
      (dbfsUploadFile C L fuel r data dbfsPath source).iters.length
        ≤ (S + 899999) / 900000 + 1) := by
  constructor
  · intro hz hfuel
    rcases dbfsUploadFile_loop C L fuel r data dbfsPath source p f0 S hres hopen hstat with
      ⟨h1, h2⟩ | ⟨handle, r1, hit, hret⟩
    · exact ⟨h1, by rw [h2]; simp⟩
    · rcases Nat.eq_zero_or_pos S with h0 | hpos
      · subst h0
        obtain ⟨a, b⟩ := uploadLoop_terminates_empty C L handle fuel r1 f0 (by omega)
        exact ⟨fun h => a (hret h), by rw [hit]; exact Nat.le_trans b (by omega)⟩
      · obtain ⟨a, b⟩ := uploadLoop_terminates C L handle S hz fuel r1 f0 0
          (if S < 900000 then S else 900000) hpos (by split <;> omega) (by omega)
        exact ⟨fun h => a (hret h), by rw [hit]; omega⟩
  · intro content rep hS hrep hfill hfuel
    subst hS
    rcases dbfsUploadFile_loop C L fuel r data dbfsPath source p f0 content.length
        hres hopen hstat with ⟨h1, h2⟩ | ⟨handle, r1, hit, hret⟩
    · exact ⟨h1, by rw [h2]; simp⟩
    · rcases Nat.eq_zero_or_pos content.length with h0 | hpos
      · rw [h0] at hit hret ⊢
        obtain ⟨a, b⟩ := uploadLoop_terminates_empty C L handle fuel r1 f0 (by omega)
        exact ⟨fun h => a (hret h), by rw [hit]; exact Nat.le_trans b (by omega)⟩
      · obtain ⟨a, b⟩ := uploadLoop_terminates_full C L handle hfill fuel r1 f0 0
          (if content.length < 900000 then content.length else 900000) hrep hpos
          (by split <;> omega) (by omega)
        exact ⟨fun h => a (hret h), by rw [hit]; omega⟩

end Databricks

namespace Databricks

/-- The three-byte file within `3 + 1` reads, and the 2,500,000-byte file, read by
buffer-filling reads, within `ceil(2500000 / 900000) + 1 = 4` reads. -/
theorem dbfsUploadFile_terminates_witness :
    ((dbfsUploadFile okClient demoFS 4 0 demoData "/tmp/x" "f.bin").ret ≠ Ret.outOfFuel ∧
      (dbfsUploadFile okClient demoFS 4 0 demoData "/tmp/x" "f.bin").iters.length ≤ 3 + 1) ∧
    ((dbfsUploadFile okClient demoFS 4 0 demoData "/tmp/x" "big.bin").ret ≠ Ret.outOfFuel ∧
      (dbfsUploadFile okClient demoFS 4 0 demoData "/tmp/x" "big.bin").iters.length ≤ 4) := by
  refine ⟨(dbfsUploadFile_terminates okClient demoFS 4 0 demoData "/tmp/x" "f.bin"
      "/home/u/f.bin" ⟨[1, 2, 3], 0⟩ 3 rfl rfl rfl).1 (osFS_zero_read _ _) (by decide), ?_⟩
  have h := (dbfsUploadFile_terminates okClient demoFS 4 0 demoData "/tmp/x" "big.bin"
      "/home/u/big.bin" ⟨bigFile, 0⟩ bigFile.length rfl rfl rfl).2 bigFile
      (fun f pos => f.content = bigFile ∧ f.offset = pos) rfl ⟨rfl, rfl⟩
      (osFS_fillsBuffer _ _ _) (by rw [bigFile_length])
  rw [bigFile_length] at h
  exact h

/-! ## C20 -/

/-- What the loop sends and how it advances, for every reader: the sizes of the
blocks are the buffer sizes of the iterations whose read returned no error; each
block is the bytes its read returned followed by zero bytes up to the buffer
size; and each iteration after such a read starts where the previous one
started plus the number of bytes that read returned. -/
theorem uploadLoop_padding {ρ σ : Type} (C : DBFS ρ) (L : LocalFS σ) (handle : Handle)
    (fsize fuel : Nat) (r : ρ) (f : σ) (pos bufSize : Nat) :
    blockSizes (uploadLoop C L handle fsize fuel r f pos bufSize).calls
      = (uploadLoop C L handle fsize fuel r f pos bufSize).iters.filterMap
          (fun it => it.bytesRead.map (fun _ => it.bufSize)) ∧
    (∀ b ∈ blocksOf (uploadLoop C L handle fsize fuel r f pos bufSize).calls,
      ∃ it ∈ (uploadLoop C L handle fsize fuel r f pos bufSize).iters,
      ∃ (bs : List Byte) (hbs : bs.length ≤ it.bufSize) (f0 f1 : σ),
        L.Read f0 it.bufSize = (ReadResult.ok bs hbs, f1) ∧
        it.bytesRead = some bs.length ∧
        b = bs ++ List.replicate (it.bufSize - bs.length) 0 ∧
        b.length = it.bufSize) ∧
    List.Chain' (fun a b : Iter => ∃ n, a.bytesRead = some n ∧ b.pos = a.pos + n)
      (uploadLoop C L handle fsize fuel r f pos bufSize).iters ∧
    (∀ it ∈ (uploadLoop C L handle fsize fuel r f pos bufSize).iters.head?, it.pos = pos) := by
  refine uploadLoop_induct C L handle fsize
    (fun pos _ o =>
      blockSizes o.calls
        = o.iters.filterMap (fun it => it.bytesRead.map (fun _ => it.bufSize)) ∧
      (∀ b ∈ blocksOf o.calls, ∃ it ∈ o.iters,
        ∃ (bs : List Byte) (hbs : bs.length ≤ it.bufSize) (f0 f1 : σ),
          L.Read f0 it.bufSize = (ReadResult.ok bs hbs, f1) ∧
          it.bytesRead = some bs.length ∧
          b = bs ++ List.replicate (it.bufSize - bs.length) 0 ∧
          b.length = it.bufSize) ∧
      List.Chain' (fun a b : Iter => ∃ n, a.bytesRead = some n ∧ b.pos = a.pos + n) o.iters ∧
      (∀ it ∈ o.iters.head?, it.pos = pos))
    ?_ ?_ ?_ ?_ ?_ ?_ fuel r f pos bufSize
  · intro r pos bufSize
    exact ⟨rfl, by simp [blocksOf], by simp, by simp⟩
  · intro r pos bufSize
    exact ⟨rfl, by simp [blocksOf], by simp, by simp⟩
  · intro r pos bufSize e
    exact ⟨rfl, by simp [blocksOf], by simp, by simp⟩
  · intro r pos bufSize bs e hbs ⟨f0, f1, hrd⟩
    refine ⟨by simp [blockSizes, blocksOf, padded_length bufSize bs hbs], ?_, by simp, by simp⟩
    intro b hb
    simp only [blocksOf, List.mem_singleton] at hb
    subst hb
    exact ⟨_, List.mem_singleton.mpr rfl, bs, hbs, f0, f1, hrd, rfl, rfl,
      padded_length bufSize bs hbs⟩
  · intro r pos bufSize bs hbs ⟨f0, f1, hrd⟩ _
    refine ⟨by simp [blockSizes, blocksOf, padded_length bufSize bs hbs], ?_, by simp, by simp⟩
    intro b hb
    simp only [blocksOf, List.mem_singleton] at hb
    subst hb
    exact ⟨_, List.mem_singleton.mpr rfl, bs, hbs, f0, f1, hrd, rfl, rfl,
      padded_length bufSize bs hbs⟩
  · intro pos bufSize bs o hbs ⟨f0, f1, hrd⟩ _ ih
    obtain ⟨h1, h2, h3, h4⟩ := ih
    refine ⟨?_, ?_, ?_, by simp⟩
    · simp only [blockSizes, blocksOf, List.map_cons, List.filterMap_cons, Option.map_some']
      rw [padded_length bufSize bs hbs]
      exact congrArg _ h1
    · intro b hb
      simp only [blocksOf, List.mem_cons] at hb
      rcases hb with rfl | hb
      · exact ⟨_, List.mem_cons_self _ _, bs, hbs, f0, f1, hrd, rfl, rfl,
          padded_length bufSize bs hbs⟩
      · obtain ⟨it, hit, rest⟩ := h2 b hb
        exact ⟨it, List.mem_cons_of_mem _ hit, rest⟩
    · rcases hio : o.iters with _ | ⟨i0, rest⟩
      · simp
      · rw [hio] at h3 h4
        refine List.Chain'.cons ?_ h3
        exact ⟨bs.length, rfl, h4 i0 (by simp)⟩

/-- The iterations and calls of a run of `dbfsUploadFile` are those of its loop,
entered at `pos = 0`. -/
theorem dbfsUploadFile_loop_blocks {ρ σ : Type} (C : DBFS ρ) (L : LocalFS σ) (fuel : Nat)
    (r : ρ) (data : ResourceData) (dbfsPath source : String) :
    ((dbfsUploadFile C L fuel r data dbfsPath source).iters = [] ∧
      blocksOf (dbfsUploadFile C L fuel r data dbfsPath source).calls = []) ∨
    ∃ handle fsize r1 f,
      (dbfsUploadFile C L fuel r data dbfsPath source).iters
        = (uploadLoop C L handle fsize fuel r1 f 0
            (if fsize < 900000 then fsize else 900000)).iters ∧
      blocksOf (dbfsUploadFile C L fuel r data dbfsPath source).calls
        = blocksOf (uploadLoop C L handle fsize fuel r1 f 0
            (if fsize < 900000 then fsize else 900000)).calls := by
  rcases hc : C.Create r dbfsPath true with ⟨res, r1⟩
  cases res with
  | error e => left; simp [dbfsUploadFile, hc, blocksOf]
  | ok handle =>
    rcases hres : resolveSource L source with e | p
    · left; simp [dbfsUploadFile, hc, hres, blocksOf]
    rcases hopen : L.Open p with e | f
    · left; simp [dbfsUploadFile, hc, hres, hopen, blocksOf]
    rcases hstat : L.Stat f with e | fsize
    · left; simp [dbfsUploadFile, hc, hres, hopen, hstat, blocksOf]
    right
    refine ⟨handle, fsize, r1, f, ?_⟩
    rcases hret : (uploadLoop C L handle fsize fuel r1 f 0
        (if fsize < 900000 then fsize else 900000)).ret with _ | e | _
    · simp [dbfsUploadFile, hc, hres, hopen, hstat, hret, blocksOf, blocksOf_append]
    · simp [dbfsUploadFile, hc, hres, hopen, hstat, hret, blocksOf]
    · simp [dbfsUploadFile, hc, hres, hopen, hstat, hret, blocksOf]

/-- C20: short reads are padded, not trimmed. In every run of `dbfsUploadFile`
(any remote, any reader, any fuel): the sizes of the blocks passed to `AddBlock`
are, in order, the requested chunk sizes `bufSize` of the iterations whose read
returned no error; each block is the `n` bytes its read returned followed by
`bufSize - n` zero bytes; and the position advances by `n` only, each iteration
starting at the previous position plus the previous `n`. And on the three-byte
file read two bytes at a time the blocks sent are `[1, 2, 0]` and `[3]`: four
bytes for a file of three. -/
theorem dbfsUploadFile_short_reads_padded {ρ σ : Type} (C : DBFS ρ) (L : LocalFS σ)
    (fuel : Nat) (r : ρ) (data : ResourceData) (dbfsPath source : String) :
    (blockSizes (dbfsUploadFile C L fuel r data dbfsPath source).calls
      = (dbfsUploadFile C L fuel r data dbfsPath source).iters.filterMap
          (fun it => it.bytesRead.map (fun _ => it.bufSize)) ∧
    (∀ b ∈ blocksOf (dbfsUploadFile C L fuel r data dbfsPath source).calls,
      ∃ it ∈ (dbfsUploadFile C L fuel r data dbfsPath source).iters,
      ∃ (bs : List Byte) (hbs : bs.length ≤ it.bufSize) (f0 f1 : σ),
        L.Read f0 it.bufSize = (ReadResult.ok bs hbs, f1) ∧
        it.bytesRead = some bs.length ∧
        b = bs ++ List.replicate (it.bufSize - bs.length) 0 ∧
        b.length = it.bufSize) ∧
    List.Chain' (fun a b : Iter => ∃ n, a.bytesRead = some n ∧ b.pos = a.pos + n)
      (dbfsUploadFile C L fuel r data dbfsPath source).iters) ∧
    (blocksOf (dbfsUploadFile okClient (shortFS 2 "/home/u" [("/home/u/f.bin", [1, 2, 3])])
        5 0 demoData "/tmp/x" "f.bin").calls = [[1, 2, 0], [3]] ∧
      (dbfsUploadFile okClient (shortFS 2 "/home/u" [("/home/u/f.bin", [1, 2, 3])])
        5 0 demoData "/tmp/x" "f.bin").iters = [⟨0, 3, some 2⟩, ⟨2, 1, some 1⟩] ∧
      (dbfsUploadFile okClient (shortFS 2 "/home/u" [("/home/u/f.bin", [1, 2, 3])])
        5 0 demoData "/tmp/x" "f.bin").ret = Ret.ok ∧
      ([1, 2, 3] : List Byte).length
        < (blockSizes (dbfsUploadFile okClient
            (shortFS 2 "/home/u" [("/home/u/f.bin", [1, 2, 3])])
            5 0 demoData "/tmp/x" "f.bin").calls).sum) := by
  refine ⟨?_, by decide⟩
  rcases dbfsUploadFile_loop_blocks C L fuel r data dbfsPath source with ⟨h1, h2⟩ |
    ⟨handle, fsize, r1, f, h1, h2⟩
  · rw [blockSizes, h1, h2]
    exact ⟨rfl, by simp, by simp⟩
  · obtain ⟨a, b, c, _⟩ := uploadLoop_padding C L handle fsize fuel r1 f 0
      (if fsize < 900000 then fsize else 900000)
    rw [blockSizes, h1, h2]
    exact ⟨a, b, c⟩

/-- The padded block `[1, 2, 0]` of the three-byte file read two bytes at a
time. -/
theorem dbfsUploadFile_short_reads_padded_witness :
    ∃ it ∈ (dbfsUploadFile okClient (shortFS 2 "/home/u" [("/home/u/f.bin", [1, 2, 3])])
        5 0 demoData "/tmp/x" "f.bin").iters,
      ∃ (bs : List Byte) (hbs : bs.length ≤ it.bufSize) (f0 f1 : OsFile),
        (shortFS 2 "/home/u" [("/home/u/f.bin", [1, 2, 3])]).Read f0 it.bufSize
          = (ReadResult.ok bs hbs, f1) ∧
        it.bytesRead = some bs.length ∧
        ([1, 2, 0] : List Byte) = bs ++ List.replicate (it.bufSize - bs.length) 0 ∧
        ([1, 2, 0] : List Byte).length = it.bufSize :=
  (dbfsUploadFile_short_reads_padded okClient
    (shortFS 2 "/home/u" [("/home/u/f.bin", [1, 2, 3])]) 5 0 demoData "/tmp/x" "f.bin").1.2.1
    [1, 2, 0] (by decide)

end Databricks

namespace Databricks

/-! ## C13 -/

section Inv
variable {ρ σ : Type} (C : DBFS ρ) (L : LocalFS σ) (handle : Handle)

/-- The loop on a reader that fills its buffers, on a remote whose states are
tied to the position by an invariant `I` under which the next block is accepted:
with enough fuel the loop ends successfully at the end of the file and the
invariant holds there. -/
theorem uploadLoop_full_inv {content : List Byte} {rep : σ → Nat → Prop}
    (hfill : FillsBuffer L content rep) (I : ρ → Nat → Prop)
    (hI : ∀ r pos want, I r pos → want ≤ 900000 → pos + want ≤ content.length →
      (C.AddBlock r handle ((content.drop pos).take want)).1 = none ∧
      I (C.AddBlock r handle ((content.drop pos).take want)).2 (pos + want)) :
    ∀ (n fuel : Nat) (r : ρ) (f : σ) (pos : Nat), rep f pos → I r pos →
      (pos < content.length ∨ pos = content.length ∧ pos = 0) →
      content.length - pos ≤ 900000 * n → n ≤ fuel → 1 ≤ fuel →
      (uploadLoop C L handle content.length fuel r f pos
          (min 900000 (content.length - pos))).ret = Ret.ok ∧
      (uploadLoop C L handle content.length fuel r f pos
          (min 900000 (content.length - pos))).pos = content.length ∧
      I (uploadLoop C L handle content.length fuel r f pos
          (min 900000 (content.length - pos))).remote content.length := by
  intro n
  induction n with
  | zero =>
    intro fuel r f pos hrep hinv hpos hn hfuel hfuel1
    obtain ⟨fuel, rfl⟩ : ∃ k, fuel = k + 1 := ⟨fuel - 1, by omega⟩
    have hp0 : pos = 0 ∧ content.length = 0 := by omega
    obtain ⟨rfl, h0⟩ := hp0
    have hle : 0 + min 900000 (content.length - 0) ≤ content.length := by omega
    obtain ⟨hadd, hinv1⟩ := hI r 0 (min 900000 (content.length - 0)) hinv (by omega) hle
    obtain ⟨f1, hrep1, hstep⟩ := uploadLoop_full_step C L handle hfill fuel r f 0
      (min 900000 (content.length - 0)) hrep hle hadd
    rw [hstep, if_pos (by omega)]
    exact ⟨rfl, by show 0 + min 900000 (content.length - 0) = content.length; omega,
      by have e : 0 + min 900000 (content.length - 0) = content.length := by omega
         rw [e] at hinv1; exact hinv1⟩
  | succ n ih =>
    intro fuel r f pos hrep hinv hpos hn hfuel hfuel1
    obtain ⟨fuel, rfl⟩ : ∃ k, fuel = k + 1 := ⟨fuel - 1, by omega⟩
    have hle : pos + min 900000 (content.length - pos) ≤ content.length := by omega
    obtain ⟨hadd, hinv1⟩ := hI r pos (min 900000 (content.length - pos)) hinv (by omega) hle
    obtain ⟨f1, hrep1, hstep⟩ := uploadLoop_full_step C L handle hfill fuel r f pos
      (min 900000 (content.length - pos)) hrep hle hadd
    rw [hstep]
    by_cases hp : pos + min 900000 (content.length - pos) = content.length
    · rw [if_pos hp]
      exact ⟨rfl, hp, by rw [hp] at hinv1; exact hinv1⟩
    · rw [if_neg hp]
      have hbuf : (if content.length - (pos + min 900000 (content.length - pos)) < 900000
          then content.length - (pos + min 900000 (content.length - pos))
          else min 900000 (content.length - pos))
          = min 900000 (content.length - (pos + min 900000 (content.length - pos))) := by
        split <;> omega
      rw [hbuf]
      exact ih fuel _ f1 (pos + min 900000 (content.length - pos)) hrep1 hinv1
        (by omega) (by omega) (by omega) (by omega)

/-- A whole upload on a remote whose states are tied to the position by an
invariant: after `Create`, the loop carries the invariant to the end of the
file, and the run ends with `Close` on the state reached there. -/
theorem dbfsUploadFile_full_inv (fuel : Nat) (r r1 : ρ) (data : ResourceData)
    (dbfsPath source : String) (content : List Byte) (I : ρ → Nat → Prop)
    (hcreate : C.Create r dbfsPath true = (Except.ok handle, r1))
    (hI0 : I r1 0)
    (hI : ∀ r pos want, I r pos → want ≤ 900000 → pos + want ≤ content.length →
      (C.AddBlock r handle ((content.drop pos).take want)).1 = none ∧
      I (C.AddBlock r handle ((content.drop pos).take want)).2 (pos + want))
    (hreads : ReadsFully L source content)
    (hfuel : content.length / 900000 + 1 ≤ fuel) :
    ∃ r2, I r2 content.length ∧
      (dbfsUploadFile C L fuel r data dbfsPath source).ret = Ret.ofErr (C.Close r2 handle).1 ∧
      (dbfsUploadFile C L fuel r data dbfsPath source).remote = (C.Close r2 handle).2 ∧
      (dbfsUploadFile C L fuel r data dbfsPath source).data
        = { data with file_size := some (content.length : Int), id := dbfsPath } := by
  obtain ⟨p, f0, rep, hres, hopen, hstat, h0, hfill⟩ := hreads
  have hbuf : (if content.length < 900000 then content.length else 900000)
      = min 900000 (content.length - 0) := by split <;> omega
  obtain ⟨h1, _, h3⟩ := uploadLoop_full_inv C L handle hfill I hI (content.length / 900000 + 1)
    fuel r1 f0 0 h0 hI0 (by omega) (by omega) hfuel (by omega)
  rw [← hbuf] at h1 h3
  refine ⟨_, h3, ?_, ?_, ?_⟩ <;> simp [dbfsUploadFile, hcreate, hres, hopen, hstat, h1]

end Inv
end Databricks

namespace Databricks

/-- C13, the update-replace law: on the reference store, when the resource ID
holds a file (of any prior content) and the local source holds `content`, read
by buffer-filling reads, then with enough loop fuel `resourceDBFSUpdate`
succeeds, leaves `content` at the path and keeps the resource ID, and every
`resourceDBFSRead` of that ID on the store the update left, whatever attribute
values it starts from (those the update recorded, or stale ones), succeeds and
reports `file_size = len(content)`, whatever the prior content was. Where the
code departs from the claim: the Read does not report `is_directory = false`.
Neither the upload (line 152) nor the Read (line 92) records the attribute,
since both hand a `bool` to an attribute that the schema declares
`schema.TypeString` and drop the error of `data.Set`; after Update and Read
`is_directory` is what it was before the Update. -/
theorem update_then_read_reports_new_size {σ : Type} (L : LocalFS σ) (fuel : Nat)
    (st : Store) (data : ResourceData) (prior content : List Byte)
    (hprior : st.nodes data.id = some (Node.file prior))
    (hreads : ReadsFully L data.source content)
    (hfuel : content.length / 900000 + 1 ≤ fuel) :
    (resourceDBFSUpdate refStore L fuel st data).ret = Ret.ok ∧
    (resourceDBFSUpdate refStore L fuel st data).remote.nodes data.id
      = some (Node.file content) ∧
    (resourceDBFSUpdate refStore L fuel st data).data.id = data.id ∧
    (∀ d0 : ResourceData, d0.id = data.id →
      (resourceDBFSRead refStore (resourceDBFSUpdate refStore L fuel st data).remote d0).ret
        = Ret.ok ∧
      (resourceDBFSRead refStore (resourceDBFSUpdate refStore L fuel st data).remote d0).calls
        = [⟨Call.getStatus data.id, none⟩] ∧
      (resourceDBFSRead refStore (resourceDBFSUpdate refStore L fuel st data).remote d0).data.file_size
        = some (content.length : Int) ∧
      (resourceDBFSRead refStore (resourceDBFSUpdate refStore L fuel st data).remote
        d0).data.is_directory = d0.is_directory) ∧
    (resourceDBFSRead refStore (resourceDBFSUpdate refStore L fuel st data).remote
      (resourceDBFSUpdate refStore L fuel st data).data).ret = Ret.ok ∧
    (resourceDBFSRead refStore (resourceDBFSUpdate refStore L fuel st data).remote
      (resourceDBFSUpdate refStore L fuel st data).data).data.file_size
      = some (content.length : Int) ∧
    (resourceDBFSRead refStore (resourceDBFSUpdate refStore L fuel st data).remote
      (resourceDBFSUpdate refStore L fuel st data).data).data.is_directory
      = data.is_directory := by
  have hg : refStore.GetStatus st data.id = (Except.ok (false, (prior.length : Int)), st) := by
    simp [refStore, hprior]
  have hd : refStore.Delete st data.id false
      = (none, { st with nodes := fun q => if q = data.id then none else st.nodes q }) := by
    simp [refStore, hprior]
  have hcreate : refStore.Create
      { st with nodes := fun q => if q = data.id then none else st.nodes q } data.id true
      = (Except.ok st.next,
          { st with nodes := fun q => if q = data.id then none else st.nodes q,
                    sessions := fun k => if k = st.next then some (data.id, [])
                                         else st.sessions k,
                    next := st.next + 1 }) := by
    simp [refStore]
  obtain ⟨r2, hr2, hret, hrem, hdata⟩ := dbfsUploadFile_full_inv refStore L st.next fuel
    { st with nodes := fun q => if q = data.id then none else st.nodes q } _ data data.id
    data.source content
    (fun s pos => s.sessions st.next = some (data.id, content.take pos))
    hcreate (by simp)
    (by
      intro s pos want hs hw hle
      have hlen := chunk_length content pos want hle
      have hnot : ¬ 1048576 < ((content.drop pos).take want).length := by rw [hlen]; omega
      simp only [refStore, hnot, if_false, hs]
      exact ⟨trivial, by simp [List.take_add]⟩)
    hreads hfuel
  simp only [List.take_length] at hr2
  have hclose : refStore.Close r2 st.next
      = (none, { r2 with nodes := fun q => if q = data.id then some (Node.file content)
                                           else r2.nodes q,
                         sessions := fun k => if k = st.next then none else r2.sessions k }) := by
    simp [refStore, hr2]
  rw [hclose] at hret hrem
  have hu_ret : (resourceDBFSUpdate refStore L fuel st data).ret = Ret.ok := by
    simp only [resourceDBFSUpdate, hg, hd]
    exact hret
  have hu_rem : (resourceDBFSUpdate refStore L fuel st data).remote
      = { r2 with nodes := fun q => if q = data.id then some (Node.file content) else r2.nodes q,
                  sessions := fun k => if k = st.next then none else r2.sessions k } := by
    simp only [resourceDBFSUpdate, hg, hd]
    exact hrem
  have hu_data : (resourceDBFSUpdate refStore L fuel st data).data
      = { data with file_size := some (content.length : Int), id := data.id } := by
    simp only [resourceDBFSUpdate, hg, hd]
    exact hdata
  have hread : ∀ d0 : ResourceData, d0.id = data.id →
      (resourceDBFSRead refStore
          { r2 with nodes := fun q => if q = data.id then some (Node.file content) else r2.nodes q,
                    sessions := fun k => if k = st.next then none else r2.sessions k } d0).ret
        = Ret.ok ∧
      (resourceDBFSRead refStore
          { r2 with nodes := fun q => if q = data.id then some (Node.file content) else r2.nodes q,
                    sessions := fun k => if k = st.next then none else r2.sessions k } d0).calls
        = [⟨Call.getStatus data.id, none⟩] ∧
      (resourceDBFSRead refStore
          { r2 with nodes := fun q => if q = data.id then some (Node.file content) else r2.nodes q,
                    sessions := fun k => if k = st.next then none else r2.sessions k }
          d0).data.file_size = some (content.length : Int) ∧
      (resourceDBFSRead refStore
          { r2 with nodes := fun q => if q = data.id then some (Node.file content) else r2.nodes q,
                    sessions := fun k => if k = st.next then none else r2.sessions k }
          d0).data.is_directory = d0.is_directory := by
    intro d0 h0
    refine ⟨?_, ?_, ?_, ?_⟩ <;> simp [resourceDBFSRead, refStore, h0]
  rw [hu_rem, hu_data]
  obtain ⟨a1, _, a3, a4⟩ := hread
    { data with file_size := some (content.length : Int), id := data.id } rfl
  exact ⟨hu_ret, by simp, rfl, hread, a1, a3, a4⟩

/-- The five bytes at `/tmp/x` replaced by the three bytes of `f.bin`: the update
succeeds, and a read that starts from the stale size 5 reports size 3, as does
the read on the data the update left; `is_directory` is still unset after it. -/
theorem update_then_read_reports_new_size_witness :
    (resourceDBFSUpdate refStore demoFS 5 demoStore fileData).ret = Ret.ok ∧
    (resourceDBFSUpdate refStore demoFS 5 demoStore fileData).remote.nodes "/tmp/x"
      = some (Node.file [1, 2, 3]) ∧
    (resourceDBFSRead refStore (resourceDBFSUpdate refStore demoFS 5 demoStore fileData).remote
      ⟨"/tmp/x", "f.bin", none, some 5, "/tmp/x"⟩).data.file_size = some 3 ∧
    (resourceDBFSRead refStore (resourceDBFSUpdate refStore demoFS 5 demoStore fileData).remote
      (resourceDBFSUpdate refStore demoFS 5 demoStore fileData).data).ret = Ret.ok ∧
    (resourceDBFSRead refStore (resourceDBFSUpdate refStore demoFS 5 demoStore fileData).remote
      (resourceDBFSUpdate refStore demoFS 5 demoStore fileData).data).data.file_size
      = some 3 ∧
    (resourceDBFSRead refStore (resourceDBFSUpdate refStore demoFS 5 demoStore fileData).remote
      (resourceDBFSUpdate refStore demoFS 5 demoStore fileData).data).data.is_directory
      = none :=
  ⟨(update_then_read_reports_new_size demoFS 5 demoStore fileData [9, 9, 9, 9, 9] [1, 2, 3]
      rfl demoFS_small (by decide)).1,
   (update_then_read_reports_new_size demoFS 5 demoStore fileData [9, 9, 9, 9, 9] [1, 2, 3]
      rfl demoFS_small (by decide)).2.1,
   ((update_then_read_reports_new_size demoFS 5 demoStore fileData [9, 9, 9, 9, 9] [1, 2, 3]
      rfl demoFS_small (by decide)).2.2.2.1 ⟨"/tmp/x", "f.bin", none, some 5, "/tmp/x"⟩ rfl).2.2.1,
   (update_then_read_reports_new_size demoFS 5 demoStore fileData [9, 9, 9, 9, 9] [1, 2, 3]
      rfl demoFS_small (by decide)).2.2.2.2⟩

end Databricks

namespace Databricks

/-! ## C14 -/

theorem splitSlash_ne_nil (l : List Char) : splitSlash l ≠ [] := by
  cases l with
  | nil => simp [splitSlash]
  | cons c cs =>
    rcases h : splitSlash cs with _ | ⟨seg, segs⟩
    · simp [splitSlash, h]
    · simp only [splitSlash, h]
      split <;> simp

theorem splitSlash_cons_slash (l : List Char) : splitSlash ('/' :: l) = [] :: splitSlash l := by
  rcases h : splitSlash l with _ | ⟨seg, segs⟩
  · exact absurd h (splitSlash_ne_nil l)
  · simp [splitSlash, h]

theorem splitSlash_noSlash (l : List Char) : ∀ seg ∈ splitSlash l, '/' ∉ seg := by
  induction l with
  | nil => intro seg hs; simp [splitSlash] at hs; subst hs; simp
  | cons c cs ih =>
    intro seg hs
    rcases h : splitSlash cs with _ | ⟨s0, segs⟩
    · exact absurd h (splitSlash_ne_nil cs)
    · rw [h] at ih
      simp only [splitSlash, h] at hs
      by_cases hc : c = '/'
      · rw [if_pos hc] at hs
        simp only [List.mem_cons] at hs
        rcases hs with rfl | rfl | hs
        · simp
        · exact ih _ (by simp)
        · exact ih _ (by simp [hs])
      · rw [if_neg hc] at hs
        simp only [List.mem_cons] at hs
        rcases hs with rfl | hs
        · intro hm
          simp only [List.mem_cons] at hm
          rcases hm with hm | hm
          · exact hc hm.symm
          · exact ih s0 (by simp) hm
        · exact ih _ (by simp [hs])

theorem splitSlash_cons_of (c : Char) (cs seg : List Char) (segs : List (List Char))
    (h : splitSlash cs = seg :: segs) :
    splitSlash (c :: cs) = if c = '/' then [] :: seg :: segs else (c :: seg) :: segs := by
  simp [splitSlash, h]

theorem splitSlash_append (a b : List Char) :
    splitSlash (a ++ '/' :: b) = splitSlash a ++ splitSlash b := by
  induction a with
  | nil =>
    rw [List.nil_append, splitSlash_cons_slash]
    rfl
  | cons c a ih =>
    rcases h : splitSlash a with _ | ⟨seg, segs⟩
    · exact absurd h (splitSlash_ne_nil a)
    · rw [h] at ih
      rw [List.cons_append, splitSlash_cons_of c _ seg (segs ++ splitSlash b) ih,
        splitSlash_cons_of c a seg segs h]
      split <;> rfl

theorem splitSlash_seg (seg : List Char) (h : '/' ∉ seg) : splitSlash seg = [seg] := by
  induction seg with
  | nil => rfl
  | cons c cs ih =>
    have hc : c ≠ '/' := fun e => h (by simp [e])
    have hcs : '/' ∉ cs := fun e => h (by simp [e])
    simp [splitSlash, ih hcs, hc]

theorem joinSlash_cons_cons (a b : List Char) (rest : List (List Char)) :
    joinSlash (a :: b :: rest) = a ++ '/' :: joinSlash (b :: rest) := rfl

theorem splitSlash_joinSlash (segs : List (List Char)) (hne : segs ≠ [])
    (h : ∀ seg ∈ segs, '/' ∉ seg) : splitSlash (joinSlash segs) = segs := by
  induction segs with
  | nil => exact absurd rfl hne
  | cons a rest ih =>
    cases rest with
    | nil => exact splitSlash_seg a (h a (by simp))
    | cons b rest =>
      rw [joinSlash_cons_cons, splitSlash_append, splitSlash_seg a (h a (by simp)),
        ih (by simp) (fun seg hs => h seg (by simp [hs]))]
      rfl

theorem joinSlash_head (segs : List (List Char)) (hne : segs ≠ [])
    (h : ∀ seg ∈ segs, seg ≠ [] ∧ '/' ∉ seg) :
    joinSlash segs ≠ [] ∧ (joinSlash segs).head? ≠ some '/' := by
  cases segs with
  | nil => exact absurd rfl hne
  | cons a rest =>
    obtain ⟨ha, hs⟩ := h a (by simp)
    cases a with
    | nil => exact absurd rfl ha
    | cons c cs =>
      have hc : c ≠ '/' := fun e => hs (by simp [e])
      cases rest with
      | nil => simp [joinSlash, hc]
      | cons b rest => simp [joinSlash_cons_cons, hc]

theorem cleanStep_skip (rooted : Bool) (stack : List (List Char)) (seg : List Char)
    (h : seg = [] ∨ seg = ['.']) : cleanStep rooted stack seg = stack := by
  simp [cleanStep, h]

theorem cleanStep_name (rooted : Bool) (stack : List (List Char)) (seg : List Char)
    (h : IsName seg) : cleanStep rooted stack seg = seg :: stack := by
  obtain ⟨h1, h2, h3, _⟩ := h
  simp [cleanStep, h1, h2, h3]

theorem cleanStep_dotdot_pop (rooted : Bool) (top : List Char) (rest : List (List Char))
    (h : top ≠ ['.', '.']) : cleanStep rooted (top :: rest) ['.', '.'] = rest := by
  simp [cleanStep, h]

theorem cleanStep_dotdot_nil_rooted : cleanStep true [] ['.', '.'] = [] := by
  simp [cleanStep]

theorem cleanStep_dotdot_nil_relative : cleanStep false [] ['.', '.'] = [['.', '.']] := by
  simp [cleanStep]

theorem cleanStep_dotdot_push (rooted : Bool) (rest : List (List Char)) :
    cleanStep rooted (['.', '.'] :: rest) ['.', '.'] = ['.', '.'] :: ['.', '.'] :: rest := by
  simp [cleanStep]

/-- A slash-free path element is empty, `.`, `..`, or a name. -/
theorem seg_cases (seg : List Char) (h : '/' ∉ seg) :
    (seg = [] ∨ seg = ['.']) ∨ seg = ['.', '.'] ∨ IsName seg := by
  by_cases h1 : seg = []
  · exact Or.inl (Or.inl h1)
  by_cases h2 : seg = ['.']
  · exact Or.inl (Or.inr h2)
  by_cases h3 : seg = ['.', '.']
  · exact Or.inr (Or.inl h3)
  · exact Or.inr (Or.inr ⟨h1, h2, h3, h⟩)

/-- Cleaning a rooted path keeps only names on the stack. -/
theorem foldl_cleanStep_rooted_names (segs : List (List Char)) (hs : ∀ seg ∈ segs, '/' ∉ seg) :
    ∀ stack : List (List Char), (∀ x ∈ stack, IsName x) →
      ∀ x ∈ segs.foldl (cleanStep true) stack, IsName x := by
  induction segs with
  | nil => intro stack h; exact h
  | cons seg rest ih =>
    intro stack h
    have hrest : ∀ seg ∈ rest, '/' ∉ seg := fun s hm => hs s (by simp [hm])
    rw [List.foldl_cons]
    apply ih hrest
    rcases seg_cases seg (hs seg (by simp)) with hskip | hdd | hname
    · rw [cleanStep_skip _ _ _ hskip]; exact h
    · subst hdd
      cases stack with
      | nil => rw [cleanStep_dotdot_nil_rooted]; exact h
      | cons top tl =>
        rw [cleanStep_dotdot_pop _ _ _ (h top (by simp)).2.2.1]
        exact fun x hx => h x (by simp [hx])
    · rw [cleanStep_name _ _ _ hname]
      intro x hx
      simp only [List.mem_cons] at hx
      rcases hx with rfl | hx
      · exact hname
      · exact h x hx

/-- Cleaning keeps only non-empty slash-free elements on the stack. -/
theorem foldl_cleanStep_elems (rooted : Bool) (segs : List (List Char))
    (hs : ∀ seg ∈ segs, '/' ∉ seg) :
    ∀ stack : List (List Char), (∀ x ∈ stack, x ≠ [] ∧ '/' ∉ x) →
      ∀ x ∈ segs.foldl (cleanStep rooted) stack, x ≠ [] ∧ '/' ∉ x := by
  induction segs with
  | nil => intro stack h; exact h
  | cons seg rest ih =>
    intro stack h
    have hrest : ∀ seg ∈ rest, '/' ∉ seg := fun s hm => hs s (by simp [hm])
    rw [List.foldl_cons]
    apply ih hrest
    rcases seg_cases seg (hs seg (by simp)) with hskip | hdd | hname
    · rw [cleanStep_skip _ _ _ hskip]; exact h
    · subst hdd
      have hddok : (['.', '.'] : List Char) ≠ [] ∧ '/' ∉ (['.', '.'] : List Char) := by decide
      cases stack with
      | nil =>
        cases rooted
        · rw [cleanStep_dotdot_nil_relative]
          intro x hx
          simp only [List.mem_singleton] at hx
          subst hx; exact hddok
        · rw [cleanStep_dotdot_nil_rooted]; exact h
      | cons top tl =>
        by_cases ht : top = ['.', '.']
        · subst ht
          rw [cleanStep_dotdot_push]
          intro x hx
          simp only [List.mem_cons] at hx
          rcases hx with rfl | rfl | hx
          · exact hddok
          · exact hddok
          · exact h x (by simp [hx])
        · rw [cleanStep_dotdot_pop _ _ _ ht]
          exact fun x hx => h x (by simp [hx])
    · rw [cleanStep_name _ _ _ hname]
      intro x hx
      simp only [List.mem_cons] at hx
      rcases hx with rfl | hx
      · exact ⟨hname.1, hname.2.2.2⟩
      · exact h x hx

/-- Names are pushed one after the other. -/
theorem foldl_cleanStep_names (rooted : Bool) (xs : List (List Char))
    (hx : ∀ x ∈ xs, IsName x) :
    ∀ stack : List (List Char), xs.foldl (cleanStep rooted) stack = xs.reverse ++ stack := by
  induction xs with
  | nil => intro stack; rfl
  | cons x rest ih =>
    intro stack
    rw [List.foldl_cons, cleanStep_name _ _ _ (hx x (by simp)),
      ih (fun y hy => hx y (by simp [hy]))]
    simp

/-- On a rooted stack of names, `k` elements `..` remove `k` names. -/
theorem foldl_cleanStep_dotdots (k : Nat) :
    ∀ stack : List (List Char), (∀ x ∈ stack, IsName x) →
      (List.replicate k ['.', '.']).foldl (cleanStep true) stack = stack.drop k := by
  induction k with
  | zero => intro stack _; rfl
  | succ k ih =>
    intro stack h
    rw [List.replicate_succ, List.foldl_cons]
    cases stack with
    | nil =>
      rw [cleanStep_dotdot_nil_rooted, ih [] (by simp)]
      simp
    | cons top tl =>
      rw [cleanStep_dotdot_pop _ _ _ (h top (by simp)).2.2.1,
        ih tl (fun x hx => h x (by simp [hx]))]
      rfl

end Databricks

namespace Databricks

/-- Cleaning the same elements on a relative stack (names over `k` elements
`..`) and on a rooted stack (the same names over a stack of names `W` with `k`
elements removed) keeps the two stacks in that relation. -/
theorem foldl_cleanStep_relative_rooted (W : List (List Char)) (hW : ∀ x ∈ W, IsName x)
    (segs : List (List Char)) (hs : ∀ seg ∈ segs, '/' ∉ seg) :
    ∀ (N : List (List Char)) (k : Nat), (∀ x ∈ N, IsName x) →
      ∃ (N1 : List (List Char)) (k1 : Nat), (∀ x ∈ N1, IsName x) ∧
        segs.foldl (cleanStep false) (N ++ List.replicate k ['.', '.'])
          = N1 ++ List.replicate k1 ['.', '.'] ∧
        segs.foldl (cleanStep true) (N ++ W.drop k) = N1 ++ W.drop k1 := by
  induction segs with
  | nil => intro N k hN; exact ⟨N, k, hN, rfl, rfl⟩
  | cons seg rest ih =>
    intro N k hN
    have hrest : ∀ seg ∈ rest, '/' ∉ seg := fun s hm => hs s (by simp [hm])
    rw [List.foldl_cons, List.foldl_cons]
    rcases seg_cases seg (hs seg (by simp)) with hskip | hdd | hname
    · rw [cleanStep_skip _ _ _ hskip, cleanStep_skip _ _ _ hskip]
      exact ih hrest N k hN
    · subst hdd
      cases N with
      | cons n N0 =>
        have hn : n ≠ ['.', '.'] := (hN n (by simp)).2.2.1
        rw [List.cons_append, List.cons_append, cleanStep_dotdot_pop _ _ _ hn,
          cleanStep_dotdot_pop _ _ _ hn]
        exact ih hrest N0 k (fun x hx => hN x (by simp [hx]))
      | nil =>
        rw [List.nil_append, List.nil_append]
        have hrel : cleanStep false (List.replicate k ['.', '.']) ['.', '.']
            = [] ++ List.replicate (k + 1) ['.', '.'] := by
          cases k with
          | zero => rw [List.replicate_zero, cleanStep_dotdot_nil_relative]; rfl
          | succ k => rw [List.replicate_succ, cleanStep_dotdot_push]; rfl
        have hroot : cleanStep true (W.drop k) ['.', '.'] = [] ++ W.drop (k + 1) := by
          rcases hd : W.drop k with _ | ⟨top, tl⟩
          · rw [cleanStep_dotdot_nil_rooted]
            have : W.drop (k + 1) = (W.drop k).drop 1 := by simp [List.drop_drop]
            rw [this, hd]; rfl
          · have htop : top ≠ ['.', '.'] := by
              have hm : top ∈ W := List.mem_of_mem_drop (by rw [hd]; simp)
              exact (hW top hm).2.2.1
            rw [cleanStep_dotdot_pop _ _ _ htop]
            have : W.drop (k + 1) = (W.drop k).drop 1 := by simp [List.drop_drop]
            rw [this, hd]; rfl
        rw [hrel, hroot]
        exact ih hrest [] (k + 1) (by simp)
    · rw [cleanStep_name _ _ _ hname, cleanStep_name _ _ _ hname]
      have := ih hrest (seg :: N) k (by
        intro x hx
        simp only [List.mem_cons] at hx
        rcases hx with rfl | hx
        · exact hname
        · exact hN x hx)
      simpa using this

theorem cleanChars_ne_nil (l : List Char) : cleanChars l ≠ [] := by
  unfold cleanChars
  split
  · simp
  · simp only
    split
    · simp
    · split
      · simp
      · assumption

/-- The shape of a cleaned rooted path: a slash followed by names joined by
slashes. -/
theorem cleanChars_rooted (l : List Char) (h : l.head? = some '/') :
    cleanChars l
      = '/' :: joinSlash ((splitSlash l).foldl (cleanStep true) []).reverse ∧
    ∀ x ∈ ((splitSlash l).foldl (cleanStep true) []).reverse, IsName x := by
  have hne : l ≠ [] := by intro e; rw [e] at h; cases h
  constructor
  · simp [cleanChars, hne, h]
  · intro x hx
    exact foldl_cleanStep_rooted_names _ (splitSlash_noSlash l) [] (by simp) x
      (List.mem_reverse.mp hx)

/-- Cleaning keeps a leading slash and does not create one. -/
theorem cleanChars_head (l : List Char) :
    (cleanChars l).head? = some '/' ↔ l.head? = some '/' := by
  constructor
  · intro hc
    by_contra hl
    by_cases hne : l = []
    · subst hne
      simp [cleanChars] at hc
    · have hel := foldl_cleanStep_elems false _ (splitSlash_noSlash l) [] (by simp)
      simp only [cleanChars, hne, if_false, hl, decide_False, Bool.false_eq_true] at hc
      split at hc
      · simp at hc
      · rename_i hbody
        have hx : ((splitSlash l).foldl (cleanStep false) []).reverse ≠ [] := by
          intro e
          rw [e] at hbody
          exact hbody rfl
        exact (joinSlash_head _ hx (fun x hm => hel x (List.mem_reverse.mp hm))).2 hc
  · intro hl
    rw [(cleanChars_rooted l hl).1]
    rfl

theorem splitSlash_rooted_names (X : List (List Char)) (hX : ∀ x ∈ X, IsName x) :
    splitSlash ('/' :: joinSlash X) = [] :: (if X = [] then [[]] else X) := by
  rw [splitSlash_cons_slash]
  by_cases h : X = []
  · subst h; rfl
  · rw [if_neg h, splitSlash_joinSlash X h (fun x hx => (hX x hx).2.2.2)]

/-- A slash followed by names joined by slashes is already clean. -/
theorem cleanChars_names (X : List (List Char)) (hX : ∀ x ∈ X, IsName x) :
    cleanChars ('/' :: joinSlash X) = '/' :: joinSlash X := by
  rw [(cleanChars_rooted ('/' :: joinSlash X) rfl).1, splitSlash_rooted_names X hX,
    List.foldl_cons, cleanStep_skip _ _ _ (Or.inl rfl)]
  by_cases h : X = []
  · subst h
    rfl
  · rw [if_neg h, foldl_cleanStep_names true X hX []]
    simp

/-- Cleaning a clean rooted path changes nothing. -/
theorem cleanChars_idem_rooted (l : List Char) (h : l.head? = some '/') :
    cleanChars (cleanChars l) = cleanChars l := by
  obtain ⟨h1, h2⟩ := cleanChars_rooted l h
  rw [h1]
  exact cleanChars_names _ h2

/-- Joining a relative path to a rooted directory: cleaning the path first makes
no difference. -/
theorem cleanChars_join (w l : List Char) (hw : w.head? = some '/')
    (hl : l.head? ≠ some '/') :
    cleanChars (w ++ '/' :: cleanChars l) = cleanChars (w ++ '/' :: l) := by
  have hwne : w ≠ [] := by intro e; rw [e] at hw; cases hw
  have hroot : ∀ x : List Char, (w ++ '/' :: x).head? = some '/' := by
    intro x
    cases w with
    | nil => exact absurd rfl hwne
    | cons c cs => exact hw
  rw [(cleanChars_rooted _ (hroot _)).1, (cleanChars_rooted _ (hroot _)).1,
    splitSlash_append, splitSlash_append, List.foldl_append, List.foldl_append]
  have hW := foldl_cleanStep_rooted_names _ (splitSlash_noSlash w) [] (by simp)
  obtain ⟨N1, k1, hN1, hrel, hrt⟩ := foldl_cleanStep_relative_rooted
    ((splitSlash w).foldl (cleanStep true) []) hW (splitSlash l) (splitSlash_noSlash l) [] 0
    (by simp)
  simp only [List.replicate_zero, List.append_nil, List.nil_append, List.drop_zero] at hrel hrt
  rw [hrt]
  congr 2
  congr 1
  by_cases hne : l = []
  · subst hne
    simp only [splitSlash, List.foldl_cons, List.foldl_nil] at hrt
    rw [cleanStep_skip _ _ _ (Or.inl rfl)] at hrt
    rw [← hrt]
    show (splitSlash ['.']).foldl (cleanStep true) _ = _
    rw [splitSlash_seg ['.'] (by decide), List.foldl_cons, List.foldl_nil,
      cleanStep_skip _ _ _ (Or.inr rfl)]
  · have hcl : cleanChars l
        = if joinSlash ((splitSlash l).foldl (cleanStep false) []).reverse = [] then ['.']
          else joinSlash ((splitSlash l).foldl (cleanStep false) []).reverse := by
      simp [cleanChars, hne, hl]
    rw [hcl, hrel]
    have hdd : ∀ x ∈ N1 ++ List.replicate k1 ['.', '.'], x ≠ [] ∧ '/' ∉ x := by
      intro x hx
      rcases List.mem_append.mp hx with hx | hx
      · exact ⟨(hN1 x hx).1, (hN1 x hx).2.2.2⟩
      · rw [List.eq_of_mem_replicate hx]; decide
    by_cases hT : N1 ++ List.replicate k1 ['.', '.'] = []
    · rw [hT]
      have hN : N1 = [] := (List.append_eq_nil.mp hT).1
      have hk : k1 = 0 := by
        have := (List.append_eq_nil.mp hT).2
        cases k1 with
        | zero => rfl
        | succ k => simp [List.replicate_succ] at this
      subst hN; subst hk
      show (splitSlash ['.']).foldl (cleanStep true) _ = _
      rw [splitSlash_seg ['.'] (by decide), List.foldl_cons, List.foldl_nil,
        cleanStep_skip _ _ _ (Or.inr rfl)]
      rfl
    · have hrev : (N1 ++ List.replicate k1 ['.', '.']).reverse ≠ [] := by
        intro e
        exact hT (List.reverse_eq_nil_iff.mp e)
      have hj := joinSlash_head _ hrev (fun x hx => hdd x (List.mem_reverse.mp hx))
      rw [if_neg hj.1, splitSlash_joinSlash _ hrev
        (fun x hx => (hdd x (List.mem_reverse.mp hx)).2), List.reverse_append,
        List.reverse_replicate, List.foldl_append, foldl_cleanStep_dotdots k1 _ hW,
        foldl_cleanStep_names true N1.reverse (fun x hx => hN1 x (List.mem_reverse.mp hx))]
      simp

end Databricks

namespace Databricks

theorem stringsIndexSlash_eq_zero (l : List Char) :
    stringsIndexSlash l = 0 ↔ l.head? = some '/' := by
  cases l with
  | nil => simp [stringsIndexSlash]
  | cons c cs =>
    by_cases hc : c = '/'
    · simp [stringsIndexSlash, hc]
    · have hpos : 0 < c.utf8Size := Char.utf8Size_pos c
      simp only [stringsIndexSlash, hc, if_false, List.head?_cons, Option.some.injEq,
        iff_false]
      split <;> omega

/-- Lines 155-162 with a rooted working directory: a rooted source is cleaned;
any other source is appended to the working directory and cleaned. -/
theorem resolveSource_eq {σ : Type} (L : LocalFS σ) (source wd : String)
    (hwd : L.Getwd = Except.ok wd) (habs : wd.data.head? = some '/') :
    resolveSource L source
      = Except.ok (if source.data.head? = some '/' then pathClean source
                   else pathClean (wd ++ "/" ++ source)) := by
  have hdata : (pathClean source).data = cleanChars source.data := rfl
  by_cases hs : source.data.head? = some '/'
  · have h0 : stringsIndexSlash (pathClean source).data = 0 := by
      rw [stringsIndexSlash_eq_zero, hdata, cleanChars_head]; exact hs
    simp [resolveSource, h0, hs]
  · have h0 : stringsIndexSlash (pathClean source).data ≠ 0 := by
      rw [Ne, stringsIndexSlash_eq_zero, hdata, cleanChars_head]; exact hs
    have hwne : ¬ wd.data = [] := by intro e; rw [e] at habs; cases habs
    have hcne : ¬ (pathClean source).data = [] := by
      rw [hdata]; exact cleanChars_ne_nil _
    have hj : pathJoin wd (pathClean source)
        = String.mk (cleanChars (wd.data ++ '/' :: cleanChars source.data)) := by
      rw [hdata] at hcne
      simp only [pathJoin, hwne, hcne, false_and, if_false, hdata]
    have happ : (wd ++ "/" ++ source).data = wd.data ++ '/' :: source.data := by
      simp [String.data_append]
    simp only [resolveSource, h0, ne_eq, not_false_eq_true, if_true, hwd, hs, if_false, hj]
    rw [cleanChars_join wd.data source.data habs hs]
    simp only [pathClean, happ]

/-- A cleaned rooted path starts with a slash, has no `.` or `..` element, and
is its own cleaning. -/
theorem pathClean_rooted (p : String) (h : p.data.head? = some '/') :
    (pathClean p).data.head? = some '/' ∧
    (∀ seg ∈ splitSlash (pathClean p).data, seg ≠ ['.'] ∧ seg ≠ ['.', '.']) ∧
    pathClean (pathClean p) = pathClean p := by
  have hdata : (pathClean p).data = cleanChars p.data := rfl
  obtain ⟨h1, h2⟩ := cleanChars_rooted p.data h
  refine ⟨by rw [hdata, cleanChars_head]; exact h, ?_, ?_⟩
  · intro seg hseg
    rw [hdata, h1, splitSlash_rooted_names _ h2] at hseg
    simp only [List.mem_cons] at hseg
    rcases hseg with rfl | hseg
    · exact ⟨by decide, by decide⟩
    · split at hseg
      · simp only [List.mem_singleton] at hseg
        subst hseg
        exact ⟨by decide, by decide⟩
      · exact ⟨(h2 seg hseg).2.1, (h2 seg hseg).2.2.1⟩
  · show String.mk (cleanChars (cleanChars p.data)) = String.mk (cleanChars p.data)
    rw [cleanChars_idem_rooted p.data h]

/-- C14: local path resolution in `dbfsUploadFile`. When `Create` succeeded and
the working directory `wd` is absolute, the path given to `os.Open` is
`path.Clean(source)` if `source` starts with a slash and
`path.Clean(wd + "/" + source)` otherwise. The test for a leading slash gives
the same answer on the cleaned source (where the code makes it) as on the raw
source. The resolved path starts with a slash, has no `.` or `..` element, and
resolving it again returns it unchanged. -/
theorem dbfsUploadFile_resolves_source {ρ σ : Type} (C : DBFS ρ) (L : LocalFS σ) (fuel : Nat)
    (r : ρ) (data : ResourceData) (dbfsPath source wd : String) (handle : Handle)
    (hcreate : (C.Create r dbfsPath true).1 = Except.ok handle)
    (hwd : L.Getwd = Except.ok wd) (habs : wd.data.head? = some '/') :
    (dbfsUploadFile C L fuel r data dbfsPath source).opened
      = some (if source.data.head? = some '/' then pathClean source
              else pathClean (wd ++ "/" ++ source)) ∧
    (stringsIndexSlash (pathClean source).data = 0 ↔ stringsIndexSlash source.data = 0) ∧
    ∃ resolved : String,
      (dbfsUploadFile C L fuel r data dbfsPath source).opened = some resolved ∧
      resolved.data.head? = some '/' ∧
      (∀ seg ∈ splitSlash resolved.data, seg ≠ ['.'] ∧ seg ≠ ['.', '.']) ∧
      resolveSource L resolved = Except.ok resolved := by
  have hres := resolveSource_eq L source wd hwd habs
  have hopened : (dbfsUploadFile C L fuel r data dbfsPath source).opened
      = some (if source.data.head? = some '/' then pathClean source
              else pathClean (wd ++ "/" ++ source)) := by
    rcases hc : C.Create r dbfsPath true with ⟨res, r1⟩
    rw [hc] at hcreate
    simp only at hcreate
    subst hcreate
    rcases hopen : L.Open (if source.data.head? = some '/' then pathClean source
              else pathClean (wd ++ "/" ++ source)) with e | f
    · simp [dbfsUploadFile, hc, hres, hopen]
    rcases hstat : L.Stat f with e | fsize
    · simp [dbfsUploadFile, hc, hres, hopen, hstat]
    rcases hret : (uploadLoop C L handle fsize fuel r1 f 0
        (if fsize < 900000 then fsize else 900000)).ret with _ | e | _ <;>
      simp [dbfsUploadFile, hc, hres, hopen, hstat, hret]
  refine ⟨hopened, ?_, _, hopened, ?_⟩
  · have hdata : (pathClean source).data = cleanChars source.data := rfl
    rw [stringsIndexSlash_eq_zero, stringsIndexSlash_eq_zero, hdata, cleanChars_head]
  · have key : ∀ p : String, p.data.head? = some '/' →
        (pathClean p).data.head? = some '/' ∧
        (∀ seg ∈ splitSlash (pathClean p).data, seg ≠ ['.'] ∧ seg ≠ ['.', '.']) ∧
        resolveSource L (pathClean p) = Except.ok (pathClean p) := by
      intro p hp
      obtain ⟨a, b, c⟩ := pathClean_rooted p hp
      refine ⟨a, b, ?_⟩
      rw [resolveSource_eq L (pathClean p) wd hwd habs, if_pos a, c]
    by_cases hs : source.data.head? = some '/'
    · rw [if_pos hs]
      exact key source hs
    · rw [if_neg hs]
      apply key
      have happ : (wd ++ "/" ++ source).data = wd.data ++ '/' :: source.data := by
        simp [String.data_append]
      rw [happ]
      cases hw : wd.data with
      | nil => rw [hw] at habs; cases habs
      | cons c cs => rw [hw] at habs; exact habs

/-- A relative source with `.` and `..` elements and an absolute one, in the
working directory `/home/u`. -/
theorem dbfsUploadFile_resolves_source_witness :
    (dbfsUploadFile okClient demoFS 5 0 demoData "/tmp/x" "./a/../f.bin").opened
      = some "/home/u/f.bin" ∧
    (dbfsUploadFile okClient demoFS 5 0 demoData "/tmp/x" "/home//u/./f.bin").opened
      = some "/home/u/f.bin" ∧
    resolveSource demoFS "/home/u/f.bin" = Except.ok "/home/u/f.bin" := by
  have h1 := dbfsUploadFile_resolves_source okClient demoFS 5 0 demoData "/tmp/x"
    "./a/../f.bin" "/home/u" 7 rfl rfl rfl
  have h2 := dbfsUploadFile_resolves_source okClient demoFS 5 0 demoData "/tmp/x"
    "/home//u/./f.bin" "/home/u" 7 rfl rfl rfl
  exact ⟨h1.1, h2.1, rfl⟩

end Databricks

namespace Databricks

/-! ## C21 -/

/-- The recorded data and the calls of a run of `dbfsUploadFile`, by the place
where it ended: at a failing `Create`; at a local failure before the loop; in
the loop; or at `Close`, after the loop succeeded. -/
theorem dbfsUploadFile_data {ρ σ : Type} (C : DBFS ρ) (L : LocalFS σ) (fuel : Nat)
    (r : ρ) (data : ResourceData) (dbfsPath source : String) :
    (∃ e, (C.Create r dbfsPath true).1 = Except.error e ∧
      (dbfsUploadFile C L fuel r data dbfsPath source).data = data ∧
      (dbfsUploadFile C L fuel r data dbfsPath source).calls
        = [⟨Call.create dbfsPath true, some e⟩]) ∨
    (∃ handle, (C.Create r dbfsPath true).1 = Except.ok handle ∧
      (((dbfsUploadFile C L fuel r data dbfsPath source).data = data ∧
          (dbfsUploadFile C L fuel r data dbfsPath source).calls
            = [⟨Call.create dbfsPath true, none⟩] ∧
          (∀ p f0 S, resolveSource L source = Except.ok p → L.Open p = Except.ok f0 →
            L.Stat f0 = Except.ok S → False)) ∨
       (∃ p f0 S r1, resolveSource L source = Except.ok p ∧ L.Open p = Except.ok f0 ∧
          L.Stat f0 = Except.ok S ∧
          (((uploadLoop C L handle S fuel r1 f0 0 (if S < 900000 then S else 900000)).ret
                ≠ Ret.ok ∧
              (dbfsUploadFile C L fuel r data dbfsPath source).ret
                = (uploadLoop C L handle S fuel r1 f0 0
                    (if S < 900000 then S else 900000)).ret ∧
              (dbfsUploadFile C L fuel r data dbfsPath source).data
                = { data with file_size := some (S : Int) } ∧
              (dbfsUploadFile C L fuel r data dbfsPath source).calls
                = ⟨Call.create dbfsPath true, none⟩ ::
                  (uploadLoop C L handle S fuel r1 f0 0
                    (if S < 900000 then S else 900000)).calls) ∨
           ((uploadLoop C L handle S fuel r1 f0 0 (if S < 900000 then S else 900000)).ret
                = Ret.ok ∧
              (dbfsUploadFile C L fuel r data dbfsPath source).data
                = { data with file_size := some (S : Int), id := dbfsPath } ∧
              ∃ ce, (dbfsUploadFile C L fuel r data dbfsPath source).calls
                = ⟨Call.create dbfsPath true, none⟩ ::
                  (uploadLoop C L handle S fuel r1 f0 0
                    (if S < 900000 then S else 900000)).calls
                  ++ [⟨Call.close handle, ce⟩]))))) := by
  rcases hc : C.Create r dbfsPath true with ⟨res, r1⟩
  cases res with
  | error e => left; exact ⟨e, rfl, by simp [dbfsUploadFile, hc]⟩
  | ok handle =>
    right
    refine ⟨handle, rfl, ?_⟩
    rcases hres : resolveSource L source with e | p
    · left
      refine ⟨by simp [dbfsUploadFile, hc, hres], by simp [dbfsUploadFile, hc, hres], ?_⟩
      intro p f0 S h; cases h
    rcases hopen : L.Open p with e | f
    · left
      refine ⟨by simp [dbfsUploadFile, hc, hres, hopen],
        by simp [dbfsUploadFile, hc, hres, hopen], ?_⟩
      intro p1 f0 S h1 h2
      cases h1
      rw [hopen] at h2; cases h2
    rcases hstat : L.Stat f with e | fsize
    · left
      refine ⟨by simp [dbfsUploadFile, hc, hres, hopen, hstat],
        by simp [dbfsUploadFile, hc, hres, hopen, hstat], ?_⟩
      intro p1 f0 S h1 h2 h3
      cases h1
      rw [hopen] at h2
      cases h2
      rw [hstat] at h3; cases h3
    right
    refine ⟨p, f, fsize, r1, rfl, hopen, hstat, ?_⟩
    rcases hret : (uploadLoop C L handle fsize fuel r1 f 0
        (if fsize < 900000 then fsize else 900000)).ret with _ | e | _
    · right
      refine ⟨rfl, by simp [dbfsUploadFile, hc, hres, hopen, hstat, hret],
        (C.Close (uploadLoop C L handle fsize fuel r1 f 0
          (if fsize < 900000 then fsize else 900000)).remote handle).1, ?_⟩
      simp [dbfsUploadFile, hc, hres, hopen, hstat, hret]
    · left
      simp [dbfsUploadFile, hc, hres, hopen, hstat, hret]
    · left
      simp [dbfsUploadFile, hc, hres, hopen, hstat, hret]

/-- On a reader that fills its buffers, the loop ends with an error only when an
`AddBlock` call failed. -/
theorem uploadLoop_full_error {ρ σ : Type} (C : DBFS ρ) (L : LocalFS σ) (handle : Handle)
    {content : List Byte} {rep : σ → Nat → Prop} (hfill : FillsBuffer L content rep)
    (fuel : Nat) (r : ρ) (f : σ) (pos bufSize : Nat) :
    rep f pos → pos ≤ content.length → bufSize = min 900000 (content.length - pos) →
      ∀ e, (uploadLoop C L handle content.length fuel r f pos bufSize).ret = Ret.error e →
        ∃ ev ∈ addBlockCalls (uploadLoop C L handle content.length fuel r f pos bufSize).calls,
          ev.err = some e := by
  refine uploadLoop_induct_fuel C L handle content.length
    (fun _ f pos bufSize o => rep f pos → pos ≤ content.length →
      bufSize = min 900000 (content.length - pos) →
      ∀ e, o.ret = Ret.error e → ∃ ev ∈ addBlockCalls o.calls, ev.err = some e)
    ?_ ?_ ?_ ?_ ?_ ?_ fuel r f pos bufSize
  · intro r f pos bufSize _ _ _ e he; cases he
  · intro fuel r f f1 pos bufSize _ _ _ _ e he; cases he
  · intro fuel r f f1 pos bufSize e hrd hrep hp hb _ _
    obtain ⟨h, f2, hrd2, _⟩ := hfill f pos bufSize hrep (by omega)
    rw [hrd] at hrd2
    cases congrArg Prod.fst hrd2
  · intro fuel r f f1 pos bufSize bs e hbs _ _ _ _ e1 he
    cases he
    exact ⟨⟨Call.addBlock handle (padded bufSize bs), some e⟩,
      by simp [addBlockCalls, Call.isAddBlock], rfl⟩
  · intro fuel r f f1 pos bufSize bs hbs _ _ _ _ _ e he; cases he
  · intro fuel f f1 pos bufSize bs o hbs hrd hne ih hrep hp hb e he
    obtain ⟨h, f2, hrd2, hrep2⟩ := hfill f pos bufSize hrep (by omega)
    rw [hrd] at hrd2
    have hbs2 : bs = (content.drop pos).take bufSize := by
      have := congrArg Prod.fst hrd2
      simpa using this
    have hf2 : f1 = f2 := congrArg Prod.snd hrd2
    have hlen : bs.length = bufSize := by
      rw [hbs2]; exact chunk_length content pos bufSize (by omega)
    rw [hlen] at ih
    subst hf2
    obtain ⟨ev, hev, herr⟩ := ih hrep2 (by omega) (by split <;> omega) e he
    refine ⟨ev, ?_, herr⟩
    simp only [addBlockCalls, List.filter_cons, Call.isAddBlock, if_true, List.mem_cons]
    exact Or.inr hev

end Databricks

namespace Databricks

/-- C21, as stated, fails: the three-byte file whose first read hands out two
bytes and whose second read fails. The only `AddBlock` call succeeded, the
upload fails with the read error, and the resource ID is still unset; so the ID
is not set whenever every `AddBlock` call succeeded. -/
theorem read_failure_leaves_id_unset :
    (dbfsUploadFile okClient (flakyFS "/home/u" [("/home/u/f.bin", [1, 2, 3])])
        5 0 demoData "/tmp/x" "f.bin").ret = Ret.error "input/output error" ∧
    (dbfsUploadFile okClient (flakyFS "/home/u" [("/home/u/f.bin", [1, 2, 3])])
        5 0 demoData "/tmp/x" "f.bin").calls
      = [⟨Call.create "/tmp/x" true, none⟩, ⟨Call.addBlock 7 [1, 2, 0], none⟩] ∧
    (∀ ev ∈ addBlockCalls (dbfsUploadFile okClient
        (flakyFS "/home/u" [("/home/u/f.bin", [1, 2, 3])]) 5 0 demoData "/tmp/x" "f.bin").calls,
      ev.err = none) ∧
    (dbfsUploadFile okClient (flakyFS "/home/u" [("/home/u/f.bin", [1, 2, 3])])
        5 0 demoData "/tmp/x" "f.bin").data.id = "" := by
  decide

/-- C21, amended: the state recorded by `dbfsUploadFile` is not atomic. For
every remote, reader and fuel: (1) whenever the local file was statted,
`file_size` is the full local size, however the run ends and even with no fuel
for a single iteration, that is before any block is sent; (2) the resource ID is
set to the remote path exactly when the loop ended without an error, which is
exactly when `Close` is called: it is left as it was whenever an `AddBlock` call
failed, and whenever no `Close` was called (failing `Create`, local open, stat
or read failure), and it is set whenever `Close` was called, also when `Close`
failed; (3) when the local reads fill their buffers and the fuel suffices, the
ID is set whenever every `AddBlock` call succeeded. -/
theorem dbfsUploadFile_recorded_state {ρ σ : Type} (C : DBFS ρ) (L : LocalFS σ) (fuel : Nat)
    (r : ρ) (data : ResourceData) (dbfsPath source : String) :
    (∀ handle p f0 S, (C.Create r dbfsPath true).1 = Except.ok handle →
      resolveSource L source = Except.ok p → L.Open p = Except.ok f0 →
      L.Stat f0 = Except.ok S →
      (dbfsUploadFile C L fuel r data dbfsPath source).data.file_size = some (S : Int)) ∧
    (∀ ev ∈ addBlockCalls (dbfsUploadFile C L fuel r data dbfsPath source).calls,
      ∀ e, ev.err = some e →
      (dbfsUploadFile C L fuel r data dbfsPath source).data.id = data.id) ∧
    (∀ ev ∈ (dbfsUploadFile C L fuel r data dbfsPath source).calls, ev.call.isClose = true →
      (dbfsUploadFile C L fuel r data dbfsPath source).data.id = dbfsPath) ∧
    ((∀ ev ∈ (dbfsUploadFile C L fuel r data dbfsPath source).calls,
        ev.call.isClose = false) →
      (dbfsUploadFile C L fuel r data dbfsPath source).data.id = data.id) ∧
    (∀ handle content, (C.Create r dbfsPath true).1 = Except.ok handle →
      ReadsFully L source content → content.length / 900000 + 1 ≤ fuel →
      (∀ ev ∈ addBlockCalls (dbfsUploadFile C L fuel r data dbfsPath source).calls,
        ev.err = none) →
      (dbfsUploadFile C L fuel r data dbfsPath source).data.id = dbfsPath) := by
  rcases dbfsUploadFile_data C L fuel r data dbfsPath source with
    ⟨e, hcr, hd, hc⟩ | ⟨handle, hcr, ⟨hd, hc, hloc⟩ |
      ⟨p, f0, S, r1, hres, hopen, hstat, ⟨hne, hr, hd, hc⟩ | ⟨hok, hd, ce, hc⟩⟩⟩
  · refine ⟨?_, ?_, ?_, ?_, ?_⟩
    · intro h p f0 S hh; rw [hcr] at hh; cases hh
    · intro ev hev; rw [hc] at hev; simp [addBlockCalls, Call.isAddBlock] at hev
    · intro ev hev hcl
      rw [hc] at hev
      simp only [List.mem_singleton] at hev
      subst hev; cases hcl
    · intro _; rw [hd]
    · intro h content hh; rw [hcr] at hh; cases hh
  · refine ⟨?_, ?_, ?_, ?_, ?_⟩
    · intro h p f0 S _ h1 h2 h3; exact (hloc p f0 S h1 h2 h3).elim
    · intro ev hev; rw [hc] at hev; simp [addBlockCalls, Call.isAddBlock] at hev
    · intro ev hev hcl
      rw [hc] at hev
      simp only [List.mem_singleton] at hev
      subst hev; cases hcl
    · intro _; rw [hd]
    · intro h content _ hreads
      obtain ⟨p, f0, rep, h1, h2, h3, _⟩ := hreads
      exact (hloc p f0 _ h1 h2 h3).elim
  · refine ⟨?_, ?_, ?_, ?_, ?_⟩
    · intro h p1 f1 S1 _ h1 h2 h3
      rw [hres] at h1
      cases h1
      rw [hopen] at h2
      cases h2
      rw [hstat] at h3
      cases h3
      rw [hd]
    · intro ev _ e _; rw [hd]
    · intro ev hev hcl
      rw [hc] at hev
      simp only [List.mem_cons] at hev
      rcases hev with rfl | hev
      · cases hcl
      · obtain ⟨b, hb⟩ := uploadLoop_calls_addBlock C L handle S fuel r1 f0 0 _ ev hev
        rw [hb] at hcl; cases hcl
    · intro _; rw [hd]
    · intro h content hh hreads hfuel hall
      obtain ⟨p1, f1, rep, h1, h2, h3, hrep, hfill⟩ := hreads
      rw [hres] at h1
      cases h1
      rw [hopen] at h2
      cases h2
      rw [hstat] at h3
      cases h3
      exfalso
      have hnf : (uploadLoop C L handle content.length fuel r1 f0 0
          (if content.length < 900000 then content.length else 900000)).ret
          ≠ Ret.outOfFuel := by
        rcases Nat.eq_zero_or_pos content.length with h0 | hpos
        · rw [h0]
          exact (uploadLoop_terminates_empty C L handle fuel r1 f0 (by omega)).1
        · exact (uploadLoop_terminates_full C L handle hfill fuel r1 f0 0 _ hrep hpos
            (by split <;> omega) (by omega)).1
      rcases hret : (uploadLoop C L handle content.length fuel r1 f0 0
          (if content.length < 900000 then content.length else 900000)).ret with _ | e | _
      · exact hne hret
      · obtain ⟨ev, hev, herr⟩ := uploadLoop_full_error C L handle hfill fuel r1 f0 0 _ hrep
          (Nat.zero_le _) (by split <;> omega) e hret
        have := hall ev (by rw [hc, addBlockCalls_cons_create]; exact hev)
        rw [this] at herr; cases herr
      · exact hnf hret
  · refine ⟨?_, ?_, ?_, ?_, ?_⟩
    · intro h p1 f1 S1 _ h1 h2 h3
      rw [hres] at h1
      cases h1
      rw [hopen] at h2
      cases h2
      rw [hstat] at h3
      cases h3
      rw [hd]
    · intro ev hev e he
      exfalso
      rcases uploadLoop_shape C L handle S fuel r1 f0 0
          (if S < 900000 then S else 900000) with hs | ⟨_, _, e2, _, hre⟩
      · rw [hc, List.cons_append, addBlockCalls_cons_create, addBlockCalls_append, hs,
          addBlockCalls_blockEvents] at hev
        have hlast : addBlockCalls [(⟨Call.close handle, ce⟩ : Event)] = [] := rfl
        rw [hlast, List.append_nil] at hev
        have := blockEvents_err _ _ ev hev
        rw [this] at he; cases he
      · rw [hok] at hre; cases hre
    · intro _ _ _; rw [hd]
    · intro hall
      have := hall ⟨Call.close handle, ce⟩ (by rw [hc]; simp)
      cases this
    · intro _ _ _ _ _ _; rw [hd]

/-- Four uploads of the three-byte file: with no fuel (no block sent yet), with
the first `AddBlock` failing, with `Close` failing, and with everything
succeeding. -/
theorem dbfsUploadFile_recorded_state_witness :
    ((dbfsUploadFile okClient demoFS 0 0 demoData "/tmp/x" "f.bin").calls
        = [⟨Call.create "/tmp/x" true, none⟩] ∧
      (dbfsUploadFile okClient demoFS 0 0 demoData "/tmp/x" "f.bin").data.file_size
        = some 3) ∧
    ((dbfsUploadFile (addFailsAt 1) demoFS 5 0 demoData "/tmp/x" "f.bin").ret
        = Ret.error "add-block failed" ∧
      (dbfsUploadFile (addFailsAt 1) demoFS 5 0 demoData "/tmp/x" "f.bin").data.id = "") ∧
    ((dbfsUploadFile closeFails demoFS 5 0 demoData "/tmp/x" "f.bin").ret
        = Ret.error "close failed" ∧
      (dbfsUploadFile closeFails demoFS 5 0 demoData "/tmp/x" "f.bin").data.id = "/tmp/x") ∧
    (dbfsUploadFile okClient demoFS 5 0 demoData "/tmp/x" "f.bin").data.id = "/tmp/x" :=
  ⟨⟨by decide,
     (dbfsUploadFile_recorded_state okClient demoFS 0 0 demoData "/tmp/x" "f.bin").1
       7 "/home/u/f.bin" ⟨[1, 2, 3], 0⟩ 3 rfl rfl rfl rfl⟩,
   ⟨by decide,
     (dbfsUploadFile_recorded_state (addFailsAt 1) demoFS 5 0 demoData "/tmp/x" "f.bin").2.1
       ⟨Call.addBlock 7 [1, 2, 3], some "add-block failed"⟩ (by decide)
       "add-block failed" rfl⟩,
   ⟨by decide,
     (dbfsUploadFile_recorded_state closeFails demoFS 5 0 demoData "/tmp/x" "f.bin").2.2.1
       ⟨Call.close 7, some "close failed"⟩ (by decide) rfl⟩,
   (dbfsUploadFile_recorded_state okClient demoFS 5 0 demoData "/tmp/x" "f.bin").2.2.2.2
     7 [1, 2, 3] rfl demoFS_small (by decide) (by decide)⟩

end Databricks
